import Mathlib

/-!
# carafe: process-execution core

A shallow embedding of the parts of `cudo/run.go`, `cudo/build_cmd.go`,
`cudo/set_env.go`, `cudo/set_user.go`, `cudo/user_group.go`,
`cudo/user_home.go`, `cudo/new.go`, `shell/options.go`, `shell/executor.go`,
`exec/exec.go`, `brew/check.go`, `brew/info.go` and `main.go` that the
properties below talk about, followed by the properties themselves.

Conventions of the embedding:

* Go `[]byte` is `List Byte`, Go `string` is `String`, `int`/`int64` are `Int`
  (no arithmetic below can leave the 64-bit range: every counter is bounded by
  a length or by the limit).
* `error` is `Option Error`, `none` being Go's `nil`.
* A pointer receiver that is mutated becomes explicit state passing: the
  method returns the new receiver next to its results.
* `*bytes.Buffer` is the list of bytes it holds; `(*bytes.Buffer).Write(p)`
  appends `p` and returns `(len(p), nil)`.
* Writers that are shared between several owners live in a `Heap` and are
  named by a `WriterRef`.
* A Go `map[string]string` is an association list with distinct keys
  (`GoMap`); `range` visits its entries in the order of the list, which is
  arbitrary, and the properties below are stated for every such list.
* What a child process does is outside the program: an `Executor` is
  described by the output chunks the child produces and the status it ends
  with (`ExecOutcome`).
* Libraries that are not part of the program (`encoding/json`,
  `hashicorp/go-version`, `strings.TrimSpace`) are parameters: `JsonTarget`,
  `Libs` and a function `TrimSpace` say what they return. The operating system
  is a parameter too: `OSFunc` says what each capability call returns.
* The regular expression of `main.go` is a value of `Regexp`, matched by a
  function that lists every match at every start position.
* The calls a function makes to the outside (`Stat`, a subprocess, printing)
  are returned as a list of `Effect`s, in order.
-/

namespace Carafe

/-! ## Basic types -/

/-- One byte of a Go `[]byte`. -/
abbrev Byte := UInt8

/-- Go `error` values that the modelled code can produce or pass along. -/
inductive Error where
  /-- `errors.New("platform is not set")` of `GetElevationPrefix`. -/
  | platformNotSet
  /-- `io.ErrShortWrite`, produced by `io.MultiWriter`. -/
  | shortWrite
  /-- The error `fmt.Errorf("command output exceeded limit; stderr: %s", ...)`;
  `stderr` is the captured text before `strings.TrimSpace`. -/
  | outputExceeded (stderr : List UInt8)
  /-- The error `fmt.Errorf("command failed: %v; stderr: %s", err, ...)`;
  `stderr` is the captured text before `strings.TrimSpace`. -/
  | commandFailed (cause : Error) (stderr : List UInt8)
  /-- Any error reported by an executor, identified by its message. -/
  | exec (msg : String)
  /-- `context.Canceled`. -/
  | canceled
  /-- `context.DeadlineExceeded`. -/
  | deadlineExceeded
  /-- An error of `json.Unmarshal`. -/
  | json (msg : String)
  /-- The error of a writer whose `Write` fails. -/
  | write (msg : String)
  /-- An error wrapped by `errors.Wrap` of `github.com/pkg/errors`. -/
  | wrap (msg : String) (cause : Error)
  /-- The error `--min-version must be set when --skip-not-installed is set` of
  `Check`. -/
  | minVersionRequired
  /-- The error `empty JSON array` of `installed`. -/
  | emptyJSONArray
  /-- An error of `version.NewVersion` of `github.com/hashicorp/go-version`. -/
  | malformedVersion (v : String)
  /-- An error `fmt.Errorf(format, arg)` whose argument, if it has one, is a
  text (`arg` is empty when it has none). -/
  | errorf (format : String) (arg : String)
  /-- An error `fmt.Errorf(format, err)` whose argument is an error. -/
  | errorfErr (format : String) (cause : Error)
  /-- The error `invalid formula name` of `validateFormulaArg`. -/
  | invalidFormulaName
  deriving DecidableEq, Repr

/-! ## `cudo/run.go`: the bounded output buffer -/

/-- The constant `defaultMaxOutputBytes int64 = 4 << 20`. -/
def defaultMaxOutputBytes : Int := 4 * 2 ^ 20

/-- The struct `limitedBufferWriter`; `buf` is the content of the
`*bytes.Buffer` it points to. -/
structure limitedBufferWriter where
  buf : List Byte
  limit : Int
  written : Int
  exceeded : Bool
  deriving DecidableEq, Repr

/-- The constructor `newLimitedBufferWriter(buf, limit)`. -/
def newLimitedBufferWriter (buf : List Byte) (limit : Int) : limitedBufferWriter :=
  { buf := buf, limit := limit, written := 0, exceeded := false }

/-- The method `(*bytes.Buffer).Write`: appends and reports `(len(p), nil)`. -/
def bufferWrite (buf p : List Byte) : List Byte × Int × Option Error :=
  (buf ++ p, (p.length : Int), none)

namespace limitedBufferWriter

/-- The method `(lw *limitedBufferWriter) Write(p []byte) (int, error)`.
Returns the receiver after the call, then the two results. -/
def Write (lw : limitedBufferWriter) (p : List Byte) :
    limitedBufferWriter × Int × Option Error :=
  let remaining := lw.limit - lw.written
  if remaining ≤ 0 then
    ({ lw with exceeded := true }, (p.length : Int), none)
  else if (p.length : Int) > remaining then
    let r := bufferWrite lw.buf (p.take remaining.toNat)
    ({ lw with buf := r.1, written := lw.written + r.2.1, exceeded := true },
      (p.length : Int), none)
  else
    let r := bufferWrite lw.buf p
    ({ lw with buf := r.1, written := lw.written + r.2.1 }, r.2.1, r.2.2)

/-- The method `Exceeded()`. -/
def Exceeded (lw : limitedBufferWriter) : Bool := lw.exceeded

/-- A sequence of `Write` calls, in order; the results of the calls are
dropped, the receiver after the last call is returned. -/
def writeAll (lw : limitedBufferWriter) : List (List Byte) → limitedBufferWriter
  | [] => lw
  | p :: ps => writeAll (lw.Write p).1 ps

end limitedBufferWriter


/-! ## Writers and the heap -/

/-- The record that `errorLogs` renders as text: the command's argument line
(`strings.Join(cmd.Args, " ")`, printed with `%q`), the path whose base name
is printed, and the content of the captured-output buffer. The rendering
itself is not modelled. -/
structure ErrorLog where
  argsLine : String
  path : String
  captured : Option (List Byte)
  deriving DecidableEq, Repr

/-- The name of an `io.Writer` that is not an `io.MultiWriter`. -/
inductive WriterRef where
  /-- The `i`-th `*limitedBufferWriter`. -/
  | limited (i : Nat)
  /-- The `i`-th `*bytes.Buffer` a caller supplied. -/
  | buffer (i : Nat)
  /-- The `syncedWriter` over the private `combinedOutputBuffer` of `Run`. -/
  | combined
  /-- The private `jsonOutputBuffer` of `Run`. -/
  | json
  /-- The file `os.Stdout`. -/
  | osStdout
  /-- The file `os.Stderr`. -/
  | osStderr
  /-- A writer whose `Write` fails with the given error. -/
  | broken (err : Error)
  deriving DecidableEq, Repr

/-- An `io.Writer`: the list of the writers an `io.MultiWriter` fans out to
(`io.MultiWriter` flattens nested multi-writers); a writer that is not a
multi-writer is the list of itself alone. Go's `nil` writer is `none` of
`Option Writer`. -/
abbrev Writer := List WriterRef

/-- The state of every writer that can be named, the lines a recording
logger has received through `Info`, and the state of the target of
`JSONOutput`: `decoded` lists the texts that `json.Unmarshal` has decoded into
it, in order (a text that is not valid JSON is rejected before the target is
touched, and is not listed). -/
structure Heap where
  limited : Nat → limitedBufferWriter
  buffer : Nat → List Byte
  combined : List Byte
  json : List Byte
  osStdout : List Byte
  osStderr : List Byte
  log : List ErrorLog
  decoded : List (List Byte) := []

/-- The heap in which nothing has been written yet. -/
def Heap.init : Heap :=
  { limited := fun _ => newLimitedBufferWriter [] 0, buffer := fun _ => [],
    combined := [], json := [], osStdout := [], osStderr := [], log := [] }

/-- The `Write` method of a named writer. -/
def WriterRef.Write (h : Heap) : WriterRef → List Byte → Heap × Int × Option Error
  | .limited i, p =>
    ({ h with limited := Function.update h.limited i ((h.limited i).Write p).1 },
      ((h.limited i).Write p).2)
  | .buffer i, p =>
    ({ h with buffer := Function.update h.buffer i (bufferWrite (h.buffer i) p).1 },
      (bufferWrite (h.buffer i) p).2)
  | .combined, p => ({ h with combined := (bufferWrite h.combined p).1 }, (bufferWrite h.combined p).2)
  | .json, p => ({ h with json := (bufferWrite h.json p).1 }, (bufferWrite h.json p).2)
  | .osStdout, p => ({ h with osStdout := (bufferWrite h.osStdout p).1 }, (bufferWrite h.osStdout p).2)
  | .osStderr, p => ({ h with osStderr := (bufferWrite h.osStderr p).1 }, (bufferWrite h.osStderr p).2)
  | .broken e, _ => (h, 0, some e)

/-- The method `(*multiWriter).Write` of Go's `io`: the writers are written in
order; the first error, or the first short write, ends the call. -/
def Writer.Write (h : Heap) : Writer → List Byte → Heap × Int × Option Error
  | [], p => (h, (p.length : Int), none)
  | w :: ws, p =>
    if (w.Write h p).2.2 ≠ none then ((w.Write h p).1, (w.Write h p).2.1, (w.Write h p).2.2)
    else if (w.Write h p).2.1 ≠ (p.length : Int) then
      ((w.Write h p).1, (w.Write h p).2.1, some Error.shortWrite)
    else Writer.Write (w.Write h p).1 ws p

/-- The helper `multiWriter(ws ...io.Writer)` of `shell/executor.go`: the `nil`
writers are dropped, the others are combined by `io.MultiWriter`. -/
def multiWriter (ws : List (Option Writer)) : Writer :=
  (ws.filterMap id).flatten


/-! ## Go maps and the environment (`shell/options.go`, `shell/executor.go`) -/

/-- A Go `map[string]string`. -/
abbrev GoMap := AList (fun _ : String => String)

/-- The call `strings.SplitN(s, "=", 2)` of Go's `strings`: `some (k, v)` when
the result has two elements (`s` holds an `=`; `k` is the text before the first
one, `v` the text after it), `none` when it has one (`s` holds no `=`). -/
def stringsSplitN2 (s : String) : Option (String × String) :=
  match s.data.span (fun c => c != '=') with
  | (k, _ :: v) => some (String.mk k, String.mk v)
  | (_, []) => none

/-- The function `SplitEquals(strs []string) map[string]string`. -/
def SplitEquals (strs : List String) : GoMap :=
  strs.foldl (fun result str =>
    match stringsSplitN2 str with
    | some (k, v) => result.insert k v
    | none => result) ∅

/-- The function `JoinEquals(m map[string]string) []string`. -/
def JoinEquals (m : GoMap) : List String :=
  m.entries.map (fun e => e.1 ++ "=" ++ e.2)

/-- The loop `for key, value := range newEnvs { env[key] = value }`. -/
def overwriteAll (env newEnvs : GoMap) : GoMap :=
  newEnvs.entries.foldl (fun env e => env.insert e.1 e.2) env

/-- The loop of `ExtraEnvNoOverwrite`: a key that `env` has already is
skipped. -/
def fillGaps (env newEnvs : GoMap) : GoMap :=
  newEnvs.entries.foldl (fun env e => if e.1 ∈ env then env else env.insert e.1 e.2) env

/-- The variable `DefaultEnvAllowlist`, as the list of its keys. -/
def DefaultEnvAllowlist : List String := ["PATH", "HOME", "USER"]

/-- The first loop of `OverwriteEnvWithAllowlist`: the entries of the existing
environment whose key is in the allowlist. `allowlist` is the key set of the
`map[string]any`. -/
def allowedOnly (existingEnv : GoMap) (allowlist : List String) : GoMap :=
  existingEnv.entries.foldl
    (fun cmdEnv e => if e.1 ∈ allowlist then cmdEnv.insert e.1 e.2 else cmdEnv) ∅

/-! ## Commands and executors -/

/-- The struct `shell.Cmd`, in the fields the code below reads or writes.
`Env` does not distinguish `nil` from the empty slice. `Stdin` is the content
of the reader. -/
structure Cmd where
  Path : String
  Args : List String
  Env : List String
  Dir : String
  Stdin : Option (List Byte)
  Stdout : Option Writer
  Stderr : Option Writer
  deriving DecidableEq, Repr

/-- Modelled from the spec: `shell.NewCommand(name, args...)`, whose source
file is not part of the sources under study. The command's path is the name
it is given (spec 4.1: "constructs a Command whose path is the prefix's first
token"), and its argument list starts with that name, as that of
`exec.Command` does (`TestBuildCmd`, `TestCmd_Format`). -/
def NewCommand (name : String) (args : List String) : Cmd :=
  { Path := name, Args := name :: args, Env := [], Dir := "", Stdin := none,
    Stdout := none, Stderr := none }

/-- One of the two output streams of a child process. -/
inductive Stream where
  | out
  | err
  deriving DecidableEq, Repr

/-- What a child process does: the chunks it writes, in the order they reach
the command's writers, the status it ends with (`none` for success), and the
time it takes. -/
structure ExecOutcome where
  events : List (Stream × List Byte)
  err : Option Error
  duration : Int
  deriving DecidableEq, Repr

/-- The interface `Logger`, by the two implementations that matter: the
`discardLogger`, and one that records what `Info` is given. -/
inductive Logger where
  | discard
  | recording
  deriving DecidableEq, Repr

/-- The interface `shell.Executor`. `logger` is `some l` exactly when the
executor is the package's own `*executor`, `l` being its `debugLogger`;
`run` tells what the child launched for a command does; `verbose` is the
`verbose` of the configuration of the package's own executor, and `false` for
any other implementation. -/
structure Executor where
  logger : Option Logger
  run : Cmd → ExecOutcome
  verbose : Bool := false

/-- The rewiring at the head of `(*executor).Run`: a verbose executor copies
each stream of the command to the stream of the same name of the process as
well, unless the command writes to that stream alone already. -/
def verboseCmd (cmd : Cmd) : Cmd :=
  { cmd with
    Stdout :=
      if cmd.Stdout ≠ some [WriterRef.osStdout] then
        some (multiWriter [cmd.Stdout, some [WriterRef.osStdout]])
      else cmd.Stdout,
    Stderr :=
      if cmd.Stderr ≠ some [WriterRef.osStderr] then
        some (multiWriter [cmd.Stderr, some [WriterRef.osStderr]])
      else cmd.Stderr }


/-- One output chunk of the child reaches the writer of its stream. The state
is the heap and, per stream, the error that ended the copying of that stream
(`io.Copy` stops at the first failed write). A `nil` writer discards. -/
def deliver (cmd : Cmd) (st : Heap × Option Error × Option Error)
    (ev : Stream × List Byte) : Heap × Option Error × Option Error :=
  match ev.1 with
  | .out =>
    if st.2.1 ≠ none then st
    else match cmd.Stdout with
      | none => st
      | some w => ((Writer.Write st.1 w ev.2).1, (Writer.Write st.1 w ev.2).2.2, st.2.2)
  | .err =>
    if st.2.2 ≠ none then st
    else match cmd.Stderr with
      | none => st
      | some w => ((Writer.Write st.1 w ev.2).1, st.2.1, (Writer.Write st.1 w ev.2).2.2)

/-- The interface method `Executor.Run(cmd)`: the child's output is copied to
the command's writers (after the rewiring of a verbose executor), and the
child's status is returned; when the child succeeds, a failed copy is what is
returned (as `exec.Cmd.Wait` does). -/
def Executor.Run (e : Executor) (h : Heap) (cmd : Cmd) : Heap × Option Error :=
  let wired := if e.verbose then verboseCmd cmd else cmd
  let st := (e.run cmd).events.foldl (deliver wired) (h, none, none)
  (st.1, match (e.run cmd).err with
    | some err => some err
    | none => match st.2.1 with
      | some err => some err
      | none => st.2.2)

/-! ## `shell/options.go`: the run configuration and its options -/

/-- A `context.Context`, by what `runCancellable` can observe of it: the time,
counted from the start of the run, at which its `Done` channel is closed
(`none`: never), and the error `Err()` reports from then on. -/
structure GoContext where
  doneAt : Option Int
  err : Error
  deriving DecidableEq, Repr

/-- The context `context.Background()`. -/
def GoContext.Background : GoContext := { doneAt := none, err := Error.canceled }

/-- The context `context.WithTimeout(parent, timeout)`: done when the parent is,
or when the timeout has passed, whichever comes first. -/
def GoContext.WithTimeout (parent : GoContext) (timeout : Int) : GoContext :=
  match parent.doneAt with
  | some t => if t ≤ timeout then parent else { doneAt := some timeout, err := Error.deadlineExceeded }
  | none => { doneAt := some timeout, err := Error.deadlineExceeded }

/-- The target of `JSONOutput`, by what Go's `encoding/json` does with a text
and this target: `Valid` is `json.Valid(data)`, `unmarshal` is the error that
`json.Unmarshal(data, target)` returns. `Unmarshal` checks the text first and
returns a syntax error, without touching the target, when it is not valid
JSON (`invalid_fails`); a valid text is decoded into the target, which can
still fail when the value does not fit the target's type. -/
structure JsonTarget where
  Valid : List Byte → Bool
  unmarshal : List Byte → Option Error
  invalid_fails : ∀ data, Valid data = false → unmarshal data ≠ none

/-- The struct `runConfig`. `combinedOutputBuffer` and `jsonOutputBuffer` tell
whether the field points to the private buffer of the run (`true`) or is `nil`;
`cancel` tells whether the cancel function is set. -/
structure runConfig where
  stdout : Option Writer
  stderr : Option Writer
  stdin : Option (List Byte)
  combinedOutputBuffer : Bool
  ctx : Option GoContext
  env : Option GoMap
  logError : Bool
  timeout : Int
  dir : String
  jsonOutputBuffer : Bool
  jsonOutput : Option JsonTarget
  cancel : Bool

/-- The type `ExecOption`, a function on the run configuration. The first
argument is what `os.Environ()` returns when the option is applied. -/
abbrev ExecOption := List String → runConfig → runConfig

/-- The option `Output(w)`. -/
def Output (w : Writer) : ExecOption :=
  fun _ config => { config with stdout := some w, stderr := some w }

/-- The option `JSONOutput(out)`. -/
def JSONOutput (out : JsonTarget) : ExecOption :=
  fun _ config => { config with jsonOutput := some out }

/-- The option `StreamOutput()`. -/
def StreamOutput : ExecOption :=
  fun _ config => { config with stdout := some [WriterRef.osStdout],
                                stderr := some [WriterRef.osStderr],
                                combinedOutputBuffer := false, logError := false }

/-- The option `Stdout(w)`. -/
def Stdout (w : Writer) : ExecOption :=
  fun _ config => { config with stdout := some w }

/-- The option `Stderr(w)`. -/
def Stderr (w : Writer) : ExecOption :=
  fun _ config => { config with stderr := some w }

/-- The option `Stdin(r)`. -/
def Stdin (r : List Byte) : ExecOption :=
  fun _ config => { config with stdin := some r }

/-- The option `NoErrorReporting()`. -/
def NoErrorReporting : ExecOption :=
  fun _ config => { config with logError := false, combinedOutputBuffer := false }

/-- The option `StreamStdErr()`. -/
def StreamStdErr : ExecOption :=
  fun _ config => { config with stdout := none, stderr := some [WriterRef.osStderr],
                                combinedOutputBuffer := false, logError := false }

/-- The option `Context(ctx)`. -/
def Context (ctx : GoContext) : ExecOption :=
  fun _ config => { config with ctx := some ctx }

/-- The option `Timeout(timeout)`. -/
def Timeout (timeout : Int) : ExecOption :=
  fun _ config => { config with timeout := timeout }

/-- The option `Cwd(dir)`. -/
def Cwd (dir : String) : ExecOption :=
  fun _ config => { config with dir := dir }

/-- The option `ExtraEnvNoOverwrite(newEnvs)`. -/
def ExtraEnvNoOverwrite (newEnvs : GoMap) : ExecOption :=
  fun environ config => { config with env := some (fillGaps (SplitEquals environ) newEnvs) }

/-- The option `ExtraEnvOverwrite(newEnvs)`. -/
def ExtraEnvOverwrite (newEnvs : GoMap) : ExecOption :=
  fun environ config => { config with env := some (overwriteAll (SplitEquals environ) newEnvs) }

/-- The option `OverwriteEnvWithAllowlist(newEnvs, allowlist)`. -/
def OverwriteEnvWithAllowlist (newEnvs : GoMap) (allowlist : List String) : ExecOption :=
  fun environ config =>
    { config with env := some (overwriteAll (allowedOnly (SplitEquals environ) allowlist) newEnvs) }


/-! ## `shell/executor.go`: running a command -/

/-- The function `configureCmd(cmd, config)`; both arguments are mutated. -/
def configureCmd (cmd : Cmd) (config : runConfig) : Cmd × runConfig :=
  let cmd := match config.env with
    | some env => { cmd with Env := cmd.Env ++ JoinEquals env }
    | none => cmd
  let cmd := match config.stdout with
    | some w => { cmd with Stdout := some w }
    | none => cmd
  let cmd := match config.stderr with
    | some w => { cmd with Stderr := some w }
    | none => cmd
  let cmd := if config.combinedOutputBuffer then
      { cmd with Stdout := some (multiWriter [cmd.Stdout, some [WriterRef.combined]]),
                 Stderr := some (multiWriter [cmd.Stderr, some [WriterRef.combined]]) }
    else cmd
  let config := if config.timeout ≠ 0 then
      { config with
          ctx := some (GoContext.WithTimeout
            (match config.ctx with
              | some ctx => ctx
              | none => GoContext.Background) config.timeout),
          cancel := true }
    else config
  let cmd := if config.dir ≠ "" then { cmd with Dir := config.dir } else cmd
  (cmd, config)

/-- The function `writeToStdin(logger, cmd, r)`: a command that has a stdin
already keeps it (`StdinPipe` fails); otherwise the reader's content is
streamed to the child. The copying runs in the background, and its failures
are only logged at debug level; neither is modelled. -/
def writeToStdin (cmd : Cmd) (r : List Byte) : Cmd :=
  match cmd.Stdin with
  | some _ => cmd
  | none => { cmd with Stdin := some r }

/-- The function `runCancellable(ctx, executor, cmd, cancel)`: the `select`
between the context's `Done` channel and the executor's result. The context
wins when it is done no later than the child ends; what the child writes
after that is not seen by the caller. -/
def runCancellable (ctx : GoContext) (e : Executor) (h : Heap) (cmd : Cmd) :
    Heap × Option Error :=
  match ctx.doneAt with
  | some t => if t ≤ (e.run cmd).duration then (h, some ctx.err) else e.Run h cmd
  | none => e.Run h cmd

/-- The function `errors.Cause` of `github.com/pkg/errors`. -/
def errorsCause : Error → Error
  | .wrap _ cause => errorsCause cause
  | err => err

/-- The function `errorLogs(cmd, capturedOutput)`. -/
def errorLogs (cmd : Cmd) (capturedOutput : Option (List Byte)) : ErrorLog :=
  { argsLine := " ".intercalate cmd.Args, path := cmd.Path, captured := capturedOutput }

/-- The method `Info` of a logger. -/
def Logger.Info (l : Logger) (h : Heap) (logs : ErrorLog) : Heap :=
  match l with
  | .discard => h
  | .recording => { h with log := h.log ++ [logs] }

/-- The configuration `Run` starts from: the combined-output buffer is
allocated and `logError` is set; every other field has its zero value. -/
def runConfig.initial : runConfig :=
  { stdout := none, stderr := none, stdin := none, combinedOutputBuffer := true,
    ctx := none, env := none, logError := true, timeout := 0, dir := "",
    jsonOutputBuffer := false, jsonOutput := none, cancel := false }

/-- The function `Run(e, cmd, opts...)` of package `shell`. The result is the
heap and the command after the call, and the error returned. -/
def Run (environ : List String) (e : Executor) (h : Heap) (cmd : Cmd)
    (opts : List ExecOption) : Heap × Cmd × Option Error :=
  let h := { h with combined := [] }
  let config := opts.foldl (fun config opt => opt environ config) runConfig.initial
  let logger : Logger := match e.logger with
    | some l => l
    | none => Logger.discard
  let h := if config.jsonOutput.isSome then { h with json := [] } else h
  let config := if config.jsonOutput.isSome then
      { config with jsonOutputBuffer := true, stdout := some [WriterRef.json] }
    else config
  let cc := configureCmd cmd config
  let cmd := cc.1
  let config := cc.2
  let cmd := match config.stdin with
    | some r => writeToStdin cmd r
    | none => cmd
  let r := match config.ctx with
    | some ctx => runCancellable ctx e h cmd
    | none => e.Run h cmd
  let err := r.2
  let jErr := match config.jsonOutput with
    | some out => out.unmarshal r.1.json
    | none => none
  let h := match config.jsonOutput with
    | some out => if out.Valid r.1.json then { r.1 with decoded := r.1.decoded ++ [r.1.json] }
      else r.1
    | none => r.1
  if jErr ≠ none then (h, cmd, jErr)
  else if !config.logError || err = none || err.map errorsCause = some Error.canceled then
    (h, cmd, err)
  else
    let logs := errorLogs cmd (if config.combinedOutputBuffer then some h.combined else none)
    if config.ctx ≠ none then (h, cmd, err)
    else (logger.Info h logs, cmd, err)

/-! ## `cudo`: the session and its commands -/

/-- The struct `CUSudo`. The `OSFunc` capability set is not a field here: the
functions that use it take what it returns as arguments. -/
structure CUSudo where
  Platform : String
  Executor : Executor
  CurrentUser : String
  CurrentGroup : String
  UserHome : String
  CWD : String

/-- The constant `windows`. -/
def windows : String := "windows"

/-- The constant `darwin`. -/
def darwin : String := "darwin"

namespace CUSudo

/-- The method `GetElevationPrefix()`. -/
def GetElevationPrefix (c : CUSudo) : Except Error (List String) :=
  if c.Platform = "" then .error Error.platformNotSet
  else if c.Platform = windows then .ok ["runas", "/user:" ++ c.CurrentUser]
  else .ok ["sudo", "-H", "-u", c.CurrentUser]

/-- The method `BuildCmd(args)`. `args[0]` and `args[1:]` of the source are the
head and the tail of the prefixed list, which is never empty. -/
def BuildCmd (c : CUSudo) (args : List String) : Except Error Cmd :=
  match c.GetElevationPrefix with
  | .error err => .error err
  | .ok elevationPrefix =>
    match elevationPrefix ++ args with
    | [] => .ok (NewCommand "" [])
    | a :: as => .ok (NewCommand a as)

/-- The method `SetPathEnv()`. -/
def SetPathEnv (c : CUSudo) : GoMap :=
  if c.Platform = windows then AList.singleton "PATH" "C:\\Windows\\System32;C:\\Windows"
  else if c.Platform = darwin then AList.singleton "PATH" "/usr/local/bin:/usr/bin:/bin:/usr/sbin:/sbin"
  else AList.singleton "PATH" "/usr/local/sbin:/usr/local/bin:/usr/sbin:/usr/bin:/sbin:/bin"

/-- The method `SetPWD(path)`. -/
def SetPWD (_c : CUSudo) (path : String) : GoMap :=
  (AList.singleton "PWD" path).insert "CWD" path

/-- The method `SetEnvOpts(opts...)`. -/
def SetEnvOpts (_c : CUSudo) (opts : List GoMap) : ExecOption :=
  ExtraEnvOverwrite (opts.foldl overwriteAll ∅)

/-- The method `RunWithOpts(args, opts...)`; the heap after the call is
returned next to the error. -/
def RunWithOpts (c : CUSudo) (environ : List String) (h : Heap) (args : List String)
    (opts : List ExecOption) : Heap × Option Error :=
  match c.BuildCmd args with
  | .error err => (h, some err)
  | .ok cmd =>
    ((Carafe.Run environ c.Executor h cmd opts).1, (Carafe.Run environ c.Executor h cmd opts).2.2)

/-- The heap `Run(args)` starts from: its two local buffers, each behind a
`limitedBufferWriter` of the default limit, are the writers `limited 0` and
`limited 1`. -/
def runHeap : Heap :=
  { Heap.init with
    limited := fun i =>
      if i = 0 ∨ i = 1 then newLimitedBufferWriter [] defaultMaxOutputBytes
      else Heap.init.limited i }

/-- The method `Run(args)`. Its two `limitedBufferWriter`s are the writers
`limited 0` (stdout) and `limited 1` (stderr) of a heap of its own; the
strings it returns are given as their bytes. -/
def Run (c : CUSudo) (environ : List String) (args : List String) :
    List Byte × Option Error :=
  let h := runHeap
  let envSlice := [c.SetPathEnv]
  let envSlice := if c.CWD ≠ "" then envSlice ++ [c.SetPWD c.CWD] else envSlice
  let envOpt := c.SetEnvOpts envSlice
  let opts := [envOpt, Stdout [WriterRef.limited 0], Stderr [WriterRef.limited 1]]
  let opts := if c.CWD ≠ "" then opts ++ [Cwd c.CWD] else opts
  let r := c.RunWithOpts environ h args opts
  let stdout := r.1.limited 0
  let stderr := r.1.limited 1
  let truncated := stdout.Exceeded || stderr.Exceeded
  if truncated then (stdout.buf, some (Error.outputExceeded stderr.buf))
  else match r.2 with
    | some err => (stderr.buf, some (Error.commandFailed err stderr.buf))
    | none => (stdout.buf, none)

end CUSudo


/-! ## `exec/exec.go` and `brew`: the check of a package -/

/-- The struct `CarafeConfig`. `CUSudo` is a pointer to a session whose executor
is a stateful object (a test executor hands out its outputs one by one, and
what a real command prints depends on the state of the system): `CUSudo n` is
the session as the `n`-th call of `RunBrew`, counted from 0, finds it. -/
structure CarafeConfig where
  Arch : String
  CUSudo : Nat → CUSudo

/-- The method `GetBrewPath()`. -/
def CarafeConfig.GetBrewPath (c : CarafeConfig) : String :=
  if c.Arch = "arm64" then "/opt/homebrew/bin/brew" else "/usr/local/bin/brew"

/-- The method `RunBrew(args)`, as the `n`-th call of it. -/
def CarafeConfig.RunBrew (c : CarafeConfig) (environ : List String) (n : Nat)
    (args : List String) : List Byte × Option Error :=
  (c.CUSudo n).Run environ (c.GetBrewPath :: args)

/-- The struct `Installed`. -/
structure Installed where
  Version : String
  deriving DecidableEq, Repr

/-- The struct `HomebrewFormula`. -/
structure HomebrewFormula where
  Name : String
  Installed : List Installed
  deriving DecidableEq, Repr

/-- The struct `CheckResult`. -/
structure CheckResult where
  Installed : Bool
  Version : String
  MeetsMinimumVersion : Bool
  Name : String
  deriving DecidableEq, Repr

/-- The two libraries behind `brew/info.go`, which are not part of the
program. `jsonUnmarshal output` is what `json.Unmarshal([]byte(output), &info)`
does for `info []HomebrewFormula`: the error, or the decoded records.
`NewVersion v` is the error of `version.NewVersion(v)` of
`github.com/hashicorp/go-version` (`none` when `v` parses), and
`GreaterThanOrEqual a b` is the comparison of the versions parsed from `a` and
`b`. The empty string is not a version (`empty_malformed`). -/
structure Libs where
  jsonUnmarshal : List Byte → Except Error (List HomebrewFormula)
  NewVersion : String → Option Error
  GreaterThanOrEqual : String → String → Bool
  empty_malformed : NewVersion "" ≠ none

/-- What `OSFunc.Stat` returns for a path: no error, an error for which
`os.IsNotExist` holds, or another error. -/
inductive StatResult where
  | ok
  | notExist
  | failed
  deriving DecidableEq, Repr

/-- What `Check` does to the world, in order: a call of `Stat`, a call of
`RunBrew`, a result record printed to the standard output. -/
inductive Effect where
  | stat (path : String)
  | runBrew (args : List String)
  | print (result : CheckResult)
  deriving DecidableEq, Repr

/-- The number of calls of `RunBrew` among the effects so far. -/
def launches (t : List Effect) : Nat :=
  (t.filter (fun ef => match ef with
    | .runBrew _ => true
    | _ => false)).length

/-- The function `infoOutput(c, item)`; `t` holds the effects so far. -/
def infoOutput (c : CarafeConfig) (environ : List String) (t : List Effect) (item : String) :
    (List Byte × Option Error) × List Effect :=
  (c.RunBrew environ (launches t) ["info", "--json", item],
    t ++ [Effect.runBrew ["info", "--json", item]])

/-- The function `installed(output)`. -/
def installed (lib : Libs) (output : List Byte) : Bool × Option Error :=
  match lib.jsonUnmarshal output with
  | .error err => (false, some err)
  | .ok info =>
    match info with
    | [] => (false, some Error.emptyJSONArray)
    | f :: _ => if f.Installed.length = 0 then (false, none) else (true, none)

/-- The function `getVersion(output)`. -/
def getVersion (lib : Libs) (output : List Byte) : String × Option Error :=
  match lib.jsonUnmarshal output with
  | .error err => ("", some err)
  | .ok info =>
    match info with
    | [] => ("", none)
    | f :: _ =>
      match f.Installed with
      | [] => ("", none)
      | i :: _ => (i.Version, none)

/-- The function `VersionMeetsOrExceedsMinimum(c, item, minimumVersion)`. -/
def VersionMeetsOrExceedsMinimum (lib : Libs) (c : CarafeConfig) (environ : List String)
    (t : List Effect) (item minimumVersion : String) : (Bool × Option Error) × List Effect :=
  let o := infoOutput c environ t item
  match o.1.2 with
  | some err => ((true, some err), o.2)
  | none =>
    match installed lib o.1.1 with
    | (_, some err) => ((true, some err), o.2)
    | (isInstalled, none) =>
      if !isInstalled then ((true, none), o.2)
      else
        match getVersion lib o.1.1 with
        | (_, some err) => ((true, some err), o.2)
        | (installedVersion, none) =>
          if installedVersion = "" then ((true, none), o.2)
          else
            match lib.NewVersion installedVersion with
            | some err => ((true, some err), o.2)
            | none =>
              match lib.NewVersion minimumVersion with
              | some err => ((true, some err), o.2)
              | none => ((lib.GreaterThanOrEqual installedVersion minimumVersion, none), o.2)

/-- The function `printResultJSON(result)`: `json.MarshalIndent` cannot fail on
a record of strings and booleans, so the record is printed and `nil` is
returned. -/
def printResultJSON (t : List Effect) (result : CheckResult) : Option Error × List Effect :=
  (none, t ++ [Effect.print result])

/-- The function `Check(c, item, minVersion, munkiInstallsCheck,
skipNotInstalled)`. `stat` is what `c.CUSudo.OSFunc.Stat` returns. The result
is the code and the error, and the effects of the call, in order. -/
def Check (lib : Libs) (c : CarafeConfig) (environ : List String) (stat : String → StatResult)
    (item minVersion : String) (munkiInstallsCheck skipNotInstalled : Bool) :
    (Int × Option Error) × List Effect :=
  let pass : Int := if munkiInstallsCheck then 1 else 0
  let fail : Int := if munkiInstallsCheck then 0 else 1
  if minVersion = "" ∧ skipNotInstalled = true then
    ((fail, some Error.minVersionRequired), [])
  else
    let result : CheckResult :=
      { Installed := false, Version := "", MeetsMinimumVersion := false, Name := item }
    let t := [Effect.stat c.GetBrewPath]
    if stat c.GetBrewPath = StatResult.notExist then ((pass, none), t)
    else
      let o := infoOutput c environ t item
      match o.1.2 with
      | some err => ((fail, some err), o.2)
      | none =>
        match installed lib o.1.1 with
        | (_, some err) => ((fail, some err), o.2)
        | (isPresent, none) =>
          let result := { result with Installed := isPresent }
          if !isPresent then
            let p := printResultJSON o.2 result
            match p.1 with
            | some err => ((fail, some err), p.2)
            | none => if skipNotInstalled then ((pass, none), p.2) else ((fail, none), p.2)
          else
            match getVersion lib o.1.1 with
            | (_, some err) => ((pass, some err), o.2)
            | (version, none) =>
              let result := { result with Version := version }
              if minVersion ≠ "" then
                let m := VersionMeetsOrExceedsMinimum lib c environ o.2 item minVersion
                match m.1.2 with
                | some err => ((pass, some err), m.2)
                | none =>
                  let result := { result with MeetsMinimumVersion := m.1.1 }
                  if !m.1.1 then
                    let p := printResultJSON m.2 result
                    match p.1 with
                    | some err => ((fail, some err), p.2)
                    | none => ((fail, none), p.2)
                  else
                    let p := printResultJSON m.2 result
                    ((pass, p.1), p.2)
              else
                let p := printResultJSON o.2 result
                ((pass, p.1), p.2)

/-! ## `cudo/set_user.go`, `cudo/user_group.go`, `cudo/user_home.go`, `cudo/new.go`,
`exec/exec.go`: the bring-up of a session -/

/-- The struct `user.User` of `os/user`, by the fields the package reads. -/
structure User where
  Username : String
  Gid : String
  HomeDir : String
  deriving DecidableEq, Repr

/-- The struct `user.Group` of `os/user`, by the field the package reads. -/
structure Group where
  Name : String
  deriving DecidableEq, Repr

/-- An `os.FileInfo`, by what `SetConsoleUser` reads of it: `statUid` is
`some uid` when `Sys()` is a `*syscall.Stat_t` whose `Uid` is `uid`, and `none`
when the type assertion fails. -/
structure FileInfo where
  statUid : Option Nat
  deriving DecidableEq, Repr

/-- The interface `OSFunc`: what each of its methods returns. -/
structure OSFunc where
  Stat : String → Except Error FileInfo
  LookupID : String → Except Error User
  LookupUser : String → Except Error User
  Getegid : Int
  LookupGroupID : String → Except Error Group
  Getenv : String → String

/-- The function `checkUserNotRoot(user)`. -/
def checkUserNotRoot (user : String) : Option Error :=
  if user = "root" ∨ user = "_mbsetupuser" then
    some (Error.errorf
      "this program must be run when a regular user is the console user, not %s" user)
  else none

/-- The text of a byte string: a Go `string` holds bytes, and each byte is
rendered here as the character of the same code. -/
def bytesString (b : List Byte) : String :=
  String.mk (b.map (fun x => Char.ofNat x.toNat))

/-- The pieces of a text between the occurrences of a separator character, as
`strings.Split(s, sep)` gives them for a separator of one character. -/
def splitOn (sep : Char) : List Char → List (List Char)
  | [] => [[]]
  | ch :: rest =>
    if ch = sep then [] :: splitOn sep rest
    else match splitOn sep rest with
      | seg :: segs => (ch :: seg) :: segs
      | [] => [[ch]]

/-- The function `strings.Split(s, "\n")`. -/
def stringsSplitLines (s : String) : List String :=
  (splitOn '\n' s.data).map String.mk

/-- The function `strings.HasPrefix(s, p)`. -/
def stringsHasPrefix (s p : String) : Bool :=
  p.data.isPrefixOf s.data

/-- The function `strings.TrimPrefix(s, p)`. -/
def stringsTrimPrefix (s p : String) : String :=
  if stringsHasPrefix s p then String.mk (s.data.drop p.data.length) else s

namespace CUSudo

/-- The method `SetConsoleUser()`: the session after the call, and the error. -/
def SetConsoleUser (c : CUSudo) (os : OSFunc) : CUSudo × Option Error :=
  let resolved : Except Error String :=
    if c.Platform = windows then
      let realUser := os.Getenv "USERNAME"
      if realUser = "" then .error (Error.errorf "failed to get real user on Windows" "")
      else .ok realUser
    else if c.Platform = darwin then
      match os.Stat "/dev/console" with
      | .error err => .error (Error.errorfErr "failed to stat /dev/console: %v" err)
      | .ok info =>
        match info.statUid with
        | none => .error (Error.errorf "failed to get Stat_t for /dev/console" "")
        | some uid =>
          match os.LookupID (toString uid) with
          | .error err => .error (Error.errorfErr "failed to lookup user by UID: %v" err)
          | .ok theUser => .ok theUser.Username
    else
      let realUser := os.Getenv "SUDO_USER"
      let realUser := if realUser = "" then os.Getenv "USER" else realUser
      if realUser = "" then
        .error (Error.errorf "failed to get real user on Unix-like system" "")
      else .ok realUser
  match resolved with
  | .error err => (c, some err)
  | .ok currentUser =>
    match checkUserNotRoot currentUser with
    | some err => (c, some err)
    | none => ({ c with CurrentUser := currentUser }, none)

/-- The method `CheckForRoot()`; `isAdmin` is what the function `isAdmin()`
returns (whether `\\.\PHYSICALDRIVE0` can be opened). -/
def CheckForRoot (c : CUSudo) (os : OSFunc) (isAdmin : Bool) : Option Error :=
  if c.Platform = windows then
    if isAdmin then none
    else some (Error.errorf "this program should be run as Administrator" "")
  else if os.Getegid ≠ 0 then some (Error.errorf "this program must be run as root" "")
  else none

/-- The method `SetGroup()`: the session after the call, and the error. -/
def SetGroup (c : CUSudo) (os : OSFunc) : CUSudo × Option Error :=
  if c.CurrentUser = "" then (c, some (Error.errorf "current user is not set" ""))
  else match os.LookupUser c.CurrentUser with
    | .error err => (c, some (Error.errorfErr "failed to lookup user: %v" err))
    | .ok usr =>
      match os.LookupGroupID usr.Gid with
      | .error err => (c, some (Error.errorfErr "failed to lookup group: %v" err))
      | .ok group =>
        if group.Name = "" then (c, some (Error.errorf "group name is empty" ""))
        else ({ c with CurrentGroup := group.Name }, none)

/-- The method `getLinuxUserHome()`. -/
def getLinuxUserHome (_c : CUSudo) (os : OSFunc) : String × Option Error :=
  let sudoUser := os.Getenv "SUDO_USER"
  if sudoUser = "" then
    ("", some (Error.errorf "SUDO_USER environment variable is not set" ""))
  else match os.LookupUser sudoUser with
    | .error err => ("", some err)
    | .ok usr => (usr.HomeDir, none)

/-- The method `getWindowsUserHome()`. -/
def getWindowsUserHome (_c : CUSudo) : String × Option Error :=
  ("not implemented", none)

/-- The method `getDarwinUserHome()`. `TrimSpace` is `strings.TrimSpace` of Go's
library. -/
def getDarwinUserHome (c : CUSudo) (environ : List String) (TrimSpace : String → String) :
    String × Option Error :=
  let args := ["/usr/bin/dscl", ".", "-read", "/Users/" ++ c.CurrentUser, "NFSHomeDirectory"]
  let r := c.Run environ args
  match r.2 with
  | some err => ("", some err)
  | none =>
    let lines := stringsSplitLines (bytesString r.1)
    match lines.find? (fun line => stringsHasPrefix line "NFSHomeDirectory:") with
    | some line => (TrimSpace (stringsTrimPrefix line "NFSHomeDirectory:"), none)
    | none =>
      ("", some (Error.errorf "could not find home directory for user %s" c.CurrentUser))

/-- The method `getUserHome()`. -/
def getUserHome (c : CUSudo) (os : OSFunc) (environ : List String)
    (TrimSpace : String → String) : String × Option Error :=
  if c.Platform = darwin then c.getDarwinUserHome environ TrimSpace
  else if c.Platform = windows then c.getWindowsUserHome
  else c.getLinuxUserHome os

/-- The method `SetUserHome()`: the session after the call, and the error. -/
def SetUserHome (c : CUSudo) (os : OSFunc) (environ : List String)
    (TrimSpace : String → String) : CUSudo × Option Error :=
  match c.getUserHome os environ TrimSpace with
  | (_, some err) => (c, some (Error.wrap "failed to get user home" err))
  | (home, none) => ({ c with UserHome := home }, none)

end CUSudo

/-- The struct `executorConfig` of package `shell`. -/
structure executorConfig where
  verbose : Bool
  debugLogger : Logger
  deriving DecidableEq, Repr

/-- A value of type `ExecutorOption`. -/
abbrev ExecutorOption := executorConfig → executorConfig

/-- The option `Verbose()`. -/
def Verbose : ExecutorOption := fun config => { config with verbose := true }

/-- The option `WithLogger(logger)`. -/
def WithLogger (logger : Logger) : ExecutorOption :=
  fun config => { config with debugLogger := logger }

/-- The option `NoLogging()`. -/
def NoLogging : ExecutorOption := fun config => { config with debugLogger := Logger.discard }

/-- The function `NewExecutor(opts...)`. An executor of the package launches
real processes: `world` tells what the process launched for a command does. -/
def NewExecutor (world : Cmd → ExecOutcome) (opts : List ExecutorOption) : Executor :=
  let config := opts.foldl (fun config opt => opt config)
    { verbose := false, debugLogger := Logger.discard }
  { logger := some config.debugLogger, run := world, verbose := config.verbose }

/-- A value of type `CUSudoOption`. -/
abbrev CUSudoOption := CUSudo → CUSudo

/-- The option `WithPlatform(platform)`. -/
def WithPlatform (platform : String) : CUSudoOption := fun c => { c with Platform := platform }

/-- The option `WithCWD(cwd)`. -/
def WithCWD (cwd : String) : CUSudoOption := fun c => { c with CWD := cwd }

/-- The option `WithExecutor(exec)`. -/
def WithExecutor (exec : Executor) : CUSudoOption := fun c => { c with Executor := exec }

/-- The function `NewCUSudo(opts...)`; `world` is as in `NewExecutor`. -/
def NewCUSudo (world : Cmd → ExecOutcome) (opts : List CUSudoOption) : CUSudo :=
  let c : CUSudo :=
    { Platform := "", Executor := NewExecutor world [Verbose], CurrentUser := "",
      CurrentGroup := "", UserHome := "", CWD := "" }
  let c := opts.foldl (fun c opt => opt c) c
  if c.Platform = "" then { c with Platform := darwin } else c

/-- The function `NewConfig()` of package `exec`. `GOARCH` is `runtime.GOARCH`,
`os` is what the methods of `StdlibOSFunc` return, and `world n` tells what the
process launched for the `n`-th command of the program does, counted from 0:
the directory-service query of the bring-up, if it is reached, is the command
0, and the `n`-th call of `RunBrew` on the configuration returned is the
command `n + 1`. -/
def NewConfig (GOARCH : String) (os : OSFunc) (world : Nat → Cmd → ExecOutcome)
    (environ : List String) (TrimSpace : String → String) : Except Error CarafeConfig :=
  let session := NewCUSudo (world 0) [WithExecutor (NewExecutor (world 0) [])]
  match session.SetConsoleUser os with
  | (_, some err) => .error (Error.wrap "failed to set console user" err)
  | (session, none) =>
    match session.SetUserHome os environ TrimSpace with
    | (_, some err) => .error (Error.wrap "failed to set user home" err)
    | (session, none) =>
      .ok { Arch := GOARCH,
            CUSudo := fun n =>
              { session with CWD := session.UserHome,
                             Executor := NewExecutor (world (n + 1)) [] } }

/-- The regular expressions that `formulaRe` is built of: the anchors `^` and
`$` (without the flag `m`: the beginning and the end of the text), a character
class given by its ranges, a bounded repetition `r{lo,hi}`, and a sequence. -/
inductive Regexp where
  | beginText
  | endText
  | charClass (ranges : List (Char × Char))
  | repeat (r : Regexp) (lo hi : Nat)
  | cat (r₁ r₂ : Regexp)
  deriving Repr

/-- The ways a bounded repetition of `step` can match at the position `pos`
(so many characters from the beginning of the text) before the rest `rest` of
the text: between `lo` and `hi` rounds of `step`. -/
def Regexp.repeatAt (step : Nat → List Char → List (Nat × List Char)) :
    (lo hi : Nat) → Nat → List Char → List (Nat × List Char)
  | lo, 0, pos, rest => if lo = 0 then [(pos, rest)] else []
  | lo, hi + 1, pos, rest =>
    (if lo = 0 then [(pos, rest)] else []) ++
      (step pos rest).flatMap (fun pr => Regexp.repeatAt step (lo - 1) hi pr.1 pr.2)

/-- The ways a regular expression can match at the position `pos` before the
rest `rest` of the text: the position and the rest after each match. -/
def Regexp.matchAt : Regexp → Nat → List Char → List (Nat × List Char)
  | .beginText, pos, rest => if pos = 0 then [(pos, rest)] else []
  | .endText, pos, rest => if rest = [] then [(pos, rest)] else []
  | .charClass ranges, pos, rest =>
    match rest with
    | [] => []
    | ch :: cs => if ranges.any (fun r => r.1 ≤ ch ∧ ch ≤ r.2) then [(pos + 1, cs)] else []
  | .repeat r lo hi, pos, rest => Regexp.repeatAt r.matchAt lo hi pos rest
  | .cat r₁ r₂, pos, rest => (r₁.matchAt pos rest).flatMap (fun pr => r₂.matchAt pr.1 pr.2)

/-- The method `(*Regexp).MatchString(s)`: whether the expression matches
somewhere in the text. -/
def Regexp.MatchString (re : Regexp) (s : String) : Bool :=
  (List.range (s.data.length + 1)).any (fun i => !(re.matchAt i (s.data.drop i)).isEmpty)

/-- The variable `formulaRe = regexp.MustCompile("^[A-Za-z0-9+@._-]{1,128}$")`. -/
def formulaRe : Regexp :=
  .cat .beginText
    (.cat (.repeat (.charClass [('A', 'Z'), ('a', 'z'), ('0', '9'), ('+', '+'), ('@', '@'),
        ('.', '.'), ('_', '_'), ('-', '-')]) 1 128)
      .endText)

/-- The function `validateFormulaArg(arg)`. -/
def validateFormulaArg (arg : String) : Option Error :=
  if !formulaRe.MatchString arg then some Error.invalidFormulaName else none

/-! ## Definitions used to state the properties -/

/-- The invariant of a writer with limit `L` to which `acc` has been offered
in total since it was created over an empty buffer. -/
def limitedBufferWriter.FreshInv (L : Int) (acc : List Byte) (lw : limitedBufferWriter) : Prop :=
  lw.limit = L ∧ lw.buf = acc.take L.toNat ∧ lw.written = (lw.buf.length : Int) ∧
    (lw.exceeded = false → (acc.length : Int) ≤ L) ∧
    ((acc.length : Int) > L → lw.exceeded = true)

/-- The chunks a child writes to one of its streams, in order. -/
def chunksOf (s : Stream) (events : List (Stream × List Byte)) : List (List Byte) :=
  (events.filter (fun ev => ev.1 = s)).map Prod.snd

/-- Everything a child writes to one of its streams. -/
def streamOf (s : Stream) (o : ExecOutcome) : List Byte :=
  (chunksOf s o.events).flatten

/-- The keys of a list of `key=value` strings: for every entry that holds an
`=`, the text before the first one. -/
def keysOf (l : List String) : List String :=
  (l.filterMap stringsSplitN2).map Prod.fst

/-- A session on macOS for the user `testuser`, whose executor lets every
command succeed after the given chunks. -/
def sessionWith (events : List (Stream × List Byte)) : CUSudo :=
  { Platform := "darwin",
    Executor := { logger := none,
                  run := fun _ => { events := events, err := none, duration := 0 } },
    CurrentUser := "testuser", CurrentGroup := "staff", UserHome := "/Users/testuser",
    CWD := "" }

/-- The configuration after the options of a run have been applied, in
order, to the initial one. -/
def appliedOpts (environ : List String) (opts : List ExecOption) : runConfig :=
  opts.foldl (fun config opt => opt environ config) runConfig.initial

/-- The configuration `Run` works with once its options are applied and, with
a JSON target, its stdout is redirected to the private JSON buffer. -/
def configOf (environ : List String) (opts : List ExecOption) : runConfig :=
  if (appliedOpts environ opts).jsonOutput.isSome then
    { appliedOpts environ opts with jsonOutputBuffer := true, stdout := some [WriterRef.json] }
  else appliedOpts environ opts

/-- The command `Run` hands to the executor: the command it is given, after
`configureCmd` and `writeToStdin`. -/
def preparedCmd (environ : List String) (cmd : Cmd) (opts : List ExecOption) : Cmd :=
  match (configureCmd cmd (configOf environ opts)).2.stdin with
  | some r => writeToStdin (configureCmd cmd (configOf environ opts)).1 r
  | none => (configureCmd cmd (configOf environ opts)).1

/-- The heap the executor starts from in `Run`: the private buffers that `Run`
allocates are empty. -/
def preparedHeap (environ : List String) (h : Heap) (opts : List ExecOption) : Heap :=
  if (appliedOpts environ opts).jsonOutput.isSome then
    { { h with combined := [] } with json := [] }
  else { h with combined := [] }

/-- The second half of `Run`: the prepared command is run under the final
configuration, the JSON target is decoded into, and the failure is logged. -/
def finishRun (e : Executor) (config : runConfig) (h : Heap) (cmd : Cmd) :
    Heap × Cmd × Option Error :=
  let logger : Logger := match e.logger with
    | some l => l
    | none => Logger.discard
  let r := match config.ctx with
    | some ctx => runCancellable ctx e h cmd
    | none => e.Run h cmd
  let err := r.2
  let jErr := match config.jsonOutput with
    | some out => out.unmarshal r.1.json
    | none => none
  let h := match config.jsonOutput with
    | some out => if out.Valid r.1.json then { r.1 with decoded := r.1.decoded ++ [r.1.json] }
      else r.1
    | none => r.1
  if jErr ≠ none then (h, cmd, jErr)
  else if !config.logError || err = none || err.map errorsCause = some Error.canceled then
    (h, cmd, err)
  else
    let logs := errorLogs cmd (if config.combinedOutputBuffer then some h.combined else none)
    if config.ctx ≠ none then (h, cmd, err)
    else (logger.Info h logs, cmd, err)

/-- An executor of the package's own kind with a recording logger, whose
child writes `boom` to its stderr and fails. -/
def failingExecutor : Executor :=
  { logger := some Logger.recording,
    run := fun _ => { events := [(Stream.err, [98, 111, 111, 109])],
                      err := some (Error.exec "exit status 1"), duration := 0 } }

/-- An executor whose child writes one chunk to its stdout and ends with the
given status. -/
def executorWith (stdout : List Byte) (err : Option Error) : Executor :=
  { logger := none,
    run := fun _ => { events := [(Stream.out, stdout)], err := err, duration := 0 } }

/-- The text `{"a":"b"}`. -/
def textAB : List Byte := [123, 34, 97, 34, 58, 34, 98, 34, 125]

/-- The text `not json`. -/
def textNotJson : List Byte := [110, 111, 116, 32, 106, 115, 111, 110]

/-- A stand-in for a target of type `map[string]string`, telling what
`encoding/json` does with the text `{"a":"b"}`, which is valid and fits the
target; every other text stands for one that is not valid JSON. -/
def sampleTarget : JsonTarget :=
  { Valid := fun data => data == textAB,
    unmarshal := fun data => if data == textAB then none else some (Error.json "invalid character"),
    invalid_fails := by
      intro data h
      simp only [h]
      exact fun h' => by cases h' }

/-- The bytes of a text of ASCII characters. -/
def asciiBytes (s : String) : List Byte :=
  s.data.map (fun ch => ch.toNat.toUInt8)

/-- The number a list of decimal digits stands for, if it is one. -/
def digitsToNat (cs : List Char) : Option Nat :=
  if cs = [] then none
  else cs.foldl
    (fun acc ch => match acc with
      | some n => if ch.isDigit then some (10 * n + (ch.toNat - 48)) else none
      | none => none)
    (some 0)

/-- The segments of a text between its dots. -/
def splitDots : List Char → List (List Char)
  | [] => [[]]
  | ch :: rest =>
    if ch = '.' then [] :: splitDots rest
    else match splitDots rest with
      | seg :: segs => (ch :: seg) :: segs
      | [] => [[ch]]

/-- All the values of a list of options, if none is missing. -/
def allSome : List (Option Nat) → Option (List Nat)
  | [] => some []
  | none :: _ => none
  | some n :: rest => match allSome rest with
    | some ns => some (n :: ns)
    | none => none

/-- The numbers of a version made of decimal numbers separated by dots. -/
def dottedSegments (v : String) : Option (List Nat) :=
  allSome ((splitDots v.data).map digitsToNat)

/-- The comparison of two lists of segments, the shorter one continued by
zeros. -/
def segmentsGE : List Nat → List Nat → Bool
  | [], ys => ys.all (fun y => y = 0)
  | _ :: _, [] => true
  | x :: xs, y :: ys => if y < x then true else if x < y then false else segmentsGE xs ys

/-- A stand-in for the two libraries, used in examples only: JSON texts are
decoded by a table, a text that is not in the table standing for one that is
not valid; versions are decimal numbers separated by dots, compared segment by
segment, and nothing else parses. -/
def sampleLibs (table : List (List Byte × List HomebrewFormula)) : Libs :=
  { jsonUnmarshal := fun output => match table.lookup output with
      | some info => .ok info
      | none => .error (Error.json "invalid character"),
    NewVersion := fun v => match dottedSegments v with
      | some _ => none
      | none => some (Error.malformedVersion v),
    GreaterThanOrEqual := fun a b => match dottedSegments a, dottedSegments b with
      | some x, some y => segmentsGE x y
      | _, _ => false,
    empty_malformed := by decide }

/-- The output of `brew info --json htop` when version `v` is installed, cut
down to the fields the program reads. -/
def infoInstalled (v : String) : List Byte :=
  asciiBytes ("[\x7b\"name\":\"htop\",\"installed\":[\x7b\"version\":\"" ++ v ++ "\"\x7d]\x7d]")

/-- The output of `brew info --json htop` when no version is installed. -/
def infoNotInstalled : List Byte :=
  asciiBytes "[\x7b\"name\":\"htop\",\"installed\":[]\x7d]"

/-- The table that decodes the two outputs above. -/
def sampleTable (v : String) : List (List Byte × List HomebrewFormula) :=
  [(infoInstalled v, [{ Name := "htop", Installed := [{ Version := v }] }]),
   (infoNotInstalled, [{ Name := "htop", Installed := [] }]),
   (asciiBytes "[]", [])]

/-- A configuration for an Apple-silicon machine whose every call of `brew`
succeeds and prints the given output. -/
def brewConfig (output : List Byte) : CarafeConfig :=
  { Arch := "arm64", CUSudo := fun _ => sessionWith [(Stream.out, output)] }

/-- An executor whose command prints its environment list, one entry a line,
as `/usr/bin/env` does. -/
def envExecutor : Executor :=
  { logger := none,
    run := fun cmd =>
      { events := [(Stream.out, asciiBytes (String.intercalate "\n" cmd.Env))],
        err := none, duration := 0 } }

/-- A session of the user `testuser` on `darwin` with the working directory
`cwd`, whose executor is `envExecutor`. -/
def envSession (cwd : String) : CUSudo :=
  { Platform := "darwin", Executor := envExecutor, CurrentUser := "testuser",
    CurrentGroup := "staff", UserHome := "/Users/testuser", CWD := cwd }

/-- A stand-in for `strings.TrimSpace`, right on texts whose white space is
ASCII: the spaces, tabs, line feeds, vertical tabs, form feeds and carriage
returns at both ends are dropped. -/
def trimAsciiSpace (s : String) : String :=
  let white : Char → Bool := fun ch =>
    ch = ' ' || ch = '\t' || ch = '\n' || ch = '\x0b' || ch = '\x0c' || ch = '\r'
  String.mk ((s.data.dropWhile white).reverse.dropWhile white).reverse

/-- An operating system on which the console belongs to the user `alice`
(uid 501, group 20), the effective group id of the process is 501, and the
group 20 has an empty name. -/
def sampleOS : OSFunc :=
  { Stat := fun name =>
      if name = "/dev/console" then .ok { statUid := some 501 }
      else .error (Error.exec "no such file or directory"),
    LookupID := fun uid =>
      if uid = "501" then .ok { Username := "alice", Gid := "20", HomeDir := "/Users/alice" }
      else .error (Error.exec "unknown userid"),
    LookupUser := fun name =>
      if name = "alice" then .ok { Username := "alice", Gid := "20", HomeDir := "/Users/alice" }
      else .error (Error.exec "unknown user"),
    Getegid := 501,
    LookupGroupID := fun _ => .ok { Name := "" },
    Getenv := fun key =>
      if key = "SUDO_USER" then "alice" else if key = "USER" then "root" else "" }

/-- A machine on which every command prints the line
`NFSHomeDirectory: /Users/alice` and succeeds. -/
def sampleWorld : Nat → Cmd → ExecOutcome :=
  fun _ _ =>
    { events := [(Stream.out, asciiBytes "NFSHomeDirectory: /Users/alice\n")],
      err := none, duration := 0 }

/-- What a bring-up returns, by the fields of the session it hands to the
first `RunBrew`: the user, the home and the working directory; `none` when it
fails. -/
def bringUpSummary (r : Except Error CarafeConfig) : Option (String × String × String) :=
  match r with
  | .ok cfg => some ((cfg.CUSudo 0).CurrentUser, (cfg.CUSudo 0).UserHome, (cfg.CUSudo 0).CWD)
  | .error _ => none


/-- A character of a well-formed formula name: an ASCII letter, an ASCII digit
or one of `+`, `@`, `.`, `_`, `-`. -/
def formulaChar (ch : Char) : Prop :=
  ('A' ≤ ch ∧ ch ≤ 'Z') ∨ ('a' ≤ ch ∧ ch ≤ 'z') ∨ ('0' ≤ ch ∧ ch ≤ '9') ∨
    ch = '+' ∨ ch = '@' ∨ ch = '.' ∨ ch = '_' ∨ ch = '-'

/-- A call of one of the functions of package `shell` that return an
`ExecOption`; these are all the options there are, since `runConfig` is not
exported. -/
inductive OptionCall where
  | Output (w : Writer)
  | JSONOutput (out : JsonTarget)
  | StreamOutput
  | Stdout (w : Writer)
  | Stderr (w : Writer)
  | Stdin (r : List Byte)
  | NoErrorReporting
  | StreamStdErr
  | Context (ctx : GoContext)
  | Timeout (timeout : Int)
  | Cwd (dir : String)
  | ExtraEnvNoOverwrite (newEnvs : GoMap)
  | ExtraEnvOverwrite (newEnvs : GoMap)
  | OverwriteEnvWithAllowlist (newEnvs : GoMap) (allowlist : List String)

/-- The option that a call returns. -/
def OptionCall.option : OptionCall → ExecOption
  | .Output w => Carafe.Output w
  | .JSONOutput out => Carafe.JSONOutput out
  | .StreamOutput => Carafe.StreamOutput
  | .Stdout w => Carafe.Stdout w
  | .Stderr w => Carafe.Stderr w
  | .Stdin r => Carafe.Stdin r
  | .NoErrorReporting => Carafe.NoErrorReporting
  | .StreamStdErr => Carafe.StreamStdErr
  | .Context ctx => Carafe.Context ctx
  | .Timeout timeout => Carafe.Timeout timeout
  | .Cwd dir => Carafe.Cwd dir
  | .ExtraEnvNoOverwrite newEnvs => Carafe.ExtraEnvNoOverwrite newEnvs
  | .ExtraEnvOverwrite newEnvs => Carafe.ExtraEnvOverwrite newEnvs
  | .OverwriteEnvWithAllowlist newEnvs allowlist =>
    Carafe.OverwriteEnvWithAllowlist newEnvs allowlist

/-- Whether a call is one of the three environment options. -/
def OptionCall.isEnv : OptionCall → Bool
  | .ExtraEnvNoOverwrite _ => true
  | .ExtraEnvOverwrite _ => true
  | .OverwriteEnvWithAllowlist _ _ => true
  | _ => false

/-- The fields of the run configuration that the options assign. -/
inductive Field where
  | stdout | stderr | stdin | combinedOutputBuffer | ctx | env | logError | timeout | dir
  | jsonOutput
  deriving DecidableEq, Repr

/-- Two run configurations hold the same value in a field. -/
def Field.same (f : Field) (a b : runConfig) : Prop :=
  match f with
  | .stdout => a.stdout = b.stdout
  | .stderr => a.stderr = b.stderr
  | .stdin => a.stdin = b.stdin
  | .combinedOutputBuffer => a.combinedOutputBuffer = b.combinedOutputBuffer
  | .ctx => a.ctx = b.ctx
  | .env => a.env = b.env
  | .logError => a.logError = b.logError
  | .timeout => a.timeout = b.timeout
  | .dir => a.dir = b.dir
  | .jsonOutput => a.jsonOutput = b.jsonOutput

/-- An option assigns a field: whatever configuration it is applied to, the
field holds the same value afterwards. -/
def assigns (environ : List String) (f : Field) (o : OptionCall) : Prop :=
  ∀ a b : runConfig, f.same (o.option environ a) (o.option environ b)

/-- An option leaves a field alone: the field holds afterwards what it held
before. -/
def keeps (environ : List String) (f : Field) (o : OptionCall) : Prop :=
  ∀ a : runConfig, f.same (o.option environ a) a

/-- Two heaps hold the same in every writer a caller can name: the bounded
writers, the buffers and the stderr of the process, and (when `withStdout`
is set) the stdout of the process. -/
def Heap.sameVisible (withStdout : Bool) (a b : Heap) : Prop :=
  a.limited = b.limited ∧ a.buffer = b.buffer ∧ a.osStderr = b.osStderr ∧
    (withStdout = true → a.osStdout = b.osStdout)

/-- The executor whose children behave as those of `e`, except that they
write nothing to their stdout. -/
def Executor.withoutStdout (e : Executor) : Executor :=
  { e with
    run := fun cmd =>
      { e.run cmd with events := (e.run cmd).events.filter (fun ev => ev.1 ≠ Stream.out) } }

/-- An executor of the package, created with `Verbose()`, whose every child
prints `{"a":"b"}` and succeeds. -/
def verboseExecutor : Executor :=
  NewExecutor (fun _ => { events := [(Stream.out, textAB)], err := none, duration := 0 })
    [Verbose]

/-- A configuration for an Apple-silicon machine on which `htop` 3.3.0 is
removed between the two calls of `brew` that a check makes: the first call
reports the version 3.3.0 as installed, every later call reports none. -/
def driftConfig : CarafeConfig :=
  { Arch := "arm64",
    CUSudo := fun n =>
      sessionWith [(Stream.out, if n = 0 then infoInstalled "3.3.0" else infoNotInstalled)] }

/-! # Properties -/

/-! ## Properties of the bounded output buffer -/

namespace limitedBufferWriter

/-- The results of `Write` never depend on the state: `(len(p), nil)`. -/
theorem Write_result (lw : limitedBufferWriter) (p : List Byte) :
    (lw.Write p).2 = ((p.length : Int), none) := by
  simp only [Write, bufferWrite]
  split_ifs <;> rfl

/-- The limit is never changed by `Write`. -/
theorem Write_limit (lw : limitedBufferWriter) (p : List Byte) :
    (lw.Write p).1.limit = lw.limit := by
  simp only [Write, bufferWrite]
  split_ifs <;> rfl

theorem freshInv_new (L : Int) (hL : 0 ≤ L) :
    FreshInv L [] (newLimitedBufferWriter [] L) := by
  refine ⟨rfl, by simp [newLimitedBufferWriter], by simp [newLimitedBufferWriter], ?_, ?_⟩
  · intro _; simpa using hL
  · intro h; simp at h; omega

theorem freshInv_Write (L : Int) (hL : 0 ≤ L) (acc p : List Byte)
    (lw : limitedBufferWriter) (h : FreshInv L acc lw) :
    FreshInv L (acc ++ p) (lw.Write p).1 := by
  obtain ⟨hlim, hbuf, hwr, hex, hgt⟩ := h
  have hlen : (lw.buf.length : Int) = min (L.toNat : Int) (acc.length : Int) := by
    rw [hbuf, List.length_take]; push_cast; rfl
  have hLn : ((L.toNat : Nat) : Int) = L := Int.toNat_of_nonneg hL
  simp only [Write, bufferWrite]
  split_ifs with h1 h2
  · -- capacity exhausted
    have hle : L.toNat ≤ acc.length := by
      rw [hlim, hwr, hlen] at h1
      have : (L.toNat : Int) ≤ (acc.length : Int) := by
        rcases le_total (L.toNat : Int) (acc.length : Int) with h | h
        · exact h
        · rw [min_eq_right h] at h1; omega
      exact_mod_cast this
    refine ⟨hlim, ?_, hwr, by simp, by simp⟩
    simp only
    rw [hbuf, List.take_append_of_le_length hle]
  · -- only a prefix fits
    have hlt : acc.length < L.toNat := by
      rw [hlim, hwr, hlen] at h1
      by_contra hc
      push_neg at hc
      have : (L.toNat : Int) ≤ (acc.length : Int) := by exact_mod_cast hc
      rw [min_eq_left this] at h1; omega
    have hbuf2 : lw.buf = acc := by rw [hbuf]; exact List.take_of_length_le (le_of_lt hlt)
    refine ⟨hlim, ?_, ?_, by simp, by simp⟩
    · simp only
      rw [List.take_append_eq_append_take, List.take_of_length_le (le_of_lt hlt), hbuf2,
        hlim, hwr, hbuf2]
      congr 2
      omega
    · simp only [List.length_append]
      rw [hwr]; push_cast; rfl
  · -- everything fits
    have hlt : acc.length < L.toNat := by
      rw [hlim, hwr, hlen] at h1
      by_contra hc
      push_neg at hc
      have : (L.toNat : Int) ≤ (acc.length : Int) := by exact_mod_cast hc
      rw [min_eq_left this] at h1; omega
    have hbuf2 : lw.buf = acc := by rw [hbuf]; exact List.take_of_length_le (le_of_lt hlt)
    have hfit : (acc ++ p).length ≤ L.toNat := by
      rw [hlim, hwr, hbuf2] at h2
      simp only [List.length_append]
      omega
    refine ⟨hlim, ?_, ?_, ?_, ?_⟩
    · simp only
      rw [List.take_of_length_le hfit, hbuf2]
    · simp only [List.length_append]
      rw [hwr]; push_cast; rfl
    · intro _
      have : ((acc ++ p).length : Int) ≤ (L.toNat : Int) := by exact_mod_cast hfit
      omega
    · intro hc
      have : ((acc ++ p).length : Int) ≤ (L.toNat : Int) := by exact_mod_cast hfit
      omega

theorem freshInv_writeAll (L : Int) (hL : 0 ≤ L) (ps : List (List Byte)) :
    ∀ (acc : List Byte) (lw : limitedBufferWriter), FreshInv L acc lw →
      FreshInv L (acc ++ ps.flatten) (writeAll lw ps) := by
  induction ps with
  | nil => intro acc lw h; simpa [writeAll] using h
  | cons p ps ih =>
    intro acc lw h
    have := ih (acc ++ p) (lw.Write p).1 (freshInv_Write L hL acc p lw h)
    simpa [writeAll, List.append_assoc] using this

end limitedBufferWriter


/-- C1, refuted as stated: on a fresh writer of limit 0 the empty write stores
`min(0, 0) = 0` bytes and returns `(0, nil)`, but leaves `Exceeded()` true
although `len(P) > L` is false. -/
theorem C1_empty_write_zero_limit :
    (0 : Int) ≤ 0 ∧
    ((newLimitedBufferWriter [] 0).Write []).1.Exceeded = true ∧
    decide ((([] : List Byte).length : Int) > 0) = false := by
  decide

/-- C1, amended: a single `Write(P)` on a fresh writer with limit `L ≥ 0` over
an empty buffer stores exactly `min(len(P), L)` bytes, returns `(len(P), nil)`,
and leaves `Exceeded()` equal to `len(P) > L ∨ L = 0`. -/
theorem C1_single_write (P : List Byte) (L : Int) (hL : 0 ≤ L) :
    (((newLimitedBufferWriter [] L).Write P).1.buf.length : Int) = min (P.length : Int) L ∧
    ((newLimitedBufferWriter [] L).Write P).2 = ((P.length : Int), none) ∧
    ((newLimitedBufferWriter [] L).Write P).1.Exceeded
      = decide ((P.length : Int) > L ∨ L = 0) := by
  refine ⟨?_, limitedBufferWriter.Write_result _ _, ?_⟩
  · have h := limitedBufferWriter.freshInv_Write L hL [] P _
      (limitedBufferWriter.freshInv_new L hL)
    rw [h.2.1, List.nil_append, List.length_take]
    push_cast
    rw [Int.toNat_of_nonneg hL, min_comm]
  · simp only [limitedBufferWriter.Write, bufferWrite, newLimitedBufferWriter,
      limitedBufferWriter.Exceeded]
    split_ifs with h1 h2
    · have : L = 0 := by omega
      simp [this]
    · simp; left; omega
    · simp; omega

/-- C1, amended, at `P = "hellow"` and `L = 5`. -/
theorem C1_single_write_witness :
    (((newLimitedBufferWriter [] 5).Write [104, 101, 108, 108, 111, 119]).1.buf.length : Int)
        = min (([104, 101, 108, 108, 111, 119] : List Byte).length : Int) 5 ∧
    ((newLimitedBufferWriter [] 5).Write [104, 101, 108, 108, 111, 119]).2
        = ((([104, 101, 108, 108, 111, 119] : List Byte).length : Int), none) ∧
    ((newLimitedBufferWriter [] 5).Write [104, 101, 108, 108, 111, 119]).1.Exceeded
      = decide (((([104, 101, 108, 108, 111, 119] : List Byte).length : Int) > 5) ∨
          (5 : Int) = 0) :=
  C1_single_write [104, 101, 108, 108, 111, 119] 5 (by decide)

/-- C2: when `P` is longer than the limit `L ≥ 0`, every way of cutting `P`
into consecutive chunks and writing them in order to a fresh writer leaves
exactly the first `L` bytes of `P` in the buffer. -/
theorem C2_split_independent (P : List Byte) (chunks : List (List Byte)) (L : Int)
    (hL : 0 ≤ L) (hsplit : chunks.flatten = P) (_hlen : (P.length : Int) > L) :
    ((newLimitedBufferWriter [] L).writeAll chunks).buf = P.take L.toNat := by
  have h := limitedBufferWriter.freshInv_writeAll L hL chunks []
    (newLimitedBufferWriter [] L) (limitedBufferWriter.freshInv_new L hL)
  rw [List.nil_append, hsplit] at h
  exact h.2.1

/-- C2 at `P = "helloworld"`, cut as `he`, `llo`, `world`, with `L = 5`. -/
theorem C2_split_independent_witness :
    ((newLimitedBufferWriter [] 5).writeAll
        [[104, 101], [108, 108, 111], [119, 111, 114, 108, 100]]).buf
      = ([104, 101, 108, 108, 111, 119, 111, 114, 108, 100] : List Byte).take (5 : Int).toNat :=
  C2_split_independent [104, 101, 108, 108, 111, 119, 111, 114, 108, 100]
    [[104, 101], [108, 108, 111], [119, 111, 114, 108, 100]] 5 (by decide) (by decide)
    (by decide)

/-- C3: in every state and for every `p`, `Write(p)` returns `(len(p), nil)`.
So in an `io.MultiWriter` the bounded writer never ends the call: the result
is that of the remaining writers, applied to the same `p`; and composed with a
plain buffer the call returns `(len(p), nil)` and the buffer receives all of
`p`. -/
theorem C3_write_reports_full_length (lw : limitedBufferWriter) (p : List Byte) :
    (lw.Write p).2 = ((p.length : Int), none) ∧
    (∀ (h : Heap) (i : Nat) (rest : Writer),
      Writer.Write h (WriterRef.limited i :: rest) p
        = Writer.Write (WriterRef.Write h (WriterRef.limited i) p).1 rest p) ∧
    (∀ (h : Heap) (i j : Nat),
      (Writer.Write h [WriterRef.limited i, WriterRef.buffer j] p).2 = ((p.length : Int), none) ∧
      (Writer.Write h [WriterRef.limited i, WriterRef.buffer j] p).1.buffer j = h.buffer j ++ p ∧
      (Writer.Write h [WriterRef.limited i, WriterRef.buffer j] p).1.limited i
        = ((h.limited i).Write p).1) := by
  refine ⟨limitedBufferWriter.Write_result lw p, ?_, ?_⟩
  · intro h i rest
    simp [Writer.Write, WriterRef.Write, limitedBufferWriter.Write_result]
  · intro h i j
    simp [Writer.Write, WriterRef.Write, limitedBufferWriter.Write_result, bufferWrite]

/-- C4: after any sequence of writes to a writer created with limit `L ≥ 0`
over an empty buffer, the buffer holds at most `L` bytes. -/
theorem C4_never_more_than_limit (L : Int) (hL : 0 ≤ L) (ps : List (List Byte)) :
    (((newLimitedBufferWriter [] L).writeAll ps).buf.length : Int) ≤ L := by
  have h := limitedBufferWriter.freshInv_writeAll L hL ps []
    (newLimitedBufferWriter [] L) (limitedBufferWriter.freshInv_new L hL)
  rw [h.2.1, List.length_take]
  push_cast
  rw [Int.toNat_of_nonneg hL]
  exact min_le_left _ _

/-- C4 at `L = 5` and the writes `he`, `llo`, `world`. -/
theorem C4_never_more_than_limit_witness :
    (((newLimitedBufferWriter [] 5).writeAll
        [[104, 101], [108, 108, 111], [119, 111, 114, 108, 100]]).buf.length : Int) ≤ 5 :=
  C4_never_more_than_limit 5 (by decide) [[104, 101], [108, 108, 111], [119, 111, 114, 108, 100]]

/-- C5: once `Exceeded()` is true it stays true after any further `Write`. -/
theorem C5_exceeded_monotonic (lw : limitedBufferWriter) (p : List Byte)
    (h : lw.Exceeded = true) : (lw.Write p).1.Exceeded = true := by
  simp only [limitedBufferWriter.Exceeded] at h
  simp only [limitedBufferWriter.Write, bufferWrite, limitedBufferWriter.Exceeded]
  split_ifs <;> simp [h]

/-- C5 at a writer of limit 5 holding `hello`, already exceeded, and the write
of `w`. -/
theorem C5_exceeded_monotonic_witness :
    (({ buf := [104, 101, 108, 108, 111], limit := 5, written := 5, exceeded := true } :
        limitedBufferWriter).Write [119]).1.Exceeded = true :=
  C5_exceeded_monotonic
    { buf := [104, 101, 108, 108, 111], limit := 5, written := 5, exceeded := true } [119]
    (by decide)


/-! ## Properties of the elevation prefix and of `BuildCmd` -/

/-- C7: `GetElevationPrefix` fails exactly when `Platform` is empty; on
`"windows"` it returns `["runas", "/user:" + u]`; on every other (non-empty)
platform it returns `["sudo", "-H", "-u", u]`. -/
theorem C7_GetElevationPrefix (c : CUSudo) :
    ((∃ err, c.GetElevationPrefix = .error err) ↔ c.Platform = "") ∧
    (c.Platform = "windows" →
      c.GetElevationPrefix = .ok ["runas", "/user:" ++ c.CurrentUser]) ∧
    (c.Platform ≠ "" → c.Platform ≠ "windows" →
      c.GetElevationPrefix = .ok ["sudo", "-H", "-u", c.CurrentUser]) := by
  refine ⟨?_, ?_, ?_⟩
  · constructor
    · rintro ⟨err, h⟩
      by_contra hne
      simp only [CUSudo.GetElevationPrefix, if_neg hne] at h
      split_ifs at h
    · intro h
      exact ⟨Error.platformNotSet, by simp [CUSudo.GetElevationPrefix, h]⟩
  · intro h
    simp [CUSudo.GetElevationPrefix, h, windows]
  · intro h1 h2
    simp [CUSudo.GetElevationPrefix, h1, h2, windows]

/-- C7 on macOS for the user `testuser`. -/
theorem C7_GetElevationPrefix_witness :
    (sessionWith []).GetElevationPrefix = .ok ["sudo", "-H", "-u", "testuser"] :=
  (C7_GetElevationPrefix (sessionWith [])).2.2 (by decide) (by decide)

/-- On a session with a platform `BuildCmd` succeeds, and the arguments of the
command are the elevation prefix followed by the raw arguments. -/
theorem BuildCmd_ok (c : CUSudo) (rawArgs : List String) (hne : c.Platform ≠ "") :
    ∃ (pre : List String) (cmd : Cmd),
      c.GetElevationPrefix = .ok pre ∧ c.BuildCmd rawArgs = .ok cmd ∧
      cmd.Args = pre ++ rawArgs := by
  by_cases hw : c.Platform = windows
  · refine ⟨["runas", "/user:" ++ c.CurrentUser], NewCommand "runas"
      (("/user:" ++ c.CurrentUser) :: rawArgs), ?_, ?_, rfl⟩
    · simp only [CUSudo.GetElevationPrefix, if_neg hne, if_pos hw]
    · simp only [CUSudo.BuildCmd, CUSudo.GetElevationPrefix, if_neg hne, if_pos hw]
      rfl
  · refine ⟨["sudo", "-H", "-u", c.CurrentUser], NewCommand "sudo"
      ("-H" :: "-u" :: c.CurrentUser :: rawArgs), ?_, ?_, rfl⟩
    · simp only [CUSudo.GetElevationPrefix, if_neg hne, if_neg hw]
    · simp only [CUSudo.BuildCmd, CUSudo.GetElevationPrefix, if_neg hne, if_neg hw]
      rfl

/-- C8: with a non-empty `Platform`, `BuildCmd(rawArgs)` returns a command
whose argument list is the elevation prefix followed by `rawArgs`, and whose
path is the first token of the prefix, `runas` on windows and `sudo`
elsewhere; with an empty `Platform` it returns an error and no command. -/
theorem C8_build_cmd (c : CUSudo) (rawArgs : List String) :
    (c.Platform ≠ "" →
      ∃ (pre : List String) (cmd : Cmd),
        c.GetElevationPrefix = .ok pre ∧ c.BuildCmd rawArgs = .ok cmd ∧
        cmd.Args = pre ++ rawArgs ∧ some cmd.Path = pre.head? ∧
        cmd.Path = (if c.Platform = "windows" then "runas" else "sudo")) ∧
    (c.Platform = "" → ∃ err, c.BuildCmd rawArgs = .error err) := by
  constructor
  · intro hne
    by_cases hw : c.Platform = windows
    · refine ⟨["runas", "/user:" ++ c.CurrentUser], NewCommand "runas"
        (("/user:" ++ c.CurrentUser) :: rawArgs), ?_, ?_, ?_, ?_, ?_⟩
      · simp only [CUSudo.GetElevationPrefix, if_neg hne, if_pos hw]
      · simp only [CUSudo.BuildCmd, CUSudo.GetElevationPrefix, if_neg hne, if_pos hw]
        rfl
      · simp [NewCommand]
      · simp [NewCommand]
      · have : c.Platform = "windows" := hw
        simp [NewCommand, this]
    · refine ⟨["sudo", "-H", "-u", c.CurrentUser], NewCommand "sudo"
        ("-H" :: "-u" :: c.CurrentUser :: rawArgs), ?_, ?_, ?_, ?_, ?_⟩
      · simp only [CUSudo.GetElevationPrefix, if_neg hne, if_neg hw]
      · simp only [CUSudo.BuildCmd, CUSudo.GetElevationPrefix, if_neg hne, if_neg hw]
        rfl
      · simp [NewCommand]
      · simp [NewCommand]
      · have : ¬ c.Platform = "windows" := hw
        simp [NewCommand, this]
  · intro h
    exact ⟨Error.platformNotSet, by simp [CUSudo.BuildCmd, CUSudo.GetElevationPrefix, h]⟩

/-- C8 on macOS for the user `testuser` and the raw arguments `echo hello`. -/
theorem C8_build_cmd_witness :
    ∃ (pre : List String) (cmd : Cmd),
      (sessionWith []).GetElevationPrefix = .ok pre ∧
      (sessionWith []).BuildCmd ["echo", "hello"] = .ok cmd ∧
      cmd.Args = pre ++ ["echo", "hello"] ∧ some cmd.Path = pre.head? ∧
      cmd.Path = (if (sessionWith []).Platform = "windows" then "runas" else "sudo") :=
  (C8_build_cmd (sessionWith []) ["echo", "hello"]).1 (by decide)

/-! ## Properties of the environment composition -/

/-- Looking a key up after the entries of a list with distinct keys have been
assigned one by one: the list's value if it has the key, the old one if not. -/
theorem lookup_foldl_insert (l : List (Σ _ : String, String)) (hl : l.NodupKeys) :
    ∀ (env : GoMap) (k : String),
      (l.foldl (fun env e => env.insert e.1 e.2) env).lookup k
        = (l.dlookup k).orElse (fun _ => env.lookup k) := by
  induction l with
  | nil => intro env k; simp
  | cons e t ih =>
    intro env k
    rw [List.nodupKeys_cons] at hl
    rw [List.foldl_cons, ih hl.2]
    by_cases hk : k = e.1
    · subst hk
      have hnone : List.dlookup e.1 t = none := List.dlookup_eq_none.mpr hl.1
      obtain ⟨a, b⟩ := e
      rw [hnone, List.dlookup_cons_eq]
      simp [AList.lookup_insert]
    · rw [List.dlookup_cons_ne _ _ hk, AList.lookup_insert_ne hk]

/-- Looking a key up after `overwriteAll`. -/
theorem lookup_overwriteAll (env newEnvs : GoMap) (k : String) :
    (overwriteAll env newEnvs).lookup k
      = (newEnvs.lookup k).orElse (fun _ => env.lookup k) :=
  lookup_foldl_insert newEnvs.entries newEnvs.nodupKeys env k

/-- Looking a key up after the gaps of a map have been filled from a list with
distinct keys: the old value if the map has the key, the list's if not. -/
theorem lookup_foldl_fill (l : List (Σ _ : String, String)) (hl : l.NodupKeys) :
    ∀ (env : GoMap) (k : String),
      (l.foldl (fun env e => if e.1 ∈ env then env else env.insert e.1 e.2) env).lookup k
        = (env.lookup k).orElse (fun _ => l.dlookup k) := by
  induction l with
  | nil =>
    intro env k
    rcases h : AList.lookup k env with _ | v <;> simp [h]
  | cons e t ih =>
    intro env k
    rw [List.nodupKeys_cons] at hl
    rw [List.foldl_cons, ih hl.2]
    obtain ⟨a, b⟩ := e
    by_cases hmem : a ∈ env
    · simp only [if_pos hmem]
      by_cases hk : k = a
      · subst hk
        obtain ⟨v, hv⟩ := Option.isSome_iff_exists.mp (AList.lookup_isSome.mpr hmem)
        simp [hv]
      · rw [List.dlookup_cons_ne _ _ hk]
    · simp only [if_neg hmem]
      by_cases hk : k = a
      · subst hk
        have hnone : List.dlookup k t = none := List.dlookup_eq_none.mpr hl.1
        rw [AList.lookup_insert, AList.lookup_eq_none.mpr hmem, List.dlookup_cons_eq]
        simp
      · rw [List.dlookup_cons_ne _ _ hk, AList.lookup_insert_ne hk]

/-- Looking a key up after `fillGaps`. -/
theorem lookup_fillGaps (env newEnvs : GoMap) (k : String) :
    (fillGaps env newEnvs).lookup k
      = (env.lookup k).orElse (fun _ => newEnvs.lookup k) :=
  lookup_foldl_fill newEnvs.entries newEnvs.nodupKeys env k


/-- A rendered entry whose key holds no `=` splits back into key and value. -/
theorem stringsSplitN2_render (k v : String) (hk : '=' ∉ k.data) :
    stringsSplitN2 (k ++ "=" ++ v) = some (k, v) := by
  have hall : ∀ c ∈ k.data, (fun c => c != '=') c = true := by
    intro c hc
    simp only [bne_iff_ne, ne_eq]
    rintro rfl
    exact hk hc
  have hdata : (k ++ "=" ++ v).data = k.data ++ '=' :: v.data := by
    simp [String.data_append]
  unfold stringsSplitN2
  rw [hdata, List.span_eq_take_drop, List.takeWhile_append_of_pos hall,
    List.dropWhile_append_of_pos hall]
  simp

/-- The key that `strings.SplitN(s, "=", 2)` yields holds no `=`. -/
theorem stringsSplitN2_key (s k v : String) (h : stringsSplitN2 s = some (k, v)) :
    '=' ∉ k.data := by
  unfold stringsSplitN2 at h
  rw [List.span_eq_take_drop] at h
  split at h
  · rename_i k' c v' heq
    simp only [Option.some.injEq, Prod.mk.injEq] at h
    rw [Prod.mk.injEq] at heq
    rw [← h.1, ← heq.1]
    intro hmem
    have := List.mem_takeWhile_imp hmem
    simp at this
  · exact absurd h (by simp)

/-- No key of `SplitEquals(strs)` holds an `=`. -/
theorem SplitEquals_key (strs : List String) (k : String) (hk : k ∈ SplitEquals strs) :
    '=' ∉ k.data := by
  have gen : ∀ (l : List String) (acc : GoMap), (∀ k ∈ acc, '=' ∉ k.data) →
      ∀ k ∈ l.foldl (fun result str =>
        match stringsSplitN2 str with
        | some (k, v) => result.insert k v
        | none => result) acc, '=' ∉ k.data := by
    intro l
    induction l with
    | nil => intro acc h; simpa using h
    | cons s t ih =>
      intro acc h
      rw [List.foldl_cons]
      apply ih
      intro k hk
      rcases hs : stringsSplitN2 s with _ | ⟨k', v'⟩
      · rw [hs] at hk; exact h k hk
      · rw [hs] at hk
        rcases (AList.mem_insert acc).mp hk with rfl | hmem
        · exact stringsSplitN2_key s k v' hs
        · exact h k hmem
  exact gen strs ∅ (fun k hk => absurd hk (AList.not_mem_empty k)) k hk

/-- The keys of `overwriteAll env newEnvs` are those of either map. -/
theorem mem_overwriteAll (env newEnvs : GoMap) (k : String) :
    k ∈ overwriteAll env newEnvs ↔ k ∈ newEnvs ∨ k ∈ env := by
  rw [← AList.lookup_isSome, lookup_overwriteAll, ← AList.lookup_isSome, ← AList.lookup_isSome]
  rcases h : AList.lookup k newEnvs with _ | v <;> simp

/-- The keys of `fillGaps env newEnvs` are those of either map. -/
theorem mem_fillGaps (env newEnvs : GoMap) (k : String) :
    k ∈ fillGaps env newEnvs ↔ k ∈ env ∨ k ∈ newEnvs := by
  rw [← AList.lookup_isSome, lookup_fillGaps, ← AList.lookup_isSome, ← AList.lookup_isSome]
  rcases h : AList.lookup k env with _ | v <;> simp

/-- Splitting the rendering of a map none of whose keys holds an `=` gives the
entries of the map back, in order. -/
theorem filterMap_JoinEquals (m : GoMap) (hm : ∀ k ∈ m, '=' ∉ k.data) :
    (JoinEquals m).filterMap stringsSplitN2 = m.entries.map (fun e => (e.1, e.2)) := by
  have gen : ∀ l : List (Σ _ : String, String), (∀ e ∈ l, '=' ∉ e.1.data) →
      (l.map (fun e => e.1 ++ "=" ++ e.2)).filterMap stringsSplitN2
        = l.map (fun e => (e.1, e.2)) := by
    intro l
    induction l with
    | nil => intro _; rfl
    | cons e t ih =>
      intro h
      rw [List.map_cons, List.filterMap_cons,
        stringsSplitN2_render e.1 e.2 (h e (List.mem_cons_self e t)), List.map_cons]
      simp only
      rw [ih (fun e' he' => h e' (List.mem_cons_of_mem e he'))]
  apply gen
  intro e he
  apply hm
  rw [AList.mem_keys]
  exact List.mem_keys_of_mem he

/-- The keys of the rendering of a map none of whose keys holds an `=` are the
keys of the map, in order. -/
theorem keysOf_JoinEquals (m : GoMap) (hm : ∀ k ∈ m, '=' ∉ k.data) :
    keysOf (JoinEquals m) = m.keys := by
  unfold keysOf
  rw [filterMap_JoinEquals m hm, List.map_map]
  rfl

/-- An entry `key=value` of the rendering of a map none of whose keys holds an
`=` is an entry of the map. -/
theorem lookup_of_mem_JoinEquals (m : GoMap) (hm : ∀ k ∈ m, '=' ∉ k.data)
    (k v : String) (hk : '=' ∉ k.data) (h : k ++ "=" ++ v ∈ JoinEquals m) :
    m.lookup k = some v := by
  have h1 : (k, v) ∈ (JoinEquals m).filterMap stringsSplitN2 :=
    List.mem_filterMap.mpr ⟨_, h, stringsSplitN2_render k v hk⟩
  rw [filterMap_JoinEquals m hm, List.mem_map] at h1
  obtain ⟨e, he, heq⟩ := h1
  obtain ⟨a, b⟩ := e
  simp only [Prod.mk.injEq] at heq
  obtain ⟨rfl, rfl⟩ := heq
  exact AList.mem_lookup_iff.mpr he

/-- The rendering of a map none of whose keys holds an `=` has no entry
twice. -/
theorem nodup_JoinEquals (m : GoMap) (hm : ∀ k ∈ m, '=' ∉ k.data) :
    (JoinEquals m).Nodup := by
  unfold JoinEquals
  apply List.Nodup.map_on _ m.nodupKeys.nodup
  intro x hx y hy hxy
  have kx : '=' ∉ x.1.data := hm x.1 (AList.mem_keys.mpr (List.mem_keys_of_mem hx))
  have ky : '=' ∉ y.1.data := hm y.1 (AList.mem_keys.mpr (List.mem_keys_of_mem hy))
  have h := stringsSplitN2_render x.1 x.2 kx
  simp only at hxy
  rw [hxy, stringsSplitN2_render y.1 y.2 ky] at h
  simp only [Option.some.injEq, Prod.mk.injEq] at h
  obtain ⟨a, b⟩ := x
  obtain ⟨a', b'⟩ := y
  simp only at h
  obtain ⟨rfl, rfl⟩ := h
  rfl

/-- C9, refuted as stated: with the inherited list `A=old` and the explicit map
`{"A": "=x", "A=": "x"}`, the rendered list is `A==x`, `A==x`. It holds the
explicit entry of the key `A` twice, not once: two entries for the key `A`,
none for the key `A=`. -/
theorem C9_key_with_equals_sign :
    (ExtraEnvOverwrite ((AList.singleton "A" "=x").insert "A=" "x") ["A=old"]
        runConfig.initial).env.map
      (fun env => (JoinEquals env, (JoinEquals env).count ("A" ++ "=" ++ "=x"),
        (keysOf (JoinEquals env)).count "A", (keysOf (JoinEquals env)).count "A="))
      = some (["A==x", "A==x"], 2, 2, 0) := by
  decide

/-- C9, amended: for every inherited list `E` and explicit map `N`, the
environment composed by `ExtraEnvOverwrite(N)` maps each key of `N` to its
value in `N` and each other key to its value in `E`; and when no key of `N`
holds an `=`, its rendering has exactly one entry per key, so that for a key
of `N` it holds the entry `key=new` exactly once and no entry `key=old` with
another value. -/
theorem C9_overwrite_policy (E : List String) (N : GoMap) (config : runConfig) :
    ∃ env : GoMap, (ExtraEnvOverwrite N E config).env = some env ∧
      (∀ k v, N.lookup k = some v → env.lookup k = some v) ∧
      (∀ k, k ∉ N → env.lookup k = (SplitEquals E).lookup k) ∧
      ((∀ k ∈ N, '=' ∉ k.data) →
        keysOf (JoinEquals env) = env.keys ∧
        (JoinEquals env).length = env.keys.length ∧
        (∀ k ∈ env, (keysOf (JoinEquals env)).count k = 1) ∧
        (∀ k new, N.lookup k = some new →
          (JoinEquals env).count (k ++ "=" ++ new) = 1 ∧
          ∀ old, old ≠ new → k ++ "=" ++ old ∉ JoinEquals env)) := by
  refine ⟨overwriteAll (SplitEquals E) N, rfl, ?_, ?_, ?_⟩
  · intro k v h
    rw [lookup_overwriteAll, h]; rfl
  · intro k h
    rw [lookup_overwriteAll, AList.lookup_eq_none.mpr h]; rfl
  · intro hN
    have hm : ∀ k ∈ overwriteAll (SplitEquals E) N, '=' ∉ k.data := by
      intro k hk
      rcases (mem_overwriteAll _ _ k).mp hk with h | h
      · exact hN k h
      · exact SplitEquals_key E k h
    have hkeys := keysOf_JoinEquals _ hm
    refine ⟨hkeys, ?_, ?_, ?_⟩
    · simp [JoinEquals, AList.keys, List.keys]
    · intro k hk
      rw [hkeys]
      exact List.count_eq_one_of_mem (AList.keys_nodup _) (AList.mem_keys.mp hk)
    · intro k new hnew
      have hlk : (overwriteAll (SplitEquals E) N).lookup k = some new := by
        rw [lookup_overwriteAll, hnew]; rfl
      have hkN : '=' ∉ k.data := hN k (AList.lookup_isSome.mp (by rw [hnew]; rfl))
      constructor
      · apply List.count_eq_one_of_mem (nodup_JoinEquals _ hm)
        have hmem := AList.mem_lookup_iff.mp hlk
        exact List.mem_map.mpr ⟨⟨k, new⟩, hmem, rfl⟩
      · intro old hold hmem
        have := lookup_of_mem_JoinEquals _ hm k old hkN hmem
        rw [hlk] at this
        exact hold (Option.some.inj this).symm

/-- C9, amended, at the inherited list `KEY=old`, `A=b=c`, `junk`, `=x` and
the explicit map `{"KEY": "new"}`. -/
theorem C9_overwrite_policy_witness :
    ∃ env : GoMap,
      (ExtraEnvOverwrite (AList.singleton "KEY" "new") ["KEY=old", "A=b=c", "junk", "=x"]
        runConfig.initial).env = some env ∧
      (JoinEquals env).count ("KEY" ++ "=" ++ "new") = 1 ∧
      "KEY" ++ "=" ++ "old" ∉ JoinEquals env := by
  obtain ⟨env, h1, _, _, h4⟩ := C9_overwrite_policy ["KEY=old", "A=b=c", "junk", "=x"]
    (AList.singleton "KEY" "new") runConfig.initial
  have h := (h4 (by decide)).2.2.2 "KEY" "new" (by decide)
  exact ⟨env, h1, h.1, h.2 "old" (by decide)⟩

/-- C10: for every inherited list `E` and explicit map `N`, the environment
composed by `ExtraEnvNoOverwrite(N)` keeps the value of `E` for every key of
`E`, and has the value of `N` exactly for the keys of `N` that `E` lacks; so
with an inherited `key=old` and an explicit `key=new` it retains `key=old`,
and has no `key=new`: the map gives `old` for the key, and the rendering holds
`key=old` and (no key of `N` holding an `=`) not `key=new`. -/
theorem C10_no_overwrite_policy (E : List String) (N : GoMap) (config : runConfig) :
    ∃ env : GoMap, (ExtraEnvNoOverwrite N E config).env = some env ∧
      (∀ k v, (SplitEquals E).lookup k = some v → env.lookup k = some v) ∧
      (∀ k, k ∉ SplitEquals E → env.lookup k = N.lookup k) ∧
      (∀ k, k ∈ env ↔ k ∈ SplitEquals E ∨ k ∈ N) ∧
      (∀ k old new, (SplitEquals E).lookup k = some old → N.lookup k = some new →
        old ≠ new →
        env.lookup k = some old ∧ env.lookup k ≠ some new ∧
        k ++ "=" ++ old ∈ JoinEquals env ∧
        ((∀ k ∈ N, '=' ∉ k.data) → k ++ "=" ++ new ∉ JoinEquals env)) := by
  refine ⟨fillGaps (SplitEquals E) N, rfl, ?_, ?_, mem_fillGaps _ _, ?_⟩
  · intro k v h
    rw [lookup_fillGaps, h]; rfl
  · intro k h
    rw [lookup_fillGaps, AList.lookup_eq_none.mpr h]; rfl
  · intro k old new hold _ hne
    have hlk : (fillGaps (SplitEquals E) N).lookup k = some old := by
      rw [lookup_fillGaps, hold]; rfl
    refine ⟨hlk, ?_, ?_, ?_⟩
    · rw [hlk]
      intro h
      exact hne (Option.some.inj h)
    · exact List.mem_map.mpr ⟨⟨k, old⟩, AList.mem_lookup_iff.mp hlk, rfl⟩
    · intro hN hmem
      have hm : ∀ k ∈ fillGaps (SplitEquals E) N, '=' ∉ k.data := by
        intro k hk
        rcases (mem_fillGaps _ _ k).mp hk with h | h
        · exact SplitEquals_key E k h
        · exact hN k h
      have hkE : '=' ∉ k.data :=
        SplitEquals_key E k (AList.lookup_isSome.mp (by rw [hold]; rfl))
      have := lookup_of_mem_JoinEquals _ hm k new hkE hmem
      rw [hlk] at this
      exact hne (Option.some.inj this)

/-- C10 at the inherited list `KEY=old`, `A=b=c`, `junk` and the explicit map
`{"KEY": "new", "B": "x"}`. -/
theorem C10_no_overwrite_policy_witness :
    ∃ env : GoMap,
      (ExtraEnvNoOverwrite ((AList.singleton "KEY" "new").insert "B" "x")
        ["KEY=old", "A=b=c", "junk"] runConfig.initial).env = some env ∧
      env.lookup "KEY" = some "old" ∧ env.lookup "B" = some "x" ∧
      "KEY" ++ "=" ++ "old" ∈ JoinEquals env ∧ "KEY" ++ "=" ++ "new" ∉ JoinEquals env := by
  obtain ⟨env, h1, _, h3, _, h5⟩ := C10_no_overwrite_policy ["KEY=old", "A=b=c", "junk"]
    ((AList.singleton "KEY" "new").insert "B" "x") runConfig.initial
  have h := h5 "KEY" "old" "new" (by decide) (by decide) (by decide)
  refine ⟨env, h1, h.1, ?_, h.2.2.1, h.2.2.2 (by decide)⟩
  rw [h3 "B" (by decide)]
  decide


/-! ## Properties of `CUSudo.Run` -/

/-- Writing through the fan-out of a bounded writer and the combined buffer:
never an error, and the bounded writer sees the chunk. -/
theorem Writer_Write_limited_combined (h : Heap) (i : Nat) (p : List Byte) :
    Writer.Write h [WriterRef.limited i, WriterRef.combined] p
      = ({ h with limited := Function.update h.limited i ((h.limited i).Write p).1,
                  combined := h.combined ++ p }, (p.length : Int), none) := by
  simp [Writer.Write, WriterRef.Write, limitedBufferWriter.Write_result, bufferWrite]

/-- Writing through the fan-out of a bounded writer, the combined buffer and,
for a verbose executor, a stream of the process: never an error, and the
bounded writer sees the chunk. -/
theorem Writer_Write_limited_tee (h : Heap) (i : Nat) (p : List Byte) (x : Writer)
    (hx : x = [] ∨ x = [WriterRef.osStdout] ∨ x = [WriterRef.osStderr]) :
    (Writer.Write h ([WriterRef.limited i, WriterRef.combined] ++ x) p).2
      = ((p.length : Int), none) ∧
    (Writer.Write h ([WriterRef.limited i, WriterRef.combined] ++ x) p).1.limited
      = Function.update h.limited i ((h.limited i).Write p).1 := by
  rcases hx with rfl | rfl | rfl <;>
    simp [Writer.Write, WriterRef.Write, limitedBufferWriter.Write_result, bufferWrite]

/-- The state after a child's output has been copied to a command whose
stdout fans out to `limited 0` and whose stderr fans out to `limited 1`, each
next to the combined buffer and, for a verbose executor, to the stream of the
process: no copy failed, and each bounded writer has seen the chunks of its
stream, in order. -/
theorem foldl_deliver_limited (cmd : Cmd) (xo xe : Writer)
    (hxo : xo = [] ∨ xo = [WriterRef.osStdout] ∨ xo = [WriterRef.osStderr])
    (hxe : xe = [] ∨ xe = [WriterRef.osStdout] ∨ xe = [WriterRef.osStderr])
    (hout : cmd.Stdout = some ([WriterRef.limited 0, WriterRef.combined] ++ xo))
    (herr : cmd.Stderr = some ([WriterRef.limited 1, WriterRef.combined] ++ xe))
    (events : List (Stream × List Byte)) :
    ∀ h : Heap,
      (events.foldl (deliver cmd) (h, none, none)).2 = (none, none) ∧
      (events.foldl (deliver cmd) (h, none, none)).1.limited 0
        = (h.limited 0).writeAll (chunksOf Stream.out events) ∧
      (events.foldl (deliver cmd) (h, none, none)).1.limited 1
        = (h.limited 1).writeAll (chunksOf Stream.err events) := by
  induction events with
  | nil => intro h; simp [chunksOf, limitedBufferWriter.writeAll]
  | cons ev t ih =>
    intro h
    obtain ⟨s, p⟩ := ev
    cases s
    · obtain ⟨w1, w2⟩ := Writer_Write_limited_tee h 0 p xo hxo
      have hstep : deliver cmd (h, none, none) (Stream.out, p)
          = ((Writer.Write h ([WriterRef.limited 0, WriterRef.combined] ++ xo) p).1,
              none, none) := by
        simp only [deliver, hout, w1]
        simp
      rw [List.foldl_cons, hstep]
      obtain ⟨h1, h2, h3⟩ :=
        ih (Writer.Write h ([WriterRef.limited 0, WriterRef.combined] ++ xo) p).1
      refine ⟨h1, ?_, ?_⟩
      · rw [h2, w2]; simp [chunksOf, limitedBufferWriter.writeAll]
      · rw [h3, w2]; simp [chunksOf, limitedBufferWriter.writeAll]
    · obtain ⟨w1, w2⟩ := Writer_Write_limited_tee h 1 p xe hxe
      have hstep : deliver cmd (h, none, none) (Stream.err, p)
          = ((Writer.Write h ([WriterRef.limited 1, WriterRef.combined] ++ xe) p).1,
              none, none) := by
        simp only [deliver, herr, w1]
        simp
      rw [List.foldl_cons, hstep]
      obtain ⟨h1, h2, h3⟩ :=
        ih (Writer.Write h ([WriterRef.limited 1, WriterRef.combined] ++ xe) p).1
      refine ⟨h1, ?_, ?_⟩
      · rw [h2, w2]; simp [chunksOf, limitedBufferWriter.writeAll]
      · rw [h3, w2]; simp [chunksOf, limitedBufferWriter.writeAll]

/-- What `Executor.Run` does to the two bounded writers of such a command, and
what it returns: the child's status. -/
theorem Executor_Run_limited (e : Executor) (h : Heap) (cmd : Cmd)
    (hout : cmd.Stdout = some [WriterRef.limited 0, WriterRef.combined])
    (herr : cmd.Stderr = some [WriterRef.limited 1, WriterRef.combined]) :
    (e.Run h cmd).2 = (e.run cmd).err ∧
    (e.Run h cmd).1.limited 0
      = (h.limited 0).writeAll (chunksOf Stream.out (e.run cmd).events) ∧
    (e.Run h cmd).1.limited 1
      = (h.limited 1).writeAll (chunksOf Stream.err (e.run cmd).events) := by
  have key : ∃ xo xe : Writer,
      (xo = [] ∨ xo = [WriterRef.osStdout] ∨ xo = [WriterRef.osStderr]) ∧
      (xe = [] ∨ xe = [WriterRef.osStdout] ∨ xe = [WriterRef.osStderr]) ∧
      (if e.verbose then verboseCmd cmd else cmd).Stdout
        = some ([WriterRef.limited 0, WriterRef.combined] ++ xo) ∧
      (if e.verbose then verboseCmd cmd else cmd).Stderr
        = some ([WriterRef.limited 1, WriterRef.combined] ++ xe) := by
    cases e.verbose
    · exact ⟨[], [], Or.inl rfl, Or.inl rfl, by simpa using hout, by simpa using herr⟩
    · refine ⟨[WriterRef.osStdout], [WriterRef.osStderr], Or.inr (Or.inl rfl),
        Or.inr (Or.inr rfl), ?_, ?_⟩
      · simp [verboseCmd, hout, multiWriter]
      · simp [verboseCmd, herr, multiWriter]
  obtain ⟨xo, xe, hxo, hxe, ho, he⟩ := key
  obtain ⟨h1, h2, h3⟩ := foldl_deliver_limited _ xo xe hxo hxe ho he (e.run cmd).events h
  refine ⟨?_, h2, h3⟩
  simp only [Executor.Run]
  rw [h1]
  cases (e.run cmd).err <;> rfl

/-- `configureCmd` leaves the path and the arguments of the command alone. -/
theorem configureCmd_Path_Args (cmd : Cmd) (config : runConfig) :
    (configureCmd cmd config).1.Path = cmd.Path ∧
    (configureCmd cmd config).1.Args = cmd.Args := by
  obtain ⟨so, se, si, cb, ctx, env, le, tmo, dir, jb, jo, ca⟩ := config
  cases env <;> cases so <;> cases se <;> cases cb <;>
    simp only [configureCmd] <;> split_ifs <;> exact ⟨rfl, rfl⟩

/-- The writers `configureCmd` gives the command when the configuration names
both and keeps the combined buffer. -/
theorem configureCmd_writers (cmd : Cmd) (config : runConfig) (wo we : Writer)
    (hso : config.stdout = some wo) (hse : config.stderr = some we)
    (hcb : config.combinedOutputBuffer = true) :
    (configureCmd cmd config).1.Stdout = some (wo ++ [WriterRef.combined]) ∧
    (configureCmd cmd config).1.Stderr = some (we ++ [WriterRef.combined]) := by
  obtain ⟨so, se, si, cb, ctx, env, le, tmo, dir, jb, jo, ca⟩ := config
  simp only at hso hse hcb
  subst hso hse hcb
  cases env <;> simp only [configureCmd] <;> split_ifs <;>
    simp [multiWriter]

/-- Without a timeout `configureCmd` leaves the configuration alone. -/
theorem configureCmd_config (cmd : Cmd) (config : runConfig) (hto : config.timeout = 0) :
    (configureCmd cmd config).2 = config := by
  simp [configureCmd, hto]

/-- The function `Run` of package `shell` under a configuration that sends
stdout to `limited 0` and stderr to `limited 1`, keeps the combined buffer,
and has no context, timeout, stdin or JSON target: the executor is run on a
command with the same path and arguments, the error is the child's status,
and each bounded writer has seen the chunks of its stream. -/
theorem Run_limited (environ : List String) (e : Executor) (h : Heap) (cmd : Cmd)
    (opts : List ExecOption)
    (hso : (opts.foldl (fun config opt => opt environ config) runConfig.initial).stdout
      = some [WriterRef.limited 0])
    (hse : (opts.foldl (fun config opt => opt environ config) runConfig.initial).stderr
      = some [WriterRef.limited 1])
    (hcb : (opts.foldl (fun config opt => opt environ config)
      runConfig.initial).combinedOutputBuffer = true)
    (hctx : (opts.foldl (fun config opt => opt environ config) runConfig.initial).ctx = none)
    (hto : (opts.foldl (fun config opt => opt environ config) runConfig.initial).timeout = 0)
    (hjs : (opts.foldl (fun config opt => opt environ config) runConfig.initial).jsonOutput
      = none)
    (hin : (opts.foldl (fun config opt => opt environ config) runConfig.initial).stdin = none) :
    ∃ cmd' : Cmd, cmd'.Path = cmd.Path ∧ cmd'.Args = cmd.Args ∧
      (Run environ e h cmd opts).2.2 = (e.run cmd').err ∧
      (Run environ e h cmd opts).1.limited 0
        = (h.limited 0).writeAll (chunksOf Stream.out (e.run cmd').events) ∧
      (Run environ e h cmd opts).1.limited 1
        = (h.limited 1).writeAll (chunksOf Stream.err (e.run cmd').events) := by
  generalize hc : opts.foldl (fun config opt => opt environ config) runConfig.initial = config
    at hso hse hcb hctx hto hjs hin
  have hw := configureCmd_writers cmd config _ _ hso hse hcb
  have hpa := configureCmd_Path_Args cmd config
  have hcc := configureCmd_config cmd config hto
  obtain ⟨r1, r2, r3⟩ := Executor_Run_limited e { h with combined := [] }
    (configureCmd cmd config).1 hw.1 hw.2
  refine ⟨(configureCmd cmd config).1, hpa.1, hpa.2, ?_⟩
  have hrun : Run environ e h cmd opts
      = (if !config.logError || (e.run (configureCmd cmd config).1).err = none ||
            Option.map errorsCause (e.run (configureCmd cmd config).1).err = some Error.canceled
          then (e.Run { h with combined := [] } (configureCmd cmd config).1).1
          else (match e.logger with
              | some l => l
              | none => Logger.discard).Info
            (e.Run { h with combined := [] } (configureCmd cmd config).1).1
            (errorLogs (configureCmd cmd config).1
              (some (e.Run { h with combined := [] } (configureCmd cmd config).1).1.combined)),
        (configureCmd cmd config).1, (e.run (configureCmd cmd config).1).err) := by
    unfold Run
    simp only [hc, hjs, Option.isSome_none, Bool.false_eq_true, if_false, hcc, hin, hctx, r1,
      ne_eq, not_true_eq_false, hcb, if_true]
    split_ifs <;> rfl
  rw [hrun]
  refine ⟨rfl, ?_, ?_⟩
  · simp only
    split_ifs
    · exact r2
    · rw [← r2]; cases e.logger with
      | none => rfl
      | some l => cases l <;> rfl
  · simp only
    split_ifs
    · exact r3
    · rw [← r3]; cases e.logger with
      | none => rfl
      | some l => cases l <;> rfl

/-- The method `CUSudo.Run` on a session with a platform: the executor is run
on a command whose arguments are the elevation prefix followed by `args`, and
the result is read off the two bounded writers, each of which has seen the
chunks of its stream. -/
theorem CUSudo_Run_eq (c : CUSudo) (environ args : List String) (hP : c.Platform ≠ "") :
    ∃ (pre : List String) (cmd : Cmd),
      c.GetElevationPrefix = .ok pre ∧ cmd.Args = pre ++ args ∧
      c.Run environ args =
        (if ((newLimitedBufferWriter [] defaultMaxOutputBytes).writeAll
              (chunksOf Stream.out (c.Executor.run cmd).events)).Exceeded ||
            ((newLimitedBufferWriter [] defaultMaxOutputBytes).writeAll
              (chunksOf Stream.err (c.Executor.run cmd).events)).Exceeded
         then
          (((newLimitedBufferWriter [] defaultMaxOutputBytes).writeAll
              (chunksOf Stream.out (c.Executor.run cmd).events)).buf,
            some (Error.outputExceeded
              ((newLimitedBufferWriter [] defaultMaxOutputBytes).writeAll
                (chunksOf Stream.err (c.Executor.run cmd).events)).buf))
         else match (c.Executor.run cmd).err with
          | some err =>
            (((newLimitedBufferWriter [] defaultMaxOutputBytes).writeAll
                (chunksOf Stream.err (c.Executor.run cmd).events)).buf,
              some (Error.commandFailed err
                ((newLimitedBufferWriter [] defaultMaxOutputBytes).writeAll
                  (chunksOf Stream.err (c.Executor.run cmd).events)).buf))
          | none =>
            (((newLimitedBufferWriter [] defaultMaxOutputBytes).writeAll
                (chunksOf Stream.out (c.Executor.run cmd).events)).buf, none)) := by
  obtain ⟨pre, cmd0, hpre, hbuild, hargs⟩ := BuildCmd_ok c args hP
  have key : ∀ opts : List ExecOption,
      (opts.foldl (fun config opt => opt environ config) runConfig.initial).stdout
        = some [WriterRef.limited 0] →
      (opts.foldl (fun config opt => opt environ config) runConfig.initial).stderr
        = some [WriterRef.limited 1] →
      (opts.foldl (fun config opt => opt environ config)
        runConfig.initial).combinedOutputBuffer = true →
      (opts.foldl (fun config opt => opt environ config) runConfig.initial).ctx = none →
      (opts.foldl (fun config opt => opt environ config) runConfig.initial).timeout = 0 →
      (opts.foldl (fun config opt => opt environ config) runConfig.initial).jsonOutput
        = none →
      (opts.foldl (fun config opt => opt environ config) runConfig.initial).stdin = none →
      ∀ h : Heap, h.limited 0 = newLimitedBufferWriter [] defaultMaxOutputBytes →
        h.limited 1 = newLimitedBufferWriter [] defaultMaxOutputBytes →
      ∃ cmd : Cmd, cmd.Args = pre ++ args ∧
        (c.RunWithOpts environ h args opts).2 = (c.Executor.run cmd).err ∧
        (c.RunWithOpts environ h args opts).1.limited 0
          = (newLimitedBufferWriter [] defaultMaxOutputBytes).writeAll
              (chunksOf Stream.out (c.Executor.run cmd).events) ∧
        (c.RunWithOpts environ h args opts).1.limited 1
          = (newLimitedBufferWriter [] defaultMaxOutputBytes).writeAll
              (chunksOf Stream.err (c.Executor.run cmd).events) := by
    intro opts a1 a2 a3 a4 a5 a6 a7 h hh0 hh1
    obtain ⟨cmd, _, hA, hE, hO, hR⟩ :=
      Run_limited environ c.Executor h cmd0 opts a1 a2 a3 a4 a5 a6 a7
    refine ⟨cmd, hA.trans hargs, ?_, ?_, ?_⟩
    · simp only [CUSudo.RunWithOpts, hbuild]; exact hE
    · simp only [CUSudo.RunWithOpts, hbuild]; rw [hO, hh0]
    · simp only [CUSudo.RunWithOpts, hbuild]; rw [hR, hh1]
  by_cases hcwd : c.CWD = ""
  · obtain ⟨cmd, hA, hE, hO, hR⟩ := key
      [c.SetEnvOpts [c.SetPathEnv], Stdout [WriterRef.limited 0], Stderr [WriterRef.limited 1]]
      rfl rfl rfl rfl rfl rfl rfl
      CUSudo.runHeap rfl rfl
    refine ⟨pre, cmd, hpre, hA, ?_⟩
    simp only [CUSudo.Run, hcwd, ne_eq, not_true_eq_false, if_false]
    rw [hE, hO, hR]
  · obtain ⟨cmd, hA, hE, hO, hR⟩ := key
      [c.SetEnvOpts [c.SetPathEnv, c.SetPWD c.CWD], Stdout [WriterRef.limited 0],
        Stderr [WriterRef.limited 1], Cwd c.CWD]
      rfl rfl rfl rfl rfl rfl rfl
      CUSudo.runHeap rfl rfl
    refine ⟨pre, cmd, hpre, hA, ?_⟩
    simp only [CUSudo.Run, hcwd, ne_eq, not_false_eq_true, if_true, List.cons_append,
      List.nil_append]
    rw [hE, hO, hR]

/-- The bounded writer of the default limit after the chunks of a stream:
it holds the first 4 MiB of the stream, is exceeded when the stream is
longer, and holds the whole stream when it is not exceeded. -/
theorem writeAll_default (chunks : List (List Byte)) :
    ((newLimitedBufferWriter [] defaultMaxOutputBytes).writeAll chunks).buf
      = chunks.flatten.take (4 * 2 ^ 20) ∧
    (chunks.flatten.length > 4 * 2 ^ 20 →
      ((newLimitedBufferWriter [] defaultMaxOutputBytes).writeAll chunks).Exceeded = true) ∧
    (((newLimitedBufferWriter [] defaultMaxOutputBytes).writeAll chunks).Exceeded = false →
      ((newLimitedBufferWriter [] defaultMaxOutputBytes).writeAll chunks).buf
        = chunks.flatten) := by
  have hL : (0 : Int) ≤ defaultMaxOutputBytes := by norm_num [defaultMaxOutputBytes]
  have hn : defaultMaxOutputBytes.toNat = 4 * 2 ^ 20 := by rfl
  have h := limitedBufferWriter.freshInv_writeAll defaultMaxOutputBytes hL chunks []
    (newLimitedBufferWriter [] defaultMaxOutputBytes)
    (limitedBufferWriter.freshInv_new defaultMaxOutputBytes hL)
  rw [List.nil_append] at h
  obtain ⟨_, hbuf, _, hex, hgt⟩ := h
  rw [hn] at hbuf
  refine ⟨hbuf, ?_, ?_⟩
  · intro hlen
    apply hgt
    have : ((chunks.flatten.length : Nat) : Int) > ((4 * 2 ^ 20 : Nat) : Int) := by
      exact_mod_cast hlen
    simpa [defaultMaxOutputBytes] using this
  · intro hne
    have hle := hex hne
    rw [hbuf]
    apply List.take_of_length_le
    have : ((chunks.flatten.length : Nat) : Int) ≤ ((4 * 2 ^ 20 : Nat) : Int) := by
      simpa [defaultMaxOutputBytes] using hle
    exact_mod_cast this

/-- C6: on a session with a platform, `CUSudo.Run` hands the executor a command
made of the elevation prefix and the arguments, and with `o` what the child
does: a stream longer than 4 MiB marks its bounded writer exceeded; when
either writer is marked exceeded, `Run` returns a non-nil error whatever the
child's status, and the string it returns is the first `4 * 2^20` bytes of the
child's stdout; when neither is and the child succeeds, `Run` returns the
whole stdout and a nil error. -/
theorem C6_truncation_precedence (c : CUSudo) (environ args : List String)
    (hP : c.Platform ≠ "") :
    defaultMaxOutputBytes = 4 * 2 ^ 20 ∧
    ∃ (pre : List String) (cmd : Cmd),
      c.GetElevationPrefix = .ok pre ∧ cmd.Args = pre ++ args ∧
      ((streamOf Stream.out (c.Executor.run cmd)).length > 4 * 2 ^ 20 →
        ((newLimitedBufferWriter [] defaultMaxOutputBytes).writeAll
          (chunksOf Stream.out (c.Executor.run cmd).events)).Exceeded = true) ∧
      ((streamOf Stream.err (c.Executor.run cmd)).length > 4 * 2 ^ 20 →
        ((newLimitedBufferWriter [] defaultMaxOutputBytes).writeAll
          (chunksOf Stream.err (c.Executor.run cmd).events)).Exceeded = true) ∧
      (((newLimitedBufferWriter [] defaultMaxOutputBytes).writeAll
          (chunksOf Stream.out (c.Executor.run cmd).events)).Exceeded = true ∨
        ((newLimitedBufferWriter [] defaultMaxOutputBytes).writeAll
          (chunksOf Stream.err (c.Executor.run cmd).events)).Exceeded = true →
        (c.Run environ args).2 ≠ none ∧
        (c.Run environ args).1 = (streamOf Stream.out (c.Executor.run cmd)).take (4 * 2 ^ 20) ∧
        (c.Run environ args).1.length ≤ 4 * 2 ^ 20) ∧
      (((newLimitedBufferWriter [] defaultMaxOutputBytes).writeAll
          (chunksOf Stream.out (c.Executor.run cmd).events)).Exceeded = false →
        ((newLimitedBufferWriter [] defaultMaxOutputBytes).writeAll
          (chunksOf Stream.err (c.Executor.run cmd).events)).Exceeded = false →
        (c.Executor.run cmd).err = none →
        c.Run environ args = (streamOf Stream.out (c.Executor.run cmd), none)) := by
  refine ⟨rfl, ?_⟩
  obtain ⟨pre, cmd, hpre, hargs, hrun⟩ := CUSudo_Run_eq c environ args hP
  obtain ⟨ob, ogt, one⟩ := writeAll_default (chunksOf Stream.out (c.Executor.run cmd).events)
  obtain ⟨_, egt, _⟩ := writeAll_default (chunksOf Stream.err (c.Executor.run cmd).events)
  refine ⟨pre, cmd, hpre, hargs, ogt, egt, ?_, ?_⟩
  · intro hex
    have hcond : (((newLimitedBufferWriter [] defaultMaxOutputBytes).writeAll
          (chunksOf Stream.out (c.Executor.run cmd).events)).Exceeded ||
        ((newLimitedBufferWriter [] defaultMaxOutputBytes).writeAll
          (chunksOf Stream.err (c.Executor.run cmd).events)).Exceeded) = true := by
      rcases hex with h | h <;> simp [h]
    rw [hrun, if_pos hcond]
    refine ⟨by simp, ?_, ?_⟩
    · exact ob
    · simp only [ob, List.length_take]
      exact min_le_left _ _
  · intro ho he hs
    rw [hrun, ho, he, hs]
    simp only [Bool.or_self, Bool.false_eq_true, if_false]
    rw [one ho]
    rfl

/-- C6 at a child that writes one chunk of `4 * 2^20 + 1` zero bytes to its
stdout and succeeds: `Run` returns an error, and the first `4 * 2^20` bytes. -/
theorem C6_truncation_precedence_witness :
    (sessionWith [(Stream.out, List.replicate (4 * 2 ^ 20 + 1) 0)]).Platform ≠ "" ∧
    ((sessionWith [(Stream.out, List.replicate (4 * 2 ^ 20 + 1) 0)]).Run []
      ["echo", "hello"]).2 ≠ none ∧
    ((sessionWith [(Stream.out, List.replicate (4 * 2 ^ 20 + 1) 0)]).Run []
      ["echo", "hello"]).1 = List.replicate (4 * 2 ^ 20) 0 := by
  have hplat : ∀ events, (sessionWith events).Platform ≠ "" := by
    intro events
    show "darwin" ≠ ""
    decide
  have hlen : (List.replicate (4 * 2 ^ 20 + 1) (0 : Byte)).length > 4 * 2 ^ 20 := by
    rw [List.length_replicate]; exact Nat.lt_succ_self _
  have htake : (List.replicate (4 * 2 ^ 20 + 1) (0 : Byte)).take (4 * 2 ^ 20)
      = List.replicate (4 * 2 ^ 20) 0 := by
    rw [List.take_replicate, min_eq_left (Nat.le_succ _)]
  obtain ⟨_, pre, cmd, _, _, hgt, _, hex, _⟩ := C6_truncation_precedence
    (sessionWith [(Stream.out, List.replicate (4 * 2 ^ 20 + 1) 0)]) [] ["echo", "hello"]
    (hplat _)
  rw [← htake]
  generalize List.replicate (4 * 2 ^ 20 + 1) (0 : Byte) = big at *
  have hstream : streamOf Stream.out ((sessionWith [(Stream.out, big)]).Executor.run cmd)
      = big := by
    simp [streamOf, chunksOf, sessionWith]
  rw [hstream] at hgt hex
  have h := hex (Or.inl (hgt hlen))
  exact ⟨hplat _, h.1, h.2.1⟩

/-- The success case of `CUSudo.Run`, as `TestRun` has it: the child writes
`Hello, World!` and succeeds, and `Run` returns that text and no error. -/
theorem Run_hello_world :
    (sessionWith [(Stream.out, [72, 101, 108, 108, 111, 44, 32, 87, 111, 114, 108, 100, 33])]).Run
        [] ["echo", "hello"]
      = ([72, 101, 108, 108, 111, 44, 32, 87, 111, 114, 108, 100, 33], none) := by
  obtain ⟨pre, cmd, _, _, h⟩ := CUSudo_Run_eq
    (sessionWith [(Stream.out, [72, 101, 108, 108, 111, 44, 32, 87, 111, 114, 108, 100, 33])])
    [] ["echo", "hello"] (by decide)
  rw [h]
  rfl


/-! ## Properties of `Run` of package `shell` -/

/-- The function `Run` in two halves: the command and the heap are prepared
from the options, then the prepared command is run. -/
theorem Run_eq (environ : List String) (e : Executor) (h : Heap) (cmd : Cmd)
    (opts : List ExecOption) :
    Run environ e h cmd opts
      = finishRun e (configureCmd cmd (configOf environ opts)).2
          (preparedHeap environ h opts) (preparedCmd environ cmd opts) := by
  rfl

/-- The second half of `Run` returns the command it is given. -/
theorem finishRun_cmd (e : Executor) (config : runConfig) (h : Heap) (cmd : Cmd) :
    (finishRun e config h cmd).2.1 = cmd := by
  unfold finishRun
  simp only []
  split_ifs <;> rfl

/-- The redirection of stdout to the JSON buffer changes no other field that
the run reads. -/
theorem configOf_fields (environ : List String) (opts : List ExecOption) :
    (configOf environ opts).env = (appliedOpts environ opts).env ∧
    (configOf environ opts).stdin = (appliedOpts environ opts).stdin ∧
    (configOf environ opts).stderr = (appliedOpts environ opts).stderr ∧
    (configOf environ opts).ctx = (appliedOpts environ opts).ctx ∧
    (configOf environ opts).timeout = (appliedOpts environ opts).timeout ∧
    (configOf environ opts).logError = (appliedOpts environ opts).logError ∧
    (configOf environ opts).combinedOutputBuffer
      = (appliedOpts environ opts).combinedOutputBuffer ∧
    (configOf environ opts).jsonOutput = (appliedOpts environ opts).jsonOutput ∧
    (configOf environ opts).dir = (appliedOpts environ opts).dir := by
  unfold configOf
  split_ifs <;> exact ⟨rfl, rfl, rfl, rfl, rfl, rfl, rfl, rfl, rfl⟩

/-- The function `configureCmd` changes nothing of the configuration but the
context and the cancel function. -/
theorem configureCmd_config_fields (cmd : Cmd) (config : runConfig) :
    (configureCmd cmd config).2.stdin = config.stdin ∧
    (configureCmd cmd config).2.logError = config.logError ∧
    (configureCmd cmd config).2.combinedOutputBuffer = config.combinedOutputBuffer ∧
    (configureCmd cmd config).2.jsonOutput = config.jsonOutput ∧
    ((configureCmd cmd config).2.ctx = none ↔ config.ctx = none ∧ config.timeout = 0) := by
  simp only [configureCmd]
  split_ifs with h
  · refine ⟨rfl, rfl, rfl, rfl, ?_⟩
    simp [h]
  · refine ⟨rfl, rfl, rfl, rfl, ?_⟩
    simp only [ne_eq, not_not] at h
    simp [h]

/-- The function `writeToStdin` changes nothing of the command but its
stdin. -/
theorem writeToStdin_fields (cmd : Cmd) (r : List Byte) :
    (writeToStdin cmd r).Path = cmd.Path ∧ (writeToStdin cmd r).Args = cmd.Args ∧
    (writeToStdin cmd r).Env = cmd.Env ∧ (writeToStdin cmd r).Stdout = cmd.Stdout ∧
    (writeToStdin cmd r).Stderr = cmd.Stderr ∧ (writeToStdin cmd r).Dir = cmd.Dir := by
  unfold writeToStdin
  split <;> exact ⟨rfl, rfl, rfl, rfl, rfl, rfl⟩

/-- The environment list of a command after `configureCmd`: the list it had,
followed by the rendering of the configured environment. -/
theorem configureCmd_Env (cmd : Cmd) (config : runConfig) :
    (configureCmd cmd config).1.Env
      = cmd.Env ++ (match config.env with
          | some env => JoinEquals env
          | none => []) := by
  obtain ⟨so, se, si, cb, ctx, env, le, tmo, dir, jb, jo, ca⟩ := config
  cases env <;> cases so <;> cases se <;> cases cb <;>
    simp only [configureCmd] <;> split_ifs <;> simp

/-- The path, the arguments and the output writers of the prepared command
are those `configureCmd` sets, and its environment list is the list the
command had, followed by the rendering of the configured environment. -/
theorem preparedCmd_fields (environ : List String) (cmd : Cmd) (opts : List ExecOption) :
    (preparedCmd environ cmd opts).Path = cmd.Path ∧
    (preparedCmd environ cmd opts).Args = cmd.Args ∧
    (preparedCmd environ cmd opts).Stdout
      = (configureCmd cmd (configOf environ opts)).1.Stdout ∧
    (preparedCmd environ cmd opts).Stderr
      = (configureCmd cmd (configOf environ opts)).1.Stderr ∧
    (preparedCmd environ cmd opts).Env
      = cmd.Env ++ (match (appliedOpts environ opts).env with
          | some env => JoinEquals env
          | none => []) := by
  have hpa := configureCmd_Path_Args cmd (configOf environ opts)
  have henv := configureCmd_Env cmd (configOf environ opts)
  rw [(configOf_fields environ opts).1] at henv
  unfold preparedCmd
  split
  · rename_i r _
    have hw := writeToStdin_fields (configureCmd cmd (configOf environ opts)).1 r
    exact ⟨hw.1.trans hpa.1, hw.2.1.trans hpa.2, hw.2.2.2.1, hw.2.2.2.2.1,
      hw.2.2.1.trans henv⟩
  · exact ⟨hpa.1, hpa.2, rfl, rfl, henv⟩

/-- The environment list of the command after `Run`. -/
theorem Run_cmd_Env (environ : List String) (e : Executor) (h : Heap) (cmd : Cmd)
    (opts : List ExecOption) :
    (Run environ e h cmd opts).2.1.Env
      = cmd.Env ++ (match (appliedOpts environ opts).env with
          | some env => JoinEquals env
          | none => []) := by
  rw [Run_eq, finishRun_cmd]
  exact (preparedCmd_fields environ cmd opts).2.2.2.2

/-- C11, refuted as stated: a command whose environment list holds `KEY=value`
is run under the No-Overwrite policy with the explicit map `{"LDAP": "yak"}`,
the inherited environment being `KEY=old`. The composed list is `LDAP=yak`,
`KEY=old`; the command's environment after `Run` is another list,
`KEY=value`, `LDAP=yak`, `KEY=old`, in which the key `KEY` occurs twice. -/
theorem C11_preset_env_kept :
    (appliedOpts ["KEY=old"] [ExtraEnvNoOverwrite (AList.singleton "LDAP" "yak")]).env.map
        JoinEquals = some ["LDAP=yak", "KEY=old"] ∧
    (Run ["KEY=old"] (sessionWith []).Executor Heap.init
        { NewCommand "true" [] with Env := ["KEY=value"] }
        [ExtraEnvNoOverwrite (AList.singleton "LDAP" "yak")]).2.1.Env
      = ["KEY=value", "LDAP=yak", "KEY=old"] ∧
    (keysOf (Run ["KEY=old"] (sessionWith []).Executor Heap.init
        { NewCommand "true" [] with Env := ["KEY=value"] }
        [ExtraEnvNoOverwrite (AList.singleton "LDAP" "yak")]).2.1.Env).count "KEY" = 2 := by
  decide

/-- C11, amended: after `Run` has applied its options, the last environment
policy among them having composed `env`, the command's environment is the list
it had before, followed by the rendering of `env`; when the command had no
environment entries before and no key of `env` holds an `=`, it is the
rendering of `env`, and every key occurs in it exactly once. -/
theorem C11_env_appended (environ : List String) (e : Executor) (h : Heap) (cmd : Cmd)
    (opts : List ExecOption) (env : GoMap)
    (henv : (appliedOpts environ opts).env = some env) :
    (Run environ e h cmd opts).2.1.Env = cmd.Env ++ JoinEquals env ∧
    (cmd.Env = [] → (∀ k ∈ env, '=' ∉ k.data) →
      (Run environ e h cmd opts).2.1.Env = JoinEquals env ∧
      keysOf (Run environ e h cmd opts).2.1.Env = env.keys ∧
      ∀ k ∈ env, (keysOf (Run environ e h cmd opts).2.1.Env).count k = 1) := by
  have hE : (Run environ e h cmd opts).2.1.Env = cmd.Env ++ JoinEquals env := by
    rw [Run_cmd_Env, henv]
  refine ⟨hE, ?_⟩
  intro hnil hkeys
  have hE' : (Run environ e h cmd opts).2.1.Env = JoinEquals env := by
    rw [hE, hnil, List.nil_append]
  refine ⟨hE', ?_, ?_⟩
  · rw [hE', keysOf_JoinEquals env hkeys]
  · intro k hk
    rw [hE', keysOf_JoinEquals env hkeys]
    exact List.count_eq_one_of_mem (AList.keys_nodup _) (AList.mem_keys.mp hk)

/-- C11, amended, at a command without environment entries, the inherited
environment `KEY=old` and the Overwrite policy with `{"KEY": "new"}`. -/
theorem C11_env_appended_witness :
    (Run ["KEY=old", "A=b"] (sessionWith []).Executor Heap.init (NewCommand "true" [])
        [ExtraEnvOverwrite (AList.singleton "KEY" "new")]).2.1.Env
      = JoinEquals (overwriteAll (SplitEquals ["KEY=old", "A=b"]) (AList.singleton "KEY" "new")) ∧
    (keysOf (Run ["KEY=old", "A=b"] (sessionWith []).Executor Heap.init (NewCommand "true" [])
        [ExtraEnvOverwrite (AList.singleton "KEY" "new")]).2.1.Env).count "KEY" = 1 := by
  have h := (C11_env_appended ["KEY=old", "A=b"] (sessionWith []).Executor Heap.init
    (NewCommand "true" []) [ExtraEnvOverwrite (AList.singleton "KEY" "new")]
    (overwriteAll (SplitEquals ["KEY=old", "A=b"]) (AList.singleton "KEY" "new")) rfl).2
    rfl (by decide)
  exact ⟨h.1, h.2.2 "KEY" (by decide)⟩


/-- Looking a key up after the allowed entries of a list with distinct keys
have been assigned one by one. -/
theorem lookup_foldl_allowed (allowlist : List String) (l : List (Σ _ : String, String))
    (hl : l.NodupKeys) :
    ∀ (acc : GoMap) (k : String),
      (l.foldl (fun cmdEnv e => if e.1 ∈ allowlist then cmdEnv.insert e.1 e.2 else cmdEnv)
        acc).lookup k
        = (if k ∈ allowlist then l.dlookup k else none).orElse (fun _ => acc.lookup k) := by
  induction l with
  | nil => intro acc k; split_ifs <;> simp
  | cons e t ih =>
    intro acc k
    rw [List.nodupKeys_cons] at hl
    rw [List.foldl_cons, ih hl.2]
    obtain ⟨a, b⟩ := e
    by_cases hk : k = a
    · subst hk
      have hnone : List.dlookup k t = none := List.dlookup_eq_none.mpr hl.1
      rw [hnone, List.dlookup_cons_eq]
      by_cases hA : k ∈ allowlist
      · simp [hA, AList.lookup_insert]
      · simp [hA]
    · rw [List.dlookup_cons_ne _ _ hk]
      by_cases hA : a ∈ allowlist
      · simp only [hA, if_true]
        rw [AList.lookup_insert_ne hk]
      · simp only [hA, if_false]

/-- Looking a key up after `allowedOnly`. -/
theorem lookup_allowedOnly (existingEnv : GoMap) (allowlist : List String) (k : String) :
    (allowedOnly existingEnv allowlist).lookup k
      = if k ∈ allowlist then existingEnv.lookup k else none := by
  unfold allowedOnly
  rw [lookup_foldl_allowed allowlist existingEnv.entries existingEnv.nodupKeys ∅ k]
  split_ifs
  · show (AList.lookup k existingEnv).orElse _ = _
    rcases h : AList.lookup k existingEnv with _ | v <;> simp
  · simp

/-- C12: for every inherited list `E`, explicit map `N` and allowlist `A`, the
environment composed by `OverwriteEnvWithAllowlist(N, A)` has exactly the keys
of `E` that are in `A` and the keys of `N`; a key of `N` has the value of `N`,
every other key the value of `E`; and a key outside `A` that is not in `N` is
not in it. -/
theorem C12_allowlist_policy (E : List String) (N : GoMap) (A : List String)
    (config : runConfig) :
    ∃ env : GoMap, (OverwriteEnvWithAllowlist N A E config).env = some env ∧
      (∀ k, k ∈ env ↔ (k ∈ SplitEquals E ∧ k ∈ A) ∨ k ∈ N) ∧
      (∀ k v, N.lookup k = some v → env.lookup k = some v) ∧
      (∀ k, k ∈ env → k ∉ N → env.lookup k = (SplitEquals E).lookup k) ∧
      (∀ k, k ∉ A → k ∉ N → env.lookup k = none) := by
  refine ⟨overwriteAll (allowedOnly (SplitEquals E) A) N, rfl, ?_, ?_, ?_, ?_⟩
  · intro k
    rw [mem_overwriteAll, ← AList.lookup_isSome (s := allowedOnly (SplitEquals E) A),
      lookup_allowedOnly]
    by_cases hA : k ∈ A
    · simp only [hA, if_true, and_true, AList.lookup_isSome]
      exact or_comm
    · simp [hA]
  · intro k v h
    rw [lookup_overwriteAll, h]; rfl
  · intro k hk hN
    rw [lookup_overwriteAll, AList.lookup_eq_none.mpr hN]
    show (allowedOnly (SplitEquals E) A).lookup k = _
    rw [lookup_allowedOnly]
    have hmem : k ∈ allowedOnly (SplitEquals E) A := by
      rcases (mem_overwriteAll _ _ k).mp hk with h | h
      · exact absurd h hN
      · exact h
    rw [← AList.lookup_isSome, lookup_allowedOnly] at hmem
    by_cases hA : k ∈ A
    · simp [hA]
    · simp [hA] at hmem
  · intro k hA hN
    rw [lookup_overwriteAll, AList.lookup_eq_none.mpr hN]
    show (allowedOnly (SplitEquals E) A).lookup k = _
    rw [lookup_allowedOnly, if_neg hA]

/-- C12 at the inherited list `PATH=/bin`, `SECRET=1`, `HOME=/root`, the
explicit map `{"HOME": "/tmp"}` and the allowlist `PATH`, `HOME`, `USER`. -/
theorem C12_allowlist_policy_witness :
    (OverwriteEnvWithAllowlist (AList.singleton "HOME" "/tmp") DefaultEnvAllowlist
        ["PATH=/bin", "SECRET=1", "HOME=/root"] runConfig.initial).env.map JoinEquals
      = some ["HOME=/tmp", "PATH=/bin"] ∧
    ∃ env : GoMap,
      (OverwriteEnvWithAllowlist (AList.singleton "HOME" "/tmp") DefaultEnvAllowlist
        ["PATH=/bin", "SECRET=1", "HOME=/root"] runConfig.initial).env = some env ∧
      env.lookup "SECRET" = none ∧ env.lookup "HOME" = some "/tmp" := by
  refine ⟨by decide, ?_⟩
  obtain ⟨env, h1, _, h3, _, h5⟩ := C12_allowlist_policy
    ["PATH=/bin", "SECRET=1", "HOME=/root"] (AList.singleton "HOME" "/tmp")
    DefaultEnvAllowlist runConfig.initial
  exact ⟨env, h1, h5 "SECRET" (by decide) (by decide), h3 "HOME" "/tmp" (by decide)⟩


/-- No writer touches the log or the JSON target. -/
theorem WriterRef_Write_log (h : Heap) (w : WriterRef) (p : List Byte) :
    (w.Write h p).1.log = h.log ∧ (w.Write h p).1.decoded = h.decoded := by
  cases w <;> exact ⟨rfl, rfl⟩

/-- A writer other than the private JSON buffer leaves that buffer alone. -/
theorem WriterRef_Write_json (h : Heap) (w : WriterRef) (p : List Byte)
    (hw : w ≠ WriterRef.json) : (w.Write h p).1.json = h.json := by
  cases w <;> first | rfl | exact absurd rfl hw

/-- No fan-out touches the log or the JSON target. -/
theorem Writer_Write_log (w : Writer) (p : List Byte) :
    ∀ h : Heap, (Writer.Write h w p).1.log = h.log ∧
      (Writer.Write h w p).1.decoded = h.decoded := by
  induction w with
  | nil => intro h; exact ⟨rfl, rfl⟩
  | cons r rs ih =>
    intro h
    have hr := WriterRef_Write_log h r p
    simp only [Writer.Write]
    split_ifs
    · exact hr
    · exact hr
    · exact ⟨(ih _).1.trans hr.1, (ih _).2.trans hr.2⟩

/-- A fan-out that does not reach the private JSON buffer leaves it alone. -/
theorem Writer_Write_json (w : Writer) (p : List Byte) (hw : WriterRef.json ∉ w) :
    ∀ h : Heap, (Writer.Write h w p).1.json = h.json := by
  induction w with
  | nil => intro h; rfl
  | cons r rs ih =>
    intro h
    have hr := WriterRef_Write_json h r p
      (fun heq => hw (heq ▸ List.mem_cons_self _ _))
    have hrs : WriterRef.json ∉ rs := fun hmem => hw (List.mem_cons_of_mem _ hmem)
    simp only [Writer.Write]
    split_ifs
    · exact hr
    · exact hr
    · exact (ih hrs _).trans hr

/-- Copying one chunk of the child's output touches neither the log nor the
JSON target. -/
theorem deliver_log (cmd : Cmd) (st : Heap × Option Error × Option Error)
    (ev : Stream × List Byte) :
    (deliver cmd st ev).1.log = st.1.log ∧ (deliver cmd st ev).1.decoded = st.1.decoded := by
  obtain ⟨s, p⟩ := ev
  cases s
  · simp only [deliver]
    split_ifs
    · exact ⟨rfl, rfl⟩
    · split
      · exact ⟨rfl, rfl⟩
      · exact Writer_Write_log _ _ _
  · simp only [deliver]
    split_ifs
    · exact ⟨rfl, rfl⟩
    · split
      · exact ⟨rfl, rfl⟩
      · exact Writer_Write_log _ _ _

/-- The executor touches neither the log nor the JSON target. -/
theorem Executor_Run_log (e : Executor) (h : Heap) (cmd : Cmd) :
    (e.Run h cmd).1.log = h.log ∧ (e.Run h cmd).1.decoded = h.decoded := by
  have gen : ∀ (wired : Cmd) (events : List (Stream × List Byte))
      (st : Heap × Option Error × Option Error),
      (events.foldl (deliver wired) st).1.log = st.1.log ∧
      (events.foldl (deliver wired) st).1.decoded = st.1.decoded := by
    intro wired events
    induction events with
    | nil => intro st; exact ⟨rfl, rfl⟩
    | cons ev t ih =>
      intro st
      rw [List.foldl_cons]
      have hd := deliver_log wired st ev
      exact ⟨(ih _).1.trans hd.1, (ih _).2.trans hd.2⟩
  exact gen (if e.verbose then verboseCmd cmd else cmd) (e.run cmd).events (h, none, none)


/-- C19, refuted as stated: the executor fails with an error that is not a
cancellation, nothing suppresses the error reporting, and a `Context` option
is supplied (the background context, which is never done). `Run` returns the
executor's error and its logger receives nothing; without the option the
same run logs one line. -/
theorem C19_context_skips_log :
    (Run [] failingExecutor Heap.init (NewCommand "false" [])
      [Context GoContext.Background]).2.2 = some (Error.exec "exit status 1") ∧
    (Run [] failingExecutor Heap.init (NewCommand "false" [])
      [Context GoContext.Background]).1.log = [] ∧
    (Run [] failingExecutor Heap.init (NewCommand "false" []) []).1.log
      = [{ argsLine := "false", path := "false", captured := some [98, 111, 111, 109] }] := by
  decide

/-- C19, amended: when the options leave error reporting on and supply neither
a context nor a timeout, the decoding into a JSON target (if there is one)
does not fail, and the executor returns an error that is not a cancellation,
`Run` returns that error unchanged and hands the logger one record, made of
the command's argument line and the content of the combined-output buffer: a
recording logger holds exactly that one line more. -/
theorem C19_failure_logged (environ : List String) (e : Executor) (h : Heap) (cmd : Cmd)
    (opts : List ExecOption) (er : Error)
    (hlog : (appliedOpts environ opts).logError = true)
    (hcb : (appliedOpts environ opts).combinedOutputBuffer = true)
    (hctx : (appliedOpts environ opts).ctx = none)
    (hto : (appliedOpts environ opts).timeout = 0)
    (hjson : ∀ out, (appliedOpts environ opts).jsonOutput = some out →
      out.unmarshal (e.Run (preparedHeap environ h opts)
        (preparedCmd environ cmd opts)).1.json = none)
    (herr : (e.Run (preparedHeap environ h opts) (preparedCmd environ cmd opts)).2 = some er)
    (hcause : errorsCause er ≠ Error.canceled) :
    (Run environ e h cmd opts).2.2 = some er ∧
    (e.logger = some Logger.recording →
      (Run environ e h cmd opts).1.log
        = h.log ++ [{ argsLine := " ".intercalate cmd.Args, path := cmd.Path,
                      captured := some (e.Run (preparedHeap environ h opts)
                        (preparedCmd environ cmd opts)).1.combined }]) ∧
    (e.logger ≠ some Logger.recording → (Run environ e h cmd opts).1.log = h.log) := by
  have hcf := configOf_fields environ opts
  have hcc := configureCmd_config_fields cmd (configOf environ opts)
  have hpc := preparedCmd_fields environ cmd opts
  have hel := Executor_Run_log e (preparedHeap environ h opts) (preparedCmd environ cmd opts)
  have hph : (preparedHeap environ h opts).log = h.log := by
    unfold preparedHeap; split_ifs <;> rfl
  have hctx' : (configureCmd cmd (configOf environ opts)).2.ctx = none :=
    hcc.2.2.2.2.mpr ⟨hcf.2.2.2.1.trans hctx, hcf.2.2.2.2.1.trans hto⟩
  have hlog' : (configureCmd cmd (configOf environ opts)).2.logError = true :=
    hcc.2.1.trans (hcf.2.2.2.2.2.1.trans hlog)
  have hcb' : (configureCmd cmd (configOf environ opts)).2.combinedOutputBuffer = true :=
    hcc.2.2.1.trans (hcf.2.2.2.2.2.2.1.trans hcb)
  have hjo : (configureCmd cmd (configOf environ opts)).2.jsonOutput
      = (appliedOpts environ opts).jsonOutput :=
    hcc.2.2.2.1.trans hcf.2.2.2.2.2.2.2.1
  rw [Run_eq]
  generalize hr : e.Run (preparedHeap environ h opts) (preparedCmd environ cmd opts) = r
    at hjson herr hel
  have hne : ¬ (Option.map errorsCause (some er) = some Error.canceled) := by
    simp only [Option.map_some', Option.some.injEq]
    exact hcause
  rcases hj : (appliedOpts environ opts).jsonOutput with _ | out
  · rw [hj] at hjo
    simp only [finishRun, hctx', hlog', hcb', hjo, hr, herr, hne, ne_eq, not_true_eq_false,
      if_false, if_true, Bool.not_true, Bool.false_or, decide_False, Bool.or_self,
      Bool.false_eq_true, reduceCtorEq]
    refine ⟨trivial, ?_, ?_⟩
    · intro hl
      simp only [hl, Logger.Info, errorLogs, hpc.1, hpc.2.1]
      rw [hel.1, hph]
    · intro hl
      rcases he : e.logger with _ | l
      · simp only [Logger.Info]; rw [hel.1, hph]
      · cases l
        · simp only [Logger.Info]; rw [hel.1, hph]
        · exact absurd he hl
  · rw [hj] at hjo
    have hju := hjson out hj
    simp only [finishRun, hctx', hlog', hcb', hjo, hr, herr, hne, hju, ne_eq, not_true_eq_false,
      if_false, if_true, Bool.not_true, Bool.false_or, decide_False, Bool.or_self,
      Bool.false_eq_true, reduceCtorEq]
    refine ⟨trivial, ?_, ?_⟩
    · intro hl
      simp only [hl, Logger.Info, errorLogs, hpc.1, hpc.2.1]
      split_ifs <;> simp only [hel.1, hph]
    · intro hl
      rcases he : e.logger with _ | l
      · simp only [Logger.Info]; split_ifs <;> simp only [hel.1, hph]
      · cases l
        · simp only [Logger.Info]; split_ifs <;> simp only [hel.1, hph]
        · exact absurd he hl

/-- C19, amended, at the failing executor and the option `Stdout`. -/
theorem C19_failure_logged_witness :
    (Run [] failingExecutor Heap.init (NewCommand "false" ["-x"])
      [Stdout [WriterRef.buffer 0]]).2.2 = some (Error.exec "exit status 1") ∧
    (Run [] failingExecutor Heap.init (NewCommand "false" ["-x"])
      [Stdout [WriterRef.buffer 0]]).1.log
      = [{ argsLine := "false -x", path := "false", captured := some [98, 111, 111, 109] }] := by
  have h := C19_failure_logged [] failingExecutor Heap.init (NewCommand "false" ["-x"])
    [Stdout [WriterRef.buffer 0]] (Error.exec "exit status 1") rfl rfl rfl rfl
    (fun out hout => by cases hout) (by decide) (by decide)
  exact ⟨h.1, h.2.1 rfl⟩


/-- The stdout writer of a command after `configureCmd`, when the configuration
names one: that writer, next to the combined buffer if there is one. -/
theorem configureCmd_Stdout (cmd : Cmd) (config : runConfig) (w : Writer)
    (hso : config.stdout = some w) :
    (configureCmd cmd config).1.Stdout
      = some (if config.combinedOutputBuffer then w ++ [WriterRef.combined] else w) := by
  obtain ⟨so, se, si, cb, ctx, env, le, tmo, dir, jb, jo, ca⟩ := config
  simp only at hso
  subst hso
  cases env <;> cases se <;> cases cb <;> simp only [configureCmd] <;> split_ifs <;>
    simp [multiWriter]

/-- Writing to the private JSON buffer, alone or next to the combined buffer,
and for a verbose executor to the stdout of the process as well, never fails,
and appends the chunk to the JSON buffer. -/
theorem Writer_Write_json_first (h : Heap) (cb : Bool) (p : List Byte) (x : Writer)
    (hx : x = [] ∨ x = [WriterRef.osStdout]) :
    (Writer.Write h
      ((if cb then [WriterRef.json] ++ [WriterRef.combined] else [WriterRef.json]) ++ x)
      p).2.2 = none ∧
    (Writer.Write h
      ((if cb then [WriterRef.json] ++ [WriterRef.combined] else [WriterRef.json]) ++ x)
      p).1.json = h.json ++ p := by
  rcases hx with rfl | rfl <;> cases cb <;> simp [Writer.Write, WriterRef.Write, bufferWrite]

/-- The state after a child's output has been copied to a command whose stdout
goes to the private JSON buffer and whose stderr does not: the copying of
stdout never failed, and the JSON buffer has received the child's stdout. -/
theorem foldl_deliver_json (cmd : Cmd) (cb : Bool) (x : Writer)
    (hx : x = [] ∨ x = [WriterRef.osStdout])
    (hout : cmd.Stdout
      = some ((if cb then [WriterRef.json] ++ [WriterRef.combined] else [WriterRef.json]) ++ x))
    (herr : ∀ w, cmd.Stderr = some w → WriterRef.json ∉ w)
    (events : List (Stream × List Byte)) :
    ∀ st : Heap × Option Error × Option Error, st.2.1 = none →
      (events.foldl (deliver cmd) st).2.1 = none ∧
      (events.foldl (deliver cmd) st).1.json
        = st.1.json ++ (chunksOf Stream.out events).flatten := by
  induction events with
  | nil => intro st hst; simp [chunksOf, hst]
  | cons ev t ih =>
    intro st hst
    obtain ⟨s, p⟩ := ev
    rw [List.foldl_cons]
    cases s
    · have hw := Writer_Write_json_first st.1 cb p x hx
      have hstep : (deliver cmd st (Stream.out, p)).2.1 = none ∧
          (deliver cmd st (Stream.out, p)).1.json = st.1.json ++ p := by
        simp only [deliver, hst, hout, ne_eq, not_true_eq_false, if_false]
        exact hw
      obtain ⟨h1, h2⟩ := ih _ hstep.1
      refine ⟨h1, ?_⟩
      rw [h2, hstep.2]
      simp [chunksOf]
    · have hstep : (deliver cmd st (Stream.err, p)).2.1 = none ∧
          (deliver cmd st (Stream.err, p)).1.json = st.1.json := by
        simp only [deliver]
        split_ifs
        · exact ⟨hst, rfl⟩
        · split
          · exact ⟨hst, rfl⟩
          · rename_i w hw
            exact ⟨hst, Writer_Write_json w p (herr w hw) st.1⟩
      obtain ⟨h1, h2⟩ := ih _ hstep.1
      refine ⟨h1, ?_⟩
      rw [h2, hstep.2]
      simp [chunksOf]

/-- The stderr writer of a command rewired by a verbose executor holds the
private JSON buffer only if it did before. -/
theorem verboseCmd_Stderr_json (cmd : Cmd)
    (herr : ∀ w, cmd.Stderr = some w → WriterRef.json ∉ w) :
    ∀ w, (verboseCmd cmd).Stderr = some w → WriterRef.json ∉ w := by
  intro w hw
  simp only [verboseCmd] at hw
  split_ifs at hw with hne
  · rcases hs : cmd.Stderr with _ | w0
    · rw [hs] at hw
      simp [multiWriter] at hw
      subst hw
      simp
    · rw [hs] at hw
      simp [multiWriter] at hw
      subst hw
      have := herr w0 hs
      simp [this]
  · exact herr w hw

/-- After the executor has run such a command, the JSON buffer holds what it
held before, followed by the child's stdout. -/
theorem Executor_Run_json (e : Executor) (h : Heap) (cmd : Cmd) (cb : Bool)
    (hout : cmd.Stdout
      = some (if cb then [WriterRef.json] ++ [WriterRef.combined] else [WriterRef.json]))
    (herr : ∀ w, cmd.Stderr = some w → WriterRef.json ∉ w) :
    (e.Run h cmd).1.json = h.json ++ streamOf Stream.out (e.run cmd) := by
  have key : ∃ x : Writer, (x = [] ∨ x = [WriterRef.osStdout]) ∧
      (if e.verbose then verboseCmd cmd else cmd).Stdout
        = some ((if cb then [WriterRef.json] ++ [WriterRef.combined] else [WriterRef.json]) ++ x) ∧
      (∀ w, (if e.verbose then verboseCmd cmd else cmd).Stderr = some w →
        WriterRef.json ∉ w) := by
    cases e.verbose
    · exact ⟨[], Or.inl rfl, by simpa using hout, by simpa using herr⟩
    · refine ⟨[WriterRef.osStdout], Or.inr rfl, ?_, ?_⟩
      · cases cb <;> simp [verboseCmd, hout, multiWriter]
      · simpa using verboseCmd_Stderr_json cmd herr
  obtain ⟨x, hx, ho, he⟩ := key
  exact (foldl_deliver_json _ cb x hx ho he (e.run cmd).events (h, none, none) rfl).2


/-- C18, refuted as stated: the child writes `{"a":"b"}`, which is valid JSON
for the target, and exits with a failure. The text is decoded into the target,
and `Run` returns an error: the executor's. -/
theorem C18_valid_json_failing_child :
    sampleTarget.unmarshal textAB = none ∧
    (Run [] (executorWith textAB (some (Error.exec "exit status 1"))) Heap.init
      (NewCommand "brew" []) [JSONOutput sampleTarget]).2.2
      = some (Error.exec "exit status 1") ∧
    (Run [] (executorWith textAB (some (Error.exec "exit status 1"))) Heap.init
      (NewCommand "brew" []) [JSONOutput sampleTarget]).1.decoded = [textAB] := by
  decide

/-- C18, amended: with a `JSONOutput` target among the options, and the run
not cut short by a cancellation signal, let `s` be the child's stdout. If `s`
decodes into the target without error and the executor reports success,
`Run` returns no error and `s` has been decoded into the target; if `s` is not
valid JSON, `Run` returns the decode error, and the target is not touched.
(`hstderr`: the stderr writer is not the private JSON buffer of `Run`, which
no caller can name.) -/
theorem C18_json_decoding (environ : List String) (e : Executor) (h : Heap) (cmd : Cmd)
    (opts : List ExecOption) (out : JsonTarget)
    (hjs : (appliedOpts environ opts).jsonOutput = some out)
    (hdone : ∀ ctx, (configureCmd cmd (configOf environ opts)).2.ctx = some ctx →
      runCancellable ctx e (preparedHeap environ h opts) (preparedCmd environ cmd opts)
        = e.Run (preparedHeap environ h opts) (preparedCmd environ cmd opts))
    (hstderr : ∀ w, (preparedCmd environ cmd opts).Stderr = some w → WriterRef.json ∉ w) :
    (out.unmarshal (streamOf Stream.out (e.run (preparedCmd environ cmd opts))) = none →
      (e.Run (preparedHeap environ h opts) (preparedCmd environ cmd opts)).2 = none →
      (Run environ e h cmd opts).2.2 = none ∧
      (Run environ e h cmd opts).1.decoded
        = h.decoded ++ [streamOf Stream.out (e.run (preparedCmd environ cmd opts))]) ∧
    (out.Valid (streamOf Stream.out (e.run (preparedCmd environ cmd opts))) = false →
      (Run environ e h cmd opts).2.2
        = out.unmarshal (streamOf Stream.out (e.run (preparedCmd environ cmd opts))) ∧
      (Run environ e h cmd opts).2.2 ≠ none ∧
      (Run environ e h cmd opts).1.decoded = h.decoded) := by
  have hcf := configOf_fields environ opts
  have hcc := configureCmd_config_fields cmd (configOf environ opts)
  have hpc := preparedCmd_fields environ cmd opts
  have hjo : (configureCmd cmd (configOf environ opts)).2.jsonOutput = some out :=
    (hcc.2.2.2.1.trans hcf.2.2.2.2.2.2.2.1).trans hjs
  have hso : (configOf environ opts).stdout = some [WriterRef.json] := by
    unfold configOf
    rw [hjs]
    rfl
  have hout := hpc.2.2.1.trans (configureCmd_Stdout cmd (configOf environ opts) _ hso)
  have hph : (preparedHeap environ h opts).json = [] ∧
      (preparedHeap environ h opts).decoded = h.decoded := by
    unfold preparedHeap
    rw [hjs]
    exact ⟨rfl, rfl⟩
  have hjson := Executor_Run_json e (preparedHeap environ h opts)
    (preparedCmd environ cmd opts) _ hout hstderr
  rw [hph.1, List.nil_append] at hjson
  have hdec := (Executor_Run_log e (preparedHeap environ h opts)
    (preparedCmd environ cmd opts)).2
  rw [hph.2] at hdec
  have hr : (match (configureCmd cmd (configOf environ opts)).2.ctx with
      | some ctx => runCancellable ctx e (preparedHeap environ h opts)
          (preparedCmd environ cmd opts)
      | none => e.Run (preparedHeap environ h opts) (preparedCmd environ cmd opts))
      = e.Run (preparedHeap environ h opts) (preparedCmd environ cmd opts) := by
    rcases hc : (configureCmd cmd (configOf environ opts)).2.ctx with _ | ctx
    · rfl
    · exact hdone ctx hc
  rw [Run_eq]
  generalize streamOf Stream.out (e.run (preparedCmd environ cmd opts)) = s at hjson ⊢
  constructor
  · intro hu hok
    have hv : out.Valid s = true := by
      by_contra hv
      exact out.invalid_fails s (by simpa using hv) hu
    simp only [finishRun, hr, hjo, hjson, hu, hv, hok, ne_eq, not_true_eq_false, if_false,
      if_true, Bool.or_true, Bool.true_or, decide_True]
    exact ⟨trivial, by rw [hdec]⟩
  · intro hv
    have hu := out.invalid_fails s hv
    simp only [finishRun, hr, hjo, hjson, hv, hu, ne_eq, not_false_eq_true, if_true,
      Bool.false_eq_true, if_false]
    exact ⟨trivial, trivial, hdec⟩

/-- C18, amended, at the two texts of the example: `{"a":"b"}` from a child that
succeeds is decoded and `Run` returns no error; `not json` gives a decode
error and leaves the target untouched. -/
theorem C18_json_decoding_witness :
    ((Run [] (executorWith textAB none) Heap.init (NewCommand "echo" [])
        [JSONOutput sampleTarget]).2.2 = none ∧
      (Run [] (executorWith textAB none) Heap.init (NewCommand "echo" [])
        [JSONOutput sampleTarget]).1.decoded = [textAB]) ∧
    ((Run [] (executorWith textNotJson none) Heap.init (NewCommand "echo" [])
        [JSONOutput sampleTarget]).2.2 ≠ none ∧
      (Run [] (executorWith textNotJson none) Heap.init (NewCommand "echo" [])
        [JSONOutput sampleTarget]).1.decoded = []) := by
  have h1 := (C18_json_decoding [] (executorWith textAB none) Heap.init (NewCommand "echo" [])
    [JSONOutput sampleTarget] sampleTarget rfl (fun ctx hctx => by cases hctx)
    (by decide)).1 (by decide) (by decide)
  have h2 := (C18_json_decoding [] (executorWith textNotJson none) Heap.init
    (NewCommand "echo" []) [JSONOutput sampleTarget] sampleTarget rfl
    (fun ctx hctx => by cases hctx) (by decide)).2 (by decide)
  exact ⟨h1, h2.2.1, h2.2.2⟩


/-! ## Properties of the check of a package -/

/-- C13: with `skipNotInstalled` set and an empty minimum version, `Check`
returns the fail code (1, or 0 under the reversal flag) and a non-nil error,
and has had no effect: no call of `Stat`, no subprocess, nothing printed. -/
theorem C13_skip_requires_min_version (lib : Libs) (c : CarafeConfig)
    (environ : List String) (stat : String → StatResult) (item : String)
    (munkiInstallsCheck : Bool) :
    (Check lib c environ stat item "" munkiInstallsCheck true).1.2
      = some Error.minVersionRequired ∧
    (Check lib c environ stat item "" munkiInstallsCheck true).1.2 ≠ none ∧
    (Check lib c environ stat item "" munkiInstallsCheck true).1.1
      = (if munkiInstallsCheck then 0 else 1) ∧
    (Check lib c environ stat item "" munkiInstallsCheck true).2 = [] := by
  simp [Check]

/-- C17: on an output that decodes to a non-empty array, `installed` returns
`(true, nil)` exactly when the first record has an installed-version record,
and `(false, nil)` otherwise; on the empty array, and on an output that does
not decode, it returns `false` and an error; and whenever it returns
`(false, nil)`, `getVersion` returns the empty version on the same output. -/
theorem C17_installed (lib : Libs) (output : List Byte) :
    (∀ f rest, lib.jsonUnmarshal output = .ok (f :: rest) →
      (installed lib output = (true, none) ↔ f.Installed ≠ []) ∧
      (installed lib output = (false, none) ↔ f.Installed = [])) ∧
    (lib.jsonUnmarshal output = .ok [] →
      (installed lib output).1 = false ∧ (installed lib output).2 ≠ none) ∧
    (∀ err, lib.jsonUnmarshal output = .error err →
      (installed lib output).1 = false ∧ (installed lib output).2 ≠ none) ∧
    (installed lib output = (false, none) → getVersion lib output = ("", none)) := by
  refine ⟨?_, ?_, ?_, ?_⟩
  · intro f rest h
    simp only [installed, h]
    rcases hI : f.Installed with _ | ⟨i, is⟩ <;> simp
  · intro h
    simp [installed, h]
  · intro err h
    simp [installed, h]
  · intro h
    rcases hu : lib.jsonUnmarshal output with err | info
    · simp [installed, hu] at h
    · rcases info with _ | ⟨f, rest⟩
      · simp [installed, hu] at h
      · rcases hI : f.Installed with _ | ⟨i, is⟩
        · simp [getVersion, hu, hI]
        · simp [installed, hu, hI] at h

/-- C17 at the sample outputs: a record with an installed version, a record
without one, the empty array, and a text that does not decode. -/
theorem C17_installed_witness :
    installed (sampleLibs (sampleTable "1.5.0")) (infoInstalled "1.5.0") = (true, none) ∧
    installed (sampleLibs (sampleTable "1.5.0")) infoNotInstalled = (false, none) ∧
    getVersion (sampleLibs (sampleTable "1.5.0")) infoNotInstalled = ("", none) ∧
    (installed (sampleLibs (sampleTable "1.5.0")) (asciiBytes "[]")).2 ≠ none ∧
    (installed (sampleLibs (sampleTable "1.5.0")) textNotJson).2 ≠ none := by
  have h1 := (C17_installed (sampleLibs (sampleTable "1.5.0")) (infoInstalled "1.5.0")).1
    { Name := "htop", Installed := [{ Version := "1.5.0" }] } [] rfl
  have h2 := C17_installed (sampleLibs (sampleTable "1.5.0")) infoNotInstalled
  have h2a := (h2.1 { Name := "htop", Installed := [] } [] rfl).2.mpr rfl
  have h3 := (C17_installed (sampleLibs (sampleTable "1.5.0")) (asciiBytes "[]")).2.1
    rfl
  have h4 := (C17_installed (sampleLibs (sampleTable "1.5.0")) textNotJson).2.2.1
    (Error.json "invalid character") rfl
  exact ⟨h1.1.mpr (by decide), h2a, h2.2.2.2 h2a, h3.2, h4.2⟩

/-- C16: when the subprocess succeeds and its output decodes to a record
without an installed-version record, `VersionMeetsOrExceedsMinimum` returns
`true` and no error; when the record has one and both version strings parse,
it returns the comparison of the installed version with the minimum, and no
error. -/
theorem C16_version_meets_minimum (lib : Libs) (c : CarafeConfig) (environ : List String)
    (t : List Effect) (item minimumVersion : String) (output : List Byte)
    (f : HomebrewFormula) (rest : List HomebrewFormula)
    (hrun : c.RunBrew environ (launches t) ["info", "--json", item] = (output, none))
    (hjson : lib.jsonUnmarshal output = .ok (f :: rest)) :
    (f.Installed = [] →
      (VersionMeetsOrExceedsMinimum lib c environ t item minimumVersion).1 = (true, none)) ∧
    (∀ i is, f.Installed = i :: is → lib.NewVersion i.Version = none →
      lib.NewVersion minimumVersion = none →
      (VersionMeetsOrExceedsMinimum lib c environ t item minimumVersion).1
        = (lib.GreaterThanOrEqual i.Version minimumVersion, none)) := by
  constructor
  · intro hI
    simp [VersionMeetsOrExceedsMinimum, infoOutput, hrun, installed, hjson, hI]
  · intro i is hI hvi hvm
    have hne : i.Version ≠ "" := by
      intro h
      rw [h] at hvi
      exact lib.empty_malformed hvi
    simp [VersionMeetsOrExceedsMinimum, infoOutput, hrun, installed, getVersion, hjson, hI,
      hne, hvi, hvm]

/-- C16 at the installed version `1.5.0`: against the minimum `2.0.0` the
answer is `false`, against `1.0.0` it is `true`. -/
theorem C16_version_meets_minimum_witness :
    (VersionMeetsOrExceedsMinimum (sampleLibs (sampleTable "1.5.0"))
        (brewConfig (infoInstalled "1.5.0")) [] [] "htop" "2.0.0").1 = (false, none) ∧
    (VersionMeetsOrExceedsMinimum (sampleLibs (sampleTable "1.5.0"))
        (brewConfig (infoInstalled "1.5.0")) [] [] "htop" "1.0.0").1 = (true, none) := by
  have h1 := (C16_version_meets_minimum (sampleLibs (sampleTable "1.5.0"))
    (brewConfig (infoInstalled "1.5.0")) [] [] "htop" "2.0.0" (infoInstalled "1.5.0")
    { Name := "htop", Installed := [{ Version := "1.5.0" }] } [] (by decide) rfl).2
    { Version := "1.5.0" } [] rfl (by decide) (by decide)
  have h2 := (C16_version_meets_minimum (sampleLibs (sampleTable "1.5.0"))
    (brewConfig (infoInstalled "1.5.0")) [] [] "htop" "1.0.0" (infoInstalled "1.5.0")
    { Name := "htop", Installed := [{ Version := "1.5.0" }] } [] (by decide) rfl).2
    { Version := "1.5.0" } [] rfl (by decide) (by decide)
  exact ⟨h1, h2⟩


/-- C14: on the same inputs (item, minimum version, skip flag, `Stat` result,
subprocess outcomes), `Check` under the reversal flag returns the code `1 - c`,
where `c`, 0 or 1, is the code it returns without the flag; the error and the
effects are the same. -/
theorem C14_reversal_swaps_codes (lib : Libs) (c : CarafeConfig) (environ : List String)
    (stat : String → StatResult) (item minVersion : String) (skipNotInstalled : Bool) :
    (Check lib c environ stat item minVersion true skipNotInstalled).1.1
      = 1 - (Check lib c environ stat item minVersion false skipNotInstalled).1.1 ∧
    ((Check lib c environ stat item minVersion false skipNotInstalled).1.1 = 0 ∨
      (Check lib c environ stat item minVersion false skipNotInstalled).1.1 = 1) ∧
    (Check lib c environ stat item minVersion true skipNotInstalled).1.2
      = (Check lib c environ stat item minVersion false skipNotInstalled).1.2 ∧
    (Check lib c environ stat item minVersion true skipNotInstalled).2
      = (Check lib c environ stat item minVersion false skipNotInstalled).2 := by
  by_cases hg : minVersion = "" ∧ skipNotInstalled = true
  · simp [Check, hg]
  by_cases hs : stat c.GetBrewPath = StatResult.notExist
  · simp [Check, hg, hs]
  rcases ho : (infoOutput c environ [Effect.stat c.GetBrewPath] item).1.2 with _ | err
  swap
  · simp [Check, hg, hs, ho]
  rcases hi : installed lib (infoOutput c environ [Effect.stat c.GetBrewPath] item).1.1
    with ⟨isPresent, _ | err⟩
  swap
  · simp [Check, hg, hs, ho, hi]
  cases isPresent
  · by_cases hm : minVersion = "" <;> cases skipNotInstalled <;>
      simp_all [Check, printResultJSON]
  rcases hv : getVersion lib (infoOutput c environ [Effect.stat c.GetBrewPath] item).1.1
    with ⟨version, _ | err⟩
  swap
  · simp [Check, hg, hs, ho, hi, hv]
  by_cases hm : minVersion = ""
  · cases skipNotInstalled <;> simp_all [Check, printResultJSON]
  rcases hmm : (VersionMeetsOrExceedsMinimum lib c environ
      (infoOutput c environ [Effect.stat c.GetBrewPath] item).2 item minVersion).1
    with ⟨meets, _ | err⟩
  swap
  · simp [Check, hg, hs, ho, hi, hv, hm, hmm]
  cases meets <;> simp [Check, hg, hs, ho, hi, hv, hm, hmm, printResultJSON]

/-- C14 at the rows of the test: an installed package gives 0 without the
reversal flag and 1 with it; a package that is not installed gives 1 and 0. -/
theorem C14_reversal_swaps_codes_witness :
    (Check (sampleLibs (sampleTable "3.3.0")) (brewConfig (infoInstalled "3.3.0")) []
        (fun _ => StatResult.ok) "htop" "" true false).1.1
      = 1 - (Check (sampleLibs (sampleTable "3.3.0")) (brewConfig (infoInstalled "3.3.0")) []
        (fun _ => StatResult.ok) "htop" "" false false).1.1 ∧
    (Check (sampleLibs (sampleTable "3.3.0")) (brewConfig (infoInstalled "3.3.0")) []
        (fun _ => StatResult.ok) "htop" "" false false).1 = (0, none) ∧
    (Check (sampleLibs (sampleTable "3.3.0")) (brewConfig infoNotInstalled) []
        (fun _ => StatResult.ok) "htop" "" true false).1 = (0, none) :=
  ⟨(C14_reversal_swaps_codes (sampleLibs (sampleTable "3.3.0"))
      (brewConfig (infoInstalled "3.3.0")) [] (fun _ => StatResult.ok) "htop" "" false).1,
    by decide, by decide⟩

/-- C15, refuted as stated: the reversal flag is off, brew is present, the
output is well formed and has an installed-version record, and no minimum is
requested; with `skipNotInstalled` set, `Check` returns the code 1 and an
error, not the code 0 and no error. -/
theorem C15_installed_no_minimum_skip :
    (fun _ => StatResult.ok) (brewConfig (infoInstalled "3.3.0")).GetBrewPath
      ≠ StatResult.notExist ∧
    installed (sampleLibs (sampleTable "3.3.0")) (infoInstalled "3.3.0") = (true, none) ∧
    Check (sampleLibs (sampleTable "3.3.0")) (brewConfig (infoInstalled "3.3.0")) []
        (fun _ => StatResult.ok) "htop" "" false true
      = ((1, some Error.minVersionRequired), []) := by
  decide

/-- C15, amended: the reversal flag off, brew present, the subprocess
succeeding with an output that decodes to a non-empty array with first record
`f`. `Check` returns 1 when `f` has no installed-version record and
`skipNotInstalled` is off; 0 when it has none and `skipNotInstalled` is set
with a minimum given; 0 when it has one, no minimum is requested and
`skipNotInstalled` is off; and, a minimum being requested, the second
subprocess giving the same output and both versions parsing, 0 when the
installed version is at least the minimum and 1 when it is below. In all these
cases the error is nil. -/
theorem C15_decision_table (lib : Libs) (c : CarafeConfig) (environ : List String)
    (stat : String → StatResult) (item minVersion : String) (skipNotInstalled : Bool)
    (output : List Byte) (f : HomebrewFormula) (rest : List HomebrewFormula)
    (hstat : stat c.GetBrewPath ≠ StatResult.notExist)
    (hrun : c.RunBrew environ 0 ["info", "--json", item] = (output, none))
    (hjson : lib.jsonUnmarshal output = .ok (f :: rest)) :
    (f.Installed = [] → skipNotInstalled = false →
      (Check lib c environ stat item minVersion false skipNotInstalled).1 = (1, none)) ∧
    (f.Installed = [] → skipNotInstalled = true → minVersion ≠ "" →
      (Check lib c environ stat item minVersion false skipNotInstalled).1 = (0, none)) ∧
    (f.Installed ≠ [] → minVersion = "" → skipNotInstalled = false →
      (Check lib c environ stat item minVersion false skipNotInstalled).1 = (0, none)) ∧
    (∀ i is, f.Installed = i :: is → minVersion ≠ "" →
      c.RunBrew environ 1 ["info", "--json", item] = (output, none) →
      lib.NewVersion i.Version = none → lib.NewVersion minVersion = none →
      (lib.GreaterThanOrEqual i.Version minVersion = true →
        (Check lib c environ stat item minVersion false skipNotInstalled).1 = (0, none)) ∧
      (lib.GreaterThanOrEqual i.Version minVersion = false →
        (Check lib c environ stat item minVersion false skipNotInstalled).1 = (1, none))) := by
  refine ⟨?_, ?_, ?_, ?_⟩
  · intro hI hskip
    simp [Check, hskip, hstat, infoOutput, launches, hrun, installed, hjson, hI,
      printResultJSON]
  · intro hI hskip hm
    simp [Check, hskip, hm, hstat, infoOutput, launches, hrun, installed, hjson, hI,
      printResultJSON]
  · intro hI hm hskip
    rcases hF : f.Installed with _ | ⟨i, is⟩
    · exact absurd hF hI
    · simp [Check, hskip, hm, hstat, infoOutput, launches, hrun, installed, getVersion, hjson,
        hF, printResultJSON]
  · intro i is hI hm hrun1 hvi hvm
    have hne : i.Version ≠ "" := by
      intro h
      rw [h] at hvi
      exact lib.empty_malformed hvi
    constructor
    · intro hge
      simp [Check, hm, hstat, infoOutput, launches, hrun, hrun1, installed, getVersion, hjson,
        hI, hne, hvi, hvm, hge, VersionMeetsOrExceedsMinimum, printResultJSON]
    · intro hge
      simp [Check, hm, hstat, infoOutput, launches, hrun, hrun1, installed, getVersion, hjson,
        hI, hne, hvi, hvm, hge, VersionMeetsOrExceedsMinimum, printResultJSON]

/-- C15, amended, at the rows of the test: version 3.3.0 installed against no
minimum, the minimum 2.0.0 and the minimum 4.0.0. -/
theorem C15_decision_table_witness :
    (Check (sampleLibs (sampleTable "3.3.0")) (brewConfig (infoInstalled "3.3.0")) []
        (fun _ => StatResult.ok) "htop" "" false false).1 = (0, none) ∧
    (Check (sampleLibs (sampleTable "3.3.0")) (brewConfig (infoInstalled "3.3.0")) []
        (fun _ => StatResult.ok) "htop" "2.0.0" false false).1 = (0, none) ∧
    (Check (sampleLibs (sampleTable "3.3.0")) (brewConfig (infoInstalled "3.3.0")) []
        (fun _ => StatResult.ok) "htop" "4.0.0" false false).1 = (1, none) := by
  have h0 := (C15_decision_table (sampleLibs (sampleTable "3.3.0"))
    (brewConfig (infoInstalled "3.3.0")) [] (fun _ => StatResult.ok) "htop" "" false
    (infoInstalled "3.3.0") { Name := "htop", Installed := [{ Version := "3.3.0" }] } []
    (by decide) (by decide) rfl).2.2.1 (by decide) rfl rfl
  have h2 := ((C15_decision_table (sampleLibs (sampleTable "3.3.0"))
    (brewConfig (infoInstalled "3.3.0")) [] (fun _ => StatResult.ok) "htop" "2.0.0" false
    (infoInstalled "3.3.0") { Name := "htop", Installed := [{ Version := "3.3.0" }] } []
    (by decide) (by decide) rfl).2.2.2 { Version := "3.3.0" } [] rfl (by decide) (by decide)
    (by decide) (by decide)).1 (by decide)
  have h4 := ((C15_decision_table (sampleLibs (sampleTable "3.3.0"))
    (brewConfig (infoInstalled "3.3.0")) [] (fun _ => StatResult.ok) "htop" "4.0.0" false
    (infoInstalled "3.3.0") { Name := "htop", Installed := [{ Version := "3.3.0" }] } []
    (by decide) (by decide) rfl).2.2.2 { Version := "3.3.0" } [] rfl (by decide) (by decide)
    (by decide) (by decide)).2 (by decide)
  exact ⟨h0, h2, h4⟩


/-- C13 under the reversal flag, where the fail code is 0: the call is rejected
with an error, and nothing has been done. -/
theorem C13_skip_requires_min_version_witness :
    (Check (sampleLibs (sampleTable "3.3.0")) (brewConfig (infoInstalled "3.3.0")) []
        (fun _ => StatResult.ok) "htop" "" true true).1
      = (0, some Error.minVersionRequired) ∧
    (Check (sampleLibs (sampleTable "3.3.0")) (brewConfig (infoInstalled "3.3.0")) []
        (fun _ => StatResult.ok) "htop" "" true true).2 = [] := by
  have h := C13_skip_requires_min_version (sampleLibs (sampleTable "3.3.0"))
    (brewConfig (infoInstalled "3.3.0")) [] (fun _ => StatResult.ok) "htop" true
  exact ⟨Prod.ext h.2.2.1 h.1, h.2.2.2⟩


/-! ## Further properties of the bounded buffer and of the environment lists -/

/-- C29: after any sequence of writes to a writer created with limit `L ≥ 0`
over an empty buffer, if `Exceeded()` is false then the buffer holds exactly
the concatenation of all the written slices, and the `written` counter equals
the stored length. -/
theorem C29_not_exceeded_is_complete (L : Int) (hL : 0 ≤ L) (ps : List (List Byte))
    (hex : ((newLimitedBufferWriter [] L).writeAll ps).Exceeded = false) :
    ((newLimitedBufferWriter [] L).writeAll ps).buf = ps.flatten ∧
    ((newLimitedBufferWriter [] L).writeAll ps).written
      = (((newLimitedBufferWriter [] L).writeAll ps).buf.length : Int) := by
  have h := limitedBufferWriter.freshInv_writeAll L hL ps []
    (newLimitedBufferWriter [] L) (limitedBufferWriter.freshInv_new L hL)
  rw [List.nil_append] at h
  obtain ⟨_, hbuf, hwr, hle, _⟩ := h
  refine ⟨?_, hwr⟩
  rw [hbuf]
  apply List.take_of_length_le
  have h1 := hle hex
  have h2 : ((ps.flatten.length : Nat) : Int) ≤ ((L.toNat : Nat) : Int) := by
    rw [Int.toNat_of_nonneg hL]; exact h1
  exact_mod_cast h2

/-- C29 at `L = 5` and the writes `he`, `llo`. -/
theorem C29_not_exceeded_is_complete_witness :
    ((newLimitedBufferWriter [] 5).writeAll [[104, 101], [108, 108, 111]]).buf
      = ([[104, 101], [108, 108, 111]] : List (List Byte)).flatten ∧
    ((newLimitedBufferWriter [] 5).writeAll [[104, 101], [108, 108, 111]]).written
      = (((newLimitedBufferWriter [] 5).writeAll [[104, 101], [108, 108, 111]]).buf.length : Int) :=
  C29_not_exceeded_is_complete 5 (by decide) [[104, 101], [108, 108, 111]] (by decide)

/-- Looking a key up in `SplitEquals`, started from any map: the value of the
last entry of the list that has this key, or else the value of the map. -/
theorem lookup_foldl_split (strs : List String) :
    ∀ (acc : GoMap) (k : String),
      (strs.foldl (fun result str =>
        match stringsSplitN2 str with
        | some (k, v) => result.insert k v
        | none => result) acc).lookup k
      = (((strs.filterMap stringsSplitN2).reverse.find? (fun kv => kv.1 = k)).map Prod.snd).orElse
          (fun _ => acc.lookup k) := by
  induction strs with
  | nil => intro acc k; simp
  | cons s t ih =>
    intro acc k
    rw [List.foldl_cons, ih]
    rcases hs : stringsSplitN2 s with _ | ⟨k', v'⟩
    · simp [hs]
    · simp only [hs, List.filterMap_cons, List.reverse_cons, List.find?_append]
      rcases hf : List.find? (fun kv => decide (kv.1 = k)) (List.filterMap stringsSplitN2 t).reverse
        with _ | kv
      · by_cases hk : k' = k
        · subst hk
          simp [hf, AList.lookup_insert]
        · have hk' : k ≠ k' := fun h => hk h.symm
          simp [hf, hk, AList.lookup_insert_ne hk']
      · simp [hf]

/-- Looking a key up in `SplitEquals(strs)`. -/
theorem lookup_SplitEquals (strs : List String) (k : String) :
    (SplitEquals strs).lookup k
      = ((strs.filterMap stringsSplitN2).reverse.find? (fun kv => kv.1 = k)).map Prod.snd := by
  unfold SplitEquals
  rw [lookup_foldl_split strs ∅ k]
  rcases ((strs.filterMap stringsSplitN2).reverse.find? (fun kv => kv.1 = k)) with _ | kv <;>
    simp


/-- In a list of entries with distinct keys, the last entry with a key is the
entry that a lookup finds. -/
theorem find_reverse_entries (l : List (Σ _ : String, String)) (hl : l.NodupKeys) (k : String) :
    (((l.map (fun e => (e.1, e.2))).reverse.find? (fun kv => kv.1 = k)).map Prod.snd)
      = l.dlookup k := by
  induction l with
  | nil => rfl
  | cons e t ih =>
    obtain ⟨a, b⟩ := e
    rw [List.nodupKeys_cons] at hl
    have iht := ih hl.2
    simp only [List.map_cons, List.reverse_cons, List.find?_append]
    by_cases hk : a = k
    · subst hk
      have hnone : t.dlookup a = none := List.dlookup_eq_none.mpr hl.1
      rw [hnone] at iht
      have hf : List.find? (fun kv => decide (kv.1 = a)) (List.map (fun e => (e.1, e.2)) t).reverse
          = none := by
        rcases hx : List.find? (fun kv => decide (kv.1 = a))
            (List.map (fun e => (e.1, e.2)) t).reverse with _ | kv
        · exact hx
        · rw [hx] at iht; simp at iht
      simp [hf, List.dlookup_cons_eq]
    · have hk' : k ≠ a := fun h => hk h.symm
      rw [List.dlookup_cons_ne _ _ hk', ← iht]
      simp [hk]

/-- An entry without `=` is not split. -/
theorem stringsSplitN2_none (s : String) (hs : '=' ∉ s.data) : stringsSplitN2 s = none := by
  have hall : ∀ c ∈ s.data, (fun c => c != '=') c = true := by
    intro c hc
    simp only [bne_iff_ne, ne_eq]
    rintro rfl
    exact hs hc
  unfold stringsSplitN2
  rw [List.span_eq_take_drop, List.takeWhile_eq_self_iff.mpr hall,
    List.dropWhile_eq_nil_iff.mpr hall]

/-- C30: for a map none of whose keys holds an `=`, `SplitEquals(JoinEquals(m))`
is the map `m` (every key looks up the same value, and the entries are the same
up to their order); `SplitEquals` skips an entry that holds no `=`, wherever it
stands in the list; and for a key that occurs in several entries it keeps the
value of the last one. -/
theorem C30_split_join_round_trip (m : GoMap) (hm : ∀ k ∈ m, '=' ∉ k.data) :
    (∀ k, (SplitEquals (JoinEquals m)).lookup k = m.lookup k) ∧
    (SplitEquals (JoinEquals m)).entries.Perm m.entries ∧
    (∀ (l₁ l₂ : List String) (s : String), '=' ∉ s.data →
      SplitEquals (l₁ ++ s :: l₂) = SplitEquals (l₁ ++ l₂)) ∧
    (∀ (l₁ l₂ : List String) (k v : String), '=' ∉ k.data →
      (∀ s ∈ l₂, ∀ v', stringsSplitN2 s ≠ some (k, v')) →
      (SplitEquals (l₁ ++ (k ++ "=" ++ v) :: l₂)).lookup k = some v) := by
  have hlook : ∀ k, (SplitEquals (JoinEquals m)).lookup k = m.lookup k := by
    intro k
    rw [lookup_SplitEquals, filterMap_JoinEquals m hm]
    exact find_reverse_entries m.entries m.nodupKeys k
  refine ⟨hlook, ?_, ?_, ?_⟩
  · apply List.lookup_ext (SplitEquals (JoinEquals m)).nodupKeys m.nodupKeys
    intro x y
    have := hlook x
    unfold AList.lookup at this
    rw [this]
  · intro l₁ l₂ s hs
    unfold SplitEquals
    rw [List.foldl_append, List.foldl_append, List.foldl_cons, stringsSplitN2_none s hs]
  · intro l₁ l₂ k v hk hlast
    rw [lookup_SplitEquals]
    simp only [List.filterMap_append, List.filterMap_cons, stringsSplitN2_render k v hk,
      List.reverse_append, List.reverse_cons, List.find?_append, List.append_assoc]
    have hnone : List.find? (fun kv => decide (kv.1 = k)) (List.filterMap stringsSplitN2 l₂).reverse
        = none := by
      rw [List.find?_eq_none]
      intro kv hkv
      rw [List.mem_reverse, List.mem_filterMap] at hkv
      obtain ⟨s, hs, hsplit⟩ := hkv
      intro hkey
      simp only [decide_eq_true_eq] at hkey
      obtain ⟨a, b⟩ := kv
      simp only at hkey
      subst hkey
      exact hlast s hs b hsplit
    simp [hnone]

/-- C30 on the map `{A: 1, B: x=y}`, whose rendering is split back to it. -/
theorem C30_split_join_round_trip_witness :
    (∀ k, (SplitEquals (JoinEquals ((AList.singleton "A" "1" : GoMap).insert "B" "x=y"))).lookup k
        = ((AList.singleton "A" "1" : GoMap).insert "B" "x=y").lookup k) ∧
    (SplitEquals ["A=1", "noequals", "A=2"]).lookup "A" = some "2" := by
  refine ⟨(C30_split_join_round_trip ((AList.singleton "A" "1" : GoMap).insert "B" "x=y")
    (by
      intro k hk
      rw [AList.mem_insert, AList.mem_keys, AList.keys_singleton, List.mem_singleton] at hk
      rcases hk with rfl | rfl <;> decide)).1, by decide⟩


/-! ## Further properties of the check and of a session's environment -/

/-- C27: when `Stat` of the brew binary reports that it does not exist, `Check`
returns the pass code with a nil error for every item, minimum version and skip
flag other than the rejected combination (an empty minimum with the skip flag),
having run no subprocess and printed nothing: its only effect is the `Stat`
itself. With the reversal flag off the pass code is `0`. -/
theorem C27_missing_brew_passes (lib : Libs) (c : CarafeConfig) (environ : List String)
    (stat : String → StatResult) (item minVersion : String)
    (munkiInstallsCheck skipNotInstalled : Bool)
    (hvalid : ¬ (minVersion = "" ∧ skipNotInstalled = true))
    (hstat : stat c.GetBrewPath = StatResult.notExist) :
    Check lib c environ stat item minVersion munkiInstallsCheck skipNotInstalled
      = (((if munkiInstallsCheck then 1 else 0), none), [Effect.stat c.GetBrewPath]) ∧
    launches (Check lib c environ stat item minVersion munkiInstallsCheck skipNotInstalled).2 = 0 ∧
    (munkiInstallsCheck = false →
      (Check lib c environ stat item minVersion munkiInstallsCheck skipNotInstalled).1
        = (0, none)) := by
  have h : Check lib c environ stat item minVersion munkiInstallsCheck skipNotInstalled
      = (((if munkiInstallsCheck then 1 else 0), none), [Effect.stat c.GetBrewPath]) := by
    unfold Check
    simp only [hvalid, hstat, if_false, if_true]
  refine ⟨h, ?_, ?_⟩
  · rw [h]; rfl
  · intro hm
    rw [h, hm]; rfl

/-- C27 for the formula `wget` with the minimum `1.0`, the skip flag set, and
no brew binary on the disk. -/
theorem C27_missing_brew_passes_witness :
    Check (sampleLibs []) (brewConfig []) [] (fun _ => StatResult.notExist) "wget" "1.0" false true
      = (((if false then 1 else 0), none), [Effect.stat (brewConfig []).GetBrewPath]) ∧
    launches (Check (sampleLibs []) (brewConfig []) [] (fun _ => StatResult.notExist)
      "wget" "1.0" false true).2 = 0 ∧
    (false = false →
      (Check (sampleLibs []) (brewConfig []) [] (fun _ => StatResult.notExist)
        "wget" "1.0" false true).1 = (0, none)) :=
  C27_missing_brew_passes (sampleLibs []) (brewConfig []) [] (fun _ => StatResult.notExist)
    "wget" "1.0" false true (by decide) rfl

/-- C28, on the code: a session whose `CWD` is empty runs `/usr/bin/env` with an
empty inherited environment, and the command finds `PATH` alone in its
environment, neither `HOME` nor `CWD`; with the `CWD` `/Users/testuser` it
finds `PATH`, `CWD` and `PWD` (listed here in the order of the embedding's
map), and still no `HOME`. -/
theorem C28_run_sets_no_home :
    (envSession "").Run [] ["/usr/bin/env"]
      = (asciiBytes "PATH=/usr/local/bin:/usr/bin:/bin:/usr/sbin:/sbin", none) ∧
    (envSession "/Users/testuser").Run [] ["/usr/bin/env"]
      = (asciiBytes ("PATH=/usr/local/bin:/usr/bin:/bin:/usr/sbin:/sbin\n" ++
          "CWD=/Users/testuser\nPWD=/Users/testuser"), none) := by
  constructor <;> rfl


/-! ## Properties of the bring-up of a session -/

/-- C22: `SetConsoleUser` never accepts a root or setup account and is atomic
on failure. On every platform and for every result of the calls of `OSFunc`:
if it returns nil, `CurrentUser` is the resolved identity (`USERNAME` on
Windows; the user name of the owner of `/dev/console` on macOS; elsewhere
`SUDO_USER` when it is not empty, otherwise `USER`), it is neither `root` nor
`_mbsetupuser`, and no other field has changed; if it returns an error, the
session is unchanged; and an identity resolved to `root` or `_mbsetupuser`
(shown for the Linux-like platforms) is an error. -/
theorem C22_set_console_user (c : CUSudo) (os : OSFunc) :
    ((c.SetConsoleUser os).2 = none →
      (c.SetConsoleUser os).1.CurrentUser ≠ "root" ∧
      (c.SetConsoleUser os).1.CurrentUser ≠ "_mbsetupuser" ∧
      (c.SetConsoleUser os).1 = { c with CurrentUser := (c.SetConsoleUser os).1.CurrentUser } ∧
      (c.Platform = windows → (c.SetConsoleUser os).1.CurrentUser = os.Getenv "USERNAME") ∧
      (c.Platform = darwin → ∃ uid theUser,
        os.Stat "/dev/console" = .ok { statUid := some uid } ∧
        os.LookupID (toString uid) = .ok theUser ∧
        (c.SetConsoleUser os).1.CurrentUser = theUser.Username) ∧
      (c.Platform ≠ windows → c.Platform ≠ darwin →
        (c.SetConsoleUser os).1.CurrentUser
          = (if os.Getenv "SUDO_USER" ≠ "" then os.Getenv "SUDO_USER" else os.Getenv "USER") ∧
        (c.SetConsoleUser os).1.CurrentUser ≠ "")) ∧
    ((c.SetConsoleUser os).2 ≠ none → (c.SetConsoleUser os).1 = c) ∧
    (c.Platform ≠ windows → c.Platform ≠ darwin →
      (os.Getenv "SUDO_USER" = "root" ∨ os.Getenv "SUDO_USER" = "_mbsetupuser" ∨
        (os.Getenv "SUDO_USER" = "" ∧
          (os.Getenv "USER" = "root" ∨ os.Getenv "USER" = "_mbsetupuser" ∨
            os.Getenv "USER" = ""))) →
      (c.SetConsoleUser os).2 ≠ none) := by
  have hwd : windows ≠ darwin := by decide
  refine ⟨?_, ?_, ?_⟩
  · intro hok
    by_cases hw : c.Platform = windows
    · have hd : c.Platform ≠ darwin := fun h => hwd (hw.symm.trans h)
      by_cases hu : os.Getenv "USERNAME" = ""
      · simp [CUSudo.SetConsoleUser, hw, hu] at hok
      · by_cases hr : os.Getenv "USERNAME" = "root" ∨ os.Getenv "USERNAME" = "_mbsetupuser"
        · simp [CUSudo.SetConsoleUser, hw, hu, checkUserNotRoot, hr] at hok
        · have hr' := not_or.mp hr
          simp [CUSudo.SetConsoleUser, hw, hu, checkUserNotRoot, hr, hwd, hr'.1, hr'.2]
    · by_cases hd : c.Platform = darwin
      · rcases hs : os.Stat "/dev/console" with err | info
        · simp [CUSudo.SetConsoleUser, hw, hd, hs, hwd.symm] at hok
        · obtain ⟨uid⟩ := info
          cases uid with
          | none => simp [CUSudo.SetConsoleUser, hw, hd, hs, hwd.symm] at hok
          | some uid =>
            rcases hl : os.LookupID (toString uid) with err | theUser
            · simp [CUSudo.SetConsoleUser, hw, hd, hs, hwd.symm, hl] at hok
            · by_cases hr : theUser.Username = "root" ∨ theUser.Username = "_mbsetupuser"
              · simp [CUSudo.SetConsoleUser, hw, hd, hs, hwd.symm, hl, checkUserNotRoot, hr] at hok
              · have hr' := not_or.mp hr
                simp [CUSudo.SetConsoleUser, hd, hs, hwd.symm, hl, checkUserNotRoot, hr, hr'.1,
                  hr'.2]
      · by_cases hsu : os.Getenv "SUDO_USER" = ""
        · by_cases hu : os.Getenv "USER" = ""
          · simp [CUSudo.SetConsoleUser, hw, hd, hsu, hu] at hok
          · by_cases hr : os.Getenv "USER" = "root" ∨ os.Getenv "USER" = "_mbsetupuser"
            · simp [CUSudo.SetConsoleUser, hw, hd, hsu, hu, checkUserNotRoot, hr] at hok
            · have hr' := not_or.mp hr
              simp [CUSudo.SetConsoleUser, hw, hd, hsu, hu, checkUserNotRoot, hr, hr'.1, hr'.2]
        · by_cases hr : os.Getenv "SUDO_USER" = "root" ∨ os.Getenv "SUDO_USER" = "_mbsetupuser"
          · simp [CUSudo.SetConsoleUser, hw, hd, hsu, checkUserNotRoot, hr] at hok
          · have hr' := not_or.mp hr
            simp [CUSudo.SetConsoleUser, hw, hd, hsu, checkUserNotRoot, hr, hr'.1, hr'.2]
  · intro herr
    simp only [CUSudo.SetConsoleUser] at herr ⊢
    split
    · rfl
    · rename_i currentUser hres
      rw [hres] at herr
      rcases hc : checkUserNotRoot currentUser with _ | err
      · simp [hc] at herr
      · rfl
  · intro hw hd hbad
    rcases hbad with h | h | ⟨h1, h | h | h⟩ <;>
      simp [CUSudo.SetConsoleUser, hw, hd, h, checkUserNotRoot, *]


/-- A text has a prefix exactly when it is the prefix followed by a rest. -/
theorem stringsHasPrefix_iff (s p : String) :
    stringsHasPrefix s p = true ↔ ∃ rest : String, s = p ++ rest := by
  unfold stringsHasPrefix
  rw [List.isPrefixOf_iff_prefix]
  constructor
  · rintro ⟨t, ht⟩
    refine ⟨String.mk t, ?_⟩
    apply String.ext
    rw [String.data_append, ← ht]
  · rintro ⟨rest, rfl⟩
    exact ⟨rest.data, by rw [String.data_append]⟩

/-- Trimming a prefix off a text that starts with it leaves the rest. -/
theorem stringsTrimPrefix_append (p rest : String) :
    stringsTrimPrefix (p ++ rest) p = rest := by
  have h : stringsHasPrefix (p ++ rest) p = true := (stringsHasPrefix_iff _ _).mpr ⟨rest, rfl⟩
  unfold stringsTrimPrefix
  rw [if_pos h]
  apply String.ext
  simp [String.data_append]

/-- The pieces that `splitOn` gives hold no separator, and joined by the
separator they are the text that was split. -/
theorem splitOn_spec (sep : Char) (cs : List Char) :
    (∀ seg ∈ splitOn sep cs, sep ∉ seg) ∧ [sep].intercalate (splitOn sep cs) = cs ∧
    splitOn sep cs ≠ [] := by
  induction cs with
  | nil => simp [splitOn, List.intercalate]
  | cons ch rest ih =>
    obtain ⟨h1, h2, h3⟩ := ih
    by_cases hc : ch = sep
    · subst hc
      simp only [splitOn, if_true]
      refine ⟨?_, ?_, by simp⟩
      · intro seg hseg
        rcases List.mem_cons.mp hseg with rfl | h
        · simp
        · exact h1 seg h
      · rcases hs : splitOn ch rest with _ | ⟨seg, segs⟩
        · exact absurd hs h3
        · rw [hs] at h2
          simpa [List.intercalate, List.intersperse] using h2
    · simp only [splitOn, if_neg hc]
      rcases hs : splitOn sep rest with _ | ⟨seg, segs⟩
      · exact absurd hs h3
      · rw [hs] at h1 h2
        refine ⟨?_, ?_, by simp⟩
        · intro s hsm
          rcases List.mem_cons.mp hsm with rfl | h
          · intro hmem
            rcases List.mem_cons.mp hmem with h | h
            · exact hc h.symm
            · exact h1 seg (List.mem_cons_self _ _) h
          · exact h1 s (List.mem_cons_of_mem _ h)
        · cases segs with
          | nil => simpa [List.intercalate, List.intersperse] using h2
          | cons s2 ss => simpa [List.intercalate, List.intersperse] using h2


/-- C23: the parsing of the home directory on macOS. When the directory-service
query ran successfully with the output `out`, `getDarwinUserHome` returns the
remainder, trimmed by `strings.TrimSpace`, of the first line of the output that
starts with `NFSHomeDirectory:`; it returns an error if and only if no line
starts with that prefix, and then the home it returns is empty. The lines are
the pieces of the output between its line feeds. `SetUserHome`, on every
platform, stores the home in `UserHome` (and changes nothing else) when
`getUserHome` succeeds, and leaves the session unchanged when it fails. On
macOS `getUserHome` is `getDarwinUserHome`: there `SetUserHome` stores the
trimmed remainder of the first line with the prefix and returns nil, and when
no line has the prefix it leaves the session unchanged and returns the error
of `getDarwinUserHome`, wrapped. -/
theorem C23_darwin_user_home (c : CUSudo) (os : OSFunc) (environ : List String)
    (TrimSpace : String → String) (out : List Byte)
    (hrun : c.Run environ
      ["/usr/bin/dscl", ".", "-read", "/Users/" ++ c.CurrentUser, "NFSHomeDirectory"]
        = (out, none)) :
    (∀ (before after : List String) (rest : String),
      stringsSplitLines (bytesString out) = before ++ ("NFSHomeDirectory:" ++ rest) :: after →
      (∀ l ∈ before, ¬ ∃ r : String, l = "NFSHomeDirectory:" ++ r) →
      c.getDarwinUserHome environ TrimSpace = (TrimSpace rest, none)) ∧
    ((c.getDarwinUserHome environ TrimSpace).2 ≠ none ↔
      ∀ l ∈ stringsSplitLines (bytesString out), ¬ ∃ r : String, l = "NFSHomeDirectory:" ++ r) ∧
    ((c.getDarwinUserHome environ TrimSpace).2 ≠ none →
      (c.getDarwinUserHome environ TrimSpace).1 = "") ∧
    ((∀ l ∈ stringsSplitLines (bytesString out), '\n' ∉ l.data) ∧
      ['\n'].intercalate ((stringsSplitLines (bytesString out)).map String.data)
        = (bytesString out).data) ∧
    ((c.getUserHome os environ TrimSpace).2 = none →
      (c.SetUserHome os environ TrimSpace)
        = ({ c with UserHome := (c.getUserHome os environ TrimSpace).1 }, none)) ∧
    ((c.getUserHome os environ TrimSpace).2 ≠ none →
      (c.SetUserHome os environ TrimSpace).1 = c ∧
      (c.SetUserHome os environ TrimSpace).2 ≠ none) ∧
    (c.Platform = darwin →
      c.getUserHome os environ TrimSpace = c.getDarwinUserHome environ TrimSpace) ∧
    (c.Platform = darwin →
      ∀ (before after : List String) (rest : String),
        stringsSplitLines (bytesString out)
          = before ++ ("NFSHomeDirectory:" ++ rest) :: after →
        (∀ l ∈ before, ¬ ∃ r : String, l = "NFSHomeDirectory:" ++ r) →
        c.SetUserHome os environ TrimSpace = ({ c with UserHome := TrimSpace rest }, none)) ∧
    (c.Platform = darwin →
      (∀ l ∈ stringsSplitLines (bytesString out),
        ¬ ∃ r : String, l = "NFSHomeDirectory:" ++ r) →
      c.SetUserHome os environ TrimSpace
        = (c, some (Error.wrap "failed to get user home"
            (Error.errorf "could not find home directory for user %s" c.CurrentUser)))) := by
  have hnone : ∀ lines : List String,
      lines.find? (fun line => stringsHasPrefix line "NFSHomeDirectory:") = none ↔
      ∀ l ∈ lines, ¬ ∃ r : String, l = "NFSHomeDirectory:" ++ r := by
    intro lines
    rw [List.find?_eq_none]
    constructor
    · intro h l hl hex
      exact h l hl ((stringsHasPrefix_iff _ _).mpr hex)
    · intro h l hl hp
      exact h l hl ((stringsHasPrefix_iff _ _).mp hp)
  have hfirst : ∀ (before after : List String) (rest : String),
      stringsSplitLines (bytesString out) = before ++ ("NFSHomeDirectory:" ++ rest) :: after →
      (∀ l ∈ before, ¬ ∃ r : String, l = "NFSHomeDirectory:" ++ r) →
      c.getDarwinUserHome environ TrimSpace = (TrimSpace rest, none) := by
    intro before after rest hlines hbefore
    have hfind : (stringsSplitLines (bytesString out)).find?
        (fun line => stringsHasPrefix line "NFSHomeDirectory:")
          = some ("NFSHomeDirectory:" ++ rest) := by
      rw [hlines, List.find?_append, (hnone before).mpr hbefore]
      have hp : stringsHasPrefix ("NFSHomeDirectory:" ++ rest) "NFSHomeDirectory:" = true :=
        (stringsHasPrefix_iff _ _).mpr ⟨rest, rfl⟩
      simp [List.find?_cons, hp]
    simp only [CUSudo.getDarwinUserHome, hrun, hfind, stringsTrimPrefix_append]
  have hdarwin : c.Platform = darwin →
      c.getUserHome os environ TrimSpace = c.getDarwinUserHome environ TrimSpace := by
    intro hd
    simp only [CUSudo.getUserHome, hd, if_true]
  refine ⟨hfirst, ?_, ?_, ?_, ?_, ?_, hdarwin, ?_, ?_⟩
  · rw [← hnone]
    simp only [CUSudo.getDarwinUserHome, hrun]
    rcases hf : (stringsSplitLines (bytesString out)).find?
        (fun line => stringsHasPrefix line "NFSHomeDirectory:") with _ | line <;> simp
  · intro _
    simp only [CUSudo.getDarwinUserHome, hrun]
    rcases hf : (stringsSplitLines (bytesString out)).find?
        (fun line => stringsHasPrefix line "NFSHomeDirectory:") with _ | line
    · rfl
    · simp only [CUSudo.getDarwinUserHome, hrun, hf] at *
      simp_all
  · obtain ⟨h1, h2, _⟩ := splitOn_spec '\n' (bytesString out).data
    constructor
    · intro l hl
      simp only [stringsSplitLines, List.mem_map] at hl
      obtain ⟨seg, hseg, rfl⟩ := hl
      exact h1 seg hseg
    · simp only [stringsSplitLines, List.map_map]
      have : (String.data ∘ String.mk) = (id : List Char → List Char) := by
        funext x; rfl
      rw [this, List.map_id]
      exact h2
  · intro hok
    simp only [CUSudo.SetUserHome]
    rcases hg : c.getUserHome os environ TrimSpace with ⟨home, err⟩
    rw [hg] at hok
    simp only at hok
    subst hok
    rfl
  · intro herr
    simp only [CUSudo.SetUserHome]
    rcases hg : c.getUserHome os environ TrimSpace with ⟨home, err⟩
    rw [hg] at herr
    cases err with
    | none => exact absurd rfl herr
    | some e => exact ⟨rfl, by simp⟩
  · intro hd before after rest hlines hbefore
    simp only [CUSudo.SetUserHome, hdarwin hd, hfirst before after rest hlines hbefore]
  · intro hd hno
    have hf := (hnone _).mpr hno
    simp only [CUSudo.SetUserHome, hdarwin hd, CUSudo.getDarwinUserHome, hrun, hf]


/-- C23 for the user `alice`, whose query prints the line
`NFSHomeDirectory: /Users/alice`: the parser returns the trimmed remainder of
that line, and `SetUserHome` stores it as the home of the session. -/
theorem C23_darwin_user_home_witness :
    CUSudo.getDarwinUserHome { NewCUSudo (sampleWorld 0) [] with CurrentUser := "alice" } []
      trimAsciiSpace = (trimAsciiSpace " /Users/alice", none) ∧
    CUSudo.SetUserHome { NewCUSudo (sampleWorld 0) [] with CurrentUser := "alice" } sampleOS []
      trimAsciiSpace
      = ({ NewCUSudo (sampleWorld 0) [] with
            CurrentUser := "alice", UserHome := trimAsciiSpace " /Users/alice" }, none) :=
  ⟨(C23_darwin_user_home { NewCUSudo (sampleWorld 0) [] with CurrentUser := "alice" } sampleOS []
      trimAsciiSpace (asciiBytes "NFSHomeDirectory: /Users/alice\n") rfl).1
      [] [""] " /Users/alice" (by decide) (by simp),
    (C23_darwin_user_home { NewCUSudo (sampleWorld 0) [] with CurrentUser := "alice" } sampleOS []
      trimAsciiSpace (asciiBytes "NFSHomeDirectory: /Users/alice\n") rfl).2.2.2.2.2.2.2.1
      rfl [] [""] " /Users/alice" (by decide) (by simp)⟩

/-- C22 on a Linux-like platform where `SUDO_USER` is `alice` and `USER` is
`root`: the console user is `alice`. -/
theorem C22_set_console_user_witness :
    (CUSudo.SetConsoleUser (NewCUSudo (sampleWorld 0) [WithPlatform "linux"]) sampleOS).1.CurrentUser
      = "alice" :=
  ((((C22_set_console_user (NewCUSudo (sampleWorld 0) [WithPlatform "linux"]) sampleOS).1
    (by decide)).2.2.2.2.2 (by decide) (by decide)).1).trans (by decide)

/-- C21, refuted as stated: on a machine where the effective group id of the
process is 501, not zero, and the group of the console user `alice` has an
empty name, so that `CheckForRoot` and `SetGroup` both fail on the session,
`NewConfig` succeeds, with the working directory set to the home
`/Users/alice`. -/
theorem C21_no_root_check_in_bring_up :
    (CUSudo.CheckForRoot (NewCUSudo (sampleWorld 0) []) sampleOS false
      = some (Error.errorf "this program must be run as root" "")) ∧
    (CUSudo.SetGroup { NewCUSudo (sampleWorld 0) [] with CurrentUser := "alice" } sampleOS).2
      = some (Error.errorf "group name is empty" "") ∧
    bringUpSummary (NewConfig "arm64" sampleOS sampleWorld [] trimAsciiSpace)
      = some ("alice", "/Users/alice", "/Users/alice") := by
  refine ⟨by decide, by decide, by decide⟩


/-- The only field that `SetConsoleUser` can change is `CurrentUser`. -/
theorem SetConsoleUser_fields (c : CUSudo) (os : OSFunc) :
    (c.SetConsoleUser os).1
      = { c with CurrentUser := (c.SetConsoleUser os).1.CurrentUser } := by
  simp only [CUSudo.SetConsoleUser]
  split
  · rfl
  · rename_i currentUser _
    rcases checkUserNotRoot currentUser with _ | err <;> rfl

/-- The only field that `SetUserHome` can change is `UserHome`. -/
theorem SetUserHome_fields (c : CUSudo) (os : OSFunc) (environ : List String)
    (TrimSpace : String → String) :
    (c.SetUserHome os environ TrimSpace).1
      = { c with UserHome := (c.SetUserHome os environ TrimSpace).1.UserHome } := by
  simp only [CUSudo.SetUserHome]
  rcases c.getUserHome os environ TrimSpace with ⟨home, _ | err⟩ <;> rfl

/-- On macOS, `SetConsoleUser` consults `Stat` and `LookupID` alone. -/
theorem SetConsoleUser_darwin (c : CUSudo) (os os' : OSFunc) (hd : c.Platform = darwin)
    (hs : os'.Stat = os.Stat) (hl : os'.LookupID = os.LookupID) :
    c.SetConsoleUser os' = c.SetConsoleUser os := by
  have hw : ¬ darwin = windows := by decide
  simp only [CUSudo.SetConsoleUser, hd, hw, hs, hl, if_true, if_false]

/-- On macOS, `SetUserHome` does not consult the `OSFunc`. -/
theorem SetUserHome_darwin (c : CUSudo) (os os' : OSFunc) (environ : List String)
    (TrimSpace : String → String) (hd : c.Platform = darwin) :
    c.SetUserHome os' environ TrimSpace = c.SetUserHome os environ TrimSpace := by
  simp only [CUSudo.SetUserHome, CUSudo.getUserHome, hd, if_true]

/-- C21, amended: the bring-up `NewConfig` passes through the console-user
resolution, the home-directory resolution and the default of the working
directory, in that order, and is terminal on the first failure: a failed
console-user resolution is what it returns, wrapped, whatever the home
resolution would do; otherwise a failed home resolution (attempted on the
session that holds the console user) is what it returns, wrapped; and it
returns a configuration exactly when both succeeded. That configuration holds
the resolved user and home, its working directory is the home, and its group
is still empty: there is no root check and no group resolution, and the
result does not depend on the effective group id, on the group or user
look-ups by name, or on the environment variables. -/
theorem C21_bring_up_stages (GOARCH : String) (os : OSFunc) (world : Nat → Cmd → ExecOutcome)
    (environ : List String) (TrimSpace : String → String) :
    (∀ err,
      ((NewCUSudo (world 0) [WithExecutor (NewExecutor (world 0) [])]).SetConsoleUser os).2
        = some err →
      NewConfig GOARCH os world environ TrimSpace
        = .error (Error.wrap "failed to set console user" err)) ∧
    (((NewCUSudo (world 0) [WithExecutor (NewExecutor (world 0) [])]).SetConsoleUser os).2
        = none →
      ∀ err,
        (CUSudo.SetUserHome
          ((NewCUSudo (world 0) [WithExecutor (NewExecutor (world 0) [])]).SetConsoleUser os).1
          os environ TrimSpace).2 = some err →
        NewConfig GOARCH os world environ TrimSpace
          = .error (Error.wrap "failed to set user home" err)) ∧
    (((NewCUSudo (world 0) [WithExecutor (NewExecutor (world 0) [])]).SetConsoleUser os).2
        = none →
      (CUSudo.SetUserHome
        ((NewCUSudo (world 0) [WithExecutor (NewExecutor (world 0) [])]).SetConsoleUser os).1
        os environ TrimSpace).2 = none →
      ∃ cfg, NewConfig GOARCH os world environ TrimSpace = .ok cfg ∧
        cfg.Arch = GOARCH ∧
        ∀ n,
          (cfg.CUSudo n).CurrentUser
            = ((NewCUSudo (world 0)
                [WithExecutor (NewExecutor (world 0) [])]).SetConsoleUser os).1.CurrentUser ∧
          (cfg.CUSudo n).UserHome
            = (CUSudo.SetUserHome
                ((NewCUSudo (world 0)
                  [WithExecutor (NewExecutor (world 0) [])]).SetConsoleUser os).1
                os environ TrimSpace).1.UserHome ∧
          (cfg.CUSudo n).CWD = (cfg.CUSudo n).UserHome ∧
          (cfg.CUSudo n).CurrentGroup = "" ∧
          (cfg.CUSudo n).Platform = darwin) ∧
    (∀ (egid : Int) (lookupGroupID : String → Except Error Group)
        (lookupUser : String → Except Error User) (getenv : String → String),
      NewConfig GOARCH
          { os with Getegid := egid, LookupGroupID := lookupGroupID, LookupUser := lookupUser,
                    Getenv := getenv }
          world environ TrimSpace
        = NewConfig GOARCH os world environ TrimSpace) := by
  have hplat : (NewCUSudo (world 0) [WithExecutor (NewExecutor (world 0) [])]).Platform
      = darwin := rfl
  have hgroup : (NewCUSudo (world 0) [WithExecutor (NewExecutor (world 0) [])]).CurrentGroup
      = "" := rfl
  refine ⟨?_, ?_, ?_, ?_⟩
  · intro err herr
    simp only [NewConfig]
    rcases hc : (NewCUSudo (world 0) [WithExecutor (NewExecutor (world 0) [])]).SetConsoleUser os
      with ⟨s1, e1⟩
    rw [hc] at herr
    simp only at herr
    subst herr
    rfl
  · intro hok err herr
    simp only [NewConfig]
    rcases hc : (NewCUSudo (world 0) [WithExecutor (NewExecutor (world 0) [])]).SetConsoleUser os
      with ⟨s1, e1⟩
    rw [hc] at hok herr
    simp only at hok herr
    subst hok
    rcases hh : s1.SetUserHome os environ TrimSpace with ⟨s2, e2⟩
    rw [hh] at herr
    simp only at herr
    subst herr
    simp only [hh]
  · intro hok hhome
    have f1 := SetConsoleUser_fields
      (NewCUSudo (world 0) [WithExecutor (NewExecutor (world 0) [])]) os
    have f2 := SetUserHome_fields
      ((NewCUSudo (world 0) [WithExecutor (NewExecutor (world 0) [])]).SetConsoleUser os).1
      os environ TrimSpace
    simp only [NewConfig]
    rcases hc : (NewCUSudo (world 0) [WithExecutor (NewExecutor (world 0) [])]).SetConsoleUser os
      with ⟨s1, e1⟩
    rw [hc] at hok hhome f1 f2
    simp only at hok hhome f1 f2
    subst hok
    rcases hh : s1.SetUserHome os environ TrimSpace with ⟨s2, e2⟩
    rw [hh] at hhome f2
    simp only at hhome f2
    subst hhome
    refine ⟨{ Arch := GOARCH,
              CUSudo := fun n =>
                { s2 with CWD := s2.UserHome, Executor := NewExecutor (world (n + 1)) [] } },
      ?_, rfl, ?_⟩
    · simp only [hh]
    intro n
    refine ⟨?_, rfl, rfl, ?_, ?_⟩
    · show s2.CurrentUser = s1.CurrentUser
      rw [f2]
    · show s2.CurrentGroup = ""
      rw [f2, f1]
      exact hgroup
    · show s2.Platform = darwin
      rw [f2, f1]
      exact hplat
  · intro egid lookupGroupID lookupUser getenv
    have h1 := SetConsoleUser_darwin
      (NewCUSudo (world 0) [WithExecutor (NewExecutor (world 0) [])]) os
      { os with Getegid := egid, LookupGroupID := lookupGroupID, LookupUser := lookupUser,
                Getenv := getenv } hplat rfl rfl
    have hp1 : ((NewCUSudo (world 0)
        [WithExecutor (NewExecutor (world 0) [])]).SetConsoleUser os).1.Platform = darwin := by
      rw [SetConsoleUser_fields]
      exact hplat
    have h2 := SetUserHome_darwin
      ((NewCUSudo (world 0) [WithExecutor (NewExecutor (world 0) [])]).SetConsoleUser os).1 os
      { os with Getegid := egid, LookupGroupID := lookupGroupID, LookupUser := lookupUser,
                Getenv := getenv } environ TrimSpace hp1
    simp only [NewConfig, h1]
    rcases hc : (NewCUSudo (world 0) [WithExecutor (NewExecutor (world 0) [])]).SetConsoleUser os
      with ⟨s1, e1⟩
    rw [hc] at h2
    simp only at h2
    cases e1 with
    | some e => rfl
    | none => simp only [h2]

/-- C21, amended, on the machine of the counterexample: both resolutions
succeed, and the bring-up returns a configuration. -/
theorem C21_bring_up_stages_witness :
    ∃ cfg, NewConfig "arm64" sampleOS sampleWorld [] trimAsciiSpace = .ok cfg ∧
      cfg.Arch = "arm64" ∧
      ∀ n,
        (cfg.CUSudo n).CurrentUser
          = ((NewCUSudo (sampleWorld 0)
              [WithExecutor (NewExecutor (sampleWorld 0) [])]).SetConsoleUser
                sampleOS).1.CurrentUser ∧
        (cfg.CUSudo n).UserHome
          = (CUSudo.SetUserHome
              ((NewCUSudo (sampleWorld 0)
                [WithExecutor (NewExecutor (sampleWorld 0) [])]).SetConsoleUser sampleOS).1
              sampleOS [] trimAsciiSpace).1.UserHome ∧
        (cfg.CUSudo n).CWD = (cfg.CUSudo n).UserHome ∧
        (cfg.CUSudo n).CurrentGroup = "" ∧
        (cfg.CUSudo n).Platform = darwin :=
  (C21_bring_up_stages "arm64" sampleOS sampleWorld [] trimAsciiSpace).2.2.1
    (by decide) (by decide)


/-! ## Properties of the validation of a formula name -/

/-- The matches of a bounded repetition of a character class: it takes `k`
characters of the class, for a `k` between the bounds. -/
theorem mem_repeatAt_charClass (ranges : List (Char × Char)) :
    ∀ (hi lo pos : Nat) (rest : List Char) (x : Nat × List Char),
      x ∈ Regexp.repeatAt (Regexp.charClass ranges).matchAt lo hi pos rest ↔
      ∃ k, lo ≤ k ∧ k ≤ hi ∧ k ≤ rest.length ∧
        (∀ ch ∈ rest.take k, ranges.any (fun r => decide (r.1 ≤ ch ∧ ch ≤ r.2)) = true) ∧
        x = (pos + k, rest.drop k) := by
  intro hi
  induction hi with
  | zero =>
    intro lo pos rest x
    simp only [Regexp.repeatAt]
    constructor
    · intro hx
      by_cases hlo : lo = 0
      · rw [if_pos hlo, List.mem_singleton] at hx
        exact ⟨0, by omega, le_refl _, Nat.zero_le _, by simp, by simpa using hx⟩
      · rw [if_neg hlo] at hx
        exact absurd hx (List.not_mem_nil _)
    · rintro ⟨k, h1, h2, _, _, hx⟩
      have hk : k = 0 := by omega
      subst hk
      have hlo : lo = 0 := by omega
      rw [if_pos hlo, List.mem_singleton]
      simpa using hx
  | succ hi ih =>
    intro lo pos rest x
    simp only [Regexp.repeatAt, List.mem_append, List.mem_flatMap]
    constructor
    · rintro (hx | ⟨pr, hpr, hx⟩)
      · by_cases hlo : lo = 0
        · rw [if_pos hlo, List.mem_singleton] at hx
          exact ⟨0, by omega, Nat.zero_le _, Nat.zero_le _, by simp, by simpa using hx⟩
        · rw [if_neg hlo] at hx
          exact absurd hx (List.not_mem_nil _)
      · cases rest with
        | nil => simp [Regexp.matchAt] at hpr
        | cons ch cs =>
          simp only [Regexp.matchAt] at hpr
          split_ifs at hpr with hch
          · rw [List.mem_singleton] at hpr
            subst hpr
            obtain ⟨k, h1, h2, h3, h4, h5⟩ := (ih (lo - 1) (pos + 1) cs x).mp hx
            refine ⟨k + 1, by omega, by omega, by simp; omega, ?_, ?_⟩
            · intro c hc
              rw [List.take_succ_cons, List.mem_cons] at hc
              rcases hc with rfl | hc
              · exact hch
              · exact h4 c hc
            · rw [h5, List.drop_succ_cons]
              congr 1
              omega
          · exact absurd hpr (List.not_mem_nil _)
    · rintro ⟨k, h1, h2, h3, h4, h5⟩
      cases k with
      | zero =>
        left
        have hlo : lo = 0 := by omega
        rw [if_pos hlo, List.mem_singleton]
        simpa using h5
      | succ k =>
        right
        cases rest with
        | nil => simp at h3
        | cons ch cs =>
          have hch : ranges.any (fun r => decide (r.1 ≤ ch ∧ ch ≤ r.2)) = true :=
            h4 ch (by simp)
          refine ⟨(pos + 1, cs),
            by simp only [Regexp.matchAt, hch, if_true, List.mem_singleton], ?_⟩
          apply (ih (lo - 1) (pos + 1) cs x).mpr
          refine ⟨k, by omega, by omega, by simpa using h3, ?_, ?_⟩
          · intro c hc
            exact h4 c (by rw [List.take_succ_cons]; exact List.mem_cons_of_mem _ hc)
          · rw [h5, List.drop_succ_cons]
            congr 1
            omega

/-- When `formulaRe` matches a text: the text has between 1 and 128
characters, each of them in the class. -/
theorem formulaRe_MatchString (s : String) :
    formulaRe.MatchString s = true ↔
      1 ≤ s.data.length ∧ s.data.length ≤ 128 ∧
      ∀ ch ∈ s.data,
        [('A', 'Z'), ('a', 'z'), ('0', '9'), ('+', '+'), ('@', '@'), ('.', '.'), ('_', '_'),
          ('-', '-')].any (fun r => decide (r.1 ≤ ch ∧ ch ≤ r.2)) = true := by
  unfold Regexp.MatchString
  rw [List.any_eq_true]
  simp only [formulaRe, List.mem_range, Bool.not_eq_true', List.isEmpty_eq_false_iff_exists_mem]
  constructor
  · rintro ⟨i, _, x, hx⟩
    simp only [Regexp.matchAt, List.mem_flatMap] at hx
    obtain ⟨p1, hp1, p2, hp2, hx⟩ := hx
    split_ifs at hp1 with hi
    · rw [List.mem_singleton] at hp1
      subst hp1
      subst hi
      obtain ⟨k, h1, h2, h3, h4, h5⟩ := (mem_repeatAt_charClass _ _ _ _ _ _).mp hp2
      subst h5
      simp only [List.drop_zero] at *
      split_ifs at hx with hend
      · have hk : s.data.length ≤ k := by
          have := congrArg List.length hend
          simp only [List.length_drop, List.length_nil] at this
          omega
        have hk' : k = s.data.length := le_antisymm h3 hk
        refine ⟨by omega, by omega, ?_⟩
        intro ch hch
        apply h4
        rw [hk', List.take_length]
        exact hch
      · exact absurd hx (List.not_mem_nil _)
    · exact absurd hp1 (List.not_mem_nil _)
  · rintro ⟨h1, h2, h3⟩
    refine ⟨0, by omega, (0 + s.data.length, []), ?_⟩
    simp only [Regexp.matchAt, List.mem_flatMap, List.drop_zero]
    refine ⟨(0, s.data), by simp, (0 + s.data.length, []), ?_, by simp⟩
    apply (mem_repeatAt_charClass _ _ _ _ _ _).mpr
    exact ⟨s.data.length, h1, h2, le_refl _, by rw [List.take_length]; exact h3, by simp⟩


/-- The class of `formulaRe` holds the characters of a formula name. -/
theorem formulaRe_class (ch : Char) :
    [('A', 'Z'), ('a', 'z'), ('0', '9'), ('+', '+'), ('@', '@'), ('.', '.'), ('_', '_'),
      ('-', '-')].any (fun r => decide (r.1 ≤ ch ∧ ch ≤ r.2)) = true ↔ formulaChar ch := by
  have one : ∀ d : Char, (d ≤ ch ∧ ch ≤ d) ↔ ch = d := by
    intro d
    constructor
    · rintro ⟨h1, h2⟩
      exact le_antisymm h2 h1
    · rintro rfl
      exact ⟨le_refl _, le_refl _⟩
  simp only [List.any_cons, List.any_nil, Bool.or_false, Bool.or_eq_true, decide_eq_true_eq, one,
    formulaChar]

/-- A character outside the ASCII range is not one of a formula name. -/
theorem formulaChar_ascii (ch : Char) (h : formulaChar ch) : ch.toNat < 128 := by
  have up : ∀ d : Char, ch ≤ d → ch.toNat ≤ d.toNat := fun _ hd => hd
  rcases h with h | h | h | h | h | h | h | h
  · have := up _ h.2
    have e : 'Z'.toNat = 90 := by decide
    omega
  · have := up _ h.2
    have e : 'z'.toNat = 122 := by decide
    omega
  · have := up _ h.2
    have e : '9'.toNat = 57 := by decide
    omega
  all_goals (subst h; decide)

/-- C24: `validateFormulaArg` accepts exactly the well-formed formula names. It
returns nil if and only if the text has between 1 and 128 characters and each
of them is an ASCII letter, an ASCII digit or one of `+`, `@`, `.`, `_`, `-`
(the whole text must match); otherwise it returns the error
`invalid formula name`. So the empty text, a text of 129 characters or more,
and a text that holds a space, `/`, `:`, `!`, a line feed (also as its last
character) or a character that is not ASCII are rejected. -/
theorem C24_validate_formula_arg (s : String) :
    (validateFormulaArg s = none ↔
      1 ≤ s.length ∧ s.length ≤ 128 ∧ ∀ ch ∈ s.data, formulaChar ch) ∧
    (validateFormulaArg s ≠ none → validateFormulaArg s = some Error.invalidFormulaName) ∧
    (s = "" → validateFormulaArg s = some Error.invalidFormulaName) ∧
    (129 ≤ s.length → validateFormulaArg s = some Error.invalidFormulaName) ∧
    (∀ ch ∈ s.data,
      (ch = ' ' ∨ ch = '/' ∨ ch = ':' ∨ ch = '!' ∨ ch = '\n' ∨ 128 ≤ ch.toNat) →
      validateFormulaArg s = some Error.invalidFormulaName) ∧
    (∀ t : String, validateFormulaArg (t ++ "\n") = some Error.invalidFormulaName) := by
  have hiff : validateFormulaArg s = none ↔
      1 ≤ s.length ∧ s.length ≤ 128 ∧ ∀ ch ∈ s.data, formulaChar ch := by
    have hm := formulaRe_MatchString s
    simp only [formulaRe_class] at hm
    unfold validateFormulaArg
    rw [← String.length] at hm
    cases hb : formulaRe.MatchString s
    · rw [hb] at hm
      simp only [Bool.not_false, if_true]
      constructor
      · intro h; exact absurd h (by simp)
      · intro h; exact absurd (hm.mpr h) (by simp)
    · rw [hb] at hm
      simp only [Bool.not_true]
      exact ⟨fun _ => hm.mp rfl, fun _ => rfl⟩
  have hrej : ∀ t : String, validateFormulaArg t ≠ none →
      validateFormulaArg t = some Error.invalidFormulaName := by
    intro t h
    unfold validateFormulaArg at h ⊢
    split_ifs at h ⊢ with hb
    · rfl
    · exact absurd rfl h
  have hbad : ∀ (t : String) (ch : Char), ch ∈ t.data →
      (ch = ' ' ∨ ch = '/' ∨ ch = ':' ∨ ch = '!' ∨ ch = '\n' ∨ 128 ≤ ch.toNat) →
      validateFormulaArg t = some Error.invalidFormulaName := by
    intro t ch hch hbad
    apply hrej
    intro hnone
    have hm := formulaRe_MatchString t
    simp only [formulaRe_class] at hm
    have hacc : formulaRe.MatchString t = true := by
      unfold validateFormulaArg at hnone
      by_contra hb
      simp [hb] at hnone
    have hc := (hm.mp hacc).2.2 ch hch
    have hlt := formulaChar_ascii ch hc
    rcases hbad with h | h | h | h | h | h
    · subst h; revert hc; unfold formulaChar; decide
    · subst h; revert hc; unfold formulaChar; decide
    · subst h; revert hc; unfold formulaChar; decide
    · subst h; revert hc; unfold formulaChar; decide
    · subst h; revert hc; unfold formulaChar; decide
    · omega
  refine ⟨hiff, hrej s, ?_, ?_, hbad s, ?_⟩
  · rintro rfl
    apply hrej
    intro h
    have := (hiff.mp h).1
    simp at this
  · intro hlen
    apply hrej
    intro h
    have := (hiff.mp h).2.1
    omega
  · intro t
    exact hbad (t ++ "\n") '\n' (by simp [String.data_append]) (by simp)

/-- C24 on `openssl@1.1`, which is accepted, and on `valid@1.0!`, which is not. -/
theorem C24_validate_formula_arg_witness :
    validateFormulaArg "openssl@1.1" = none ∧
    validateFormulaArg "valid@1.0!" = some Error.invalidFormulaName :=
  ⟨(C24_validate_formula_arg "openssl@1.1").1.mpr
      ⟨by decide, by decide, by unfold formulaChar; decide⟩,
    (C24_validate_formula_arg "valid@1.0!").2.2.2.2.1 '!' (by decide) (by decide)⟩


/-! ## Properties of the options of a run -/

/-- Holding the same value in a field is reflexive and transitive. -/
theorem Field.same_refl (f : Field) (a : runConfig) : f.same a a := by
  cases f <;> exact rfl

/-- Holding the same value in a field is transitive. -/
theorem Field.same_trans (f : Field) (a b c : runConfig) (h₁ : f.same a b) (h₂ : f.same b c) :
    f.same a c := by
  cases f <;> exact Eq.trans h₁ h₂

/-- Options that leave a field alone, applied in a row, leave it alone. -/
theorem keeps_foldl (environ : List String) (f : Field) (post : List OptionCall)
    (hpost : ∀ o ∈ post, keeps environ f o) :
    ∀ cfg : runConfig,
      f.same ((post.map OptionCall.option).foldl (fun config opt => opt environ config) cfg)
        cfg := by
  induction post with
  | nil => intro cfg; exact f.same_refl cfg
  | cons o t ih =>
    intro cfg
    rw [List.map_cons, List.foldl_cons]
    exact f.same_trans _ _ _
      (ih (fun o' ho' => hpost o' (List.mem_cons_of_mem _ ho')) _)
      (hpost o (List.mem_cons_self _ _) cfg)

/-- C25: later-applied options override earlier ones for the same field. Every
option of the package, for every field of the run configuration (stdout sink,
stderr sink, stdin, combined-output flag, context, environment, log-on-failure
flag, timeout, directory, JSON target), either assigns the field a value that
does not depend on the configuration it is applied to, or leaves the field
alone. So after a sequence of options is applied in order to the fresh
configuration, a field that no option assigns holds its default, and any
other field holds the value assigned by the last option of the sequence that
assigns it. For instance `Output(w)` then `Stdout(v)` gives stdout `v` and
stderr `w`; `Stdout(v)` then `Output(w)` gives `w` for both; and after any
options, an environment option yields the environment it yields when applied
alone. -/
theorem C25_last_option_wins (environ : List String) :
    (∀ (f : Field) (o : OptionCall), assigns environ f o ∨ keeps environ f o) ∧
    (∀ (f : Field) (opts : List OptionCall), (∀ o ∈ opts, keeps environ f o) →
      f.same (appliedOpts environ (opts.map OptionCall.option)) runConfig.initial) ∧
    (∀ (f : Field) (pre post : List OptionCall) (o : OptionCall),
      assigns environ f o → (∀ o' ∈ post, keeps environ f o') →
      f.same (appliedOpts environ ((pre ++ o :: post).map OptionCall.option))
        (o.option environ runConfig.initial)) ∧
    (∀ w v : Writer,
      (appliedOpts environ [Output w, Stdout v]).stdout = some v ∧
      (appliedOpts environ [Output w, Stdout v]).stderr = some w ∧
      (appliedOpts environ [Stdout v, Output w]).stdout = some w ∧
      (appliedOpts environ [Stdout v, Output w]).stderr = some w) ∧
    (∀ (pre : List OptionCall) (o : OptionCall), o.isEnv = true →
      (appliedOpts environ ((pre ++ [o]).map OptionCall.option)).env
        = (appliedOpts environ [o.option]).env) := by
  have hdich : ∀ (f : Field) (o : OptionCall), assigns environ f o ∨ keeps environ f o := by
    intro f o
    cases o <;> cases f <;>
      first
        | exact Or.inr (fun _ => rfl)
        | exact Or.inl (fun _ _ => rfl)
  have hlast : ∀ (f : Field) (pre post : List OptionCall) (o : OptionCall),
      assigns environ f o → (∀ o' ∈ post, keeps environ f o') →
      f.same (appliedOpts environ ((pre ++ o :: post).map OptionCall.option))
        (o.option environ runConfig.initial) := by
    intro f pre post o ha hk
    unfold appliedOpts
    rw [List.map_append, List.map_cons, List.foldl_append, List.foldl_cons]
    exact f.same_trans _ _ _ (keeps_foldl environ f post hk _) (ha _ _)
  refine ⟨hdich, ?_, hlast, ?_, ?_⟩
  · intro f opts hk
    exact keeps_foldl environ f opts hk runConfig.initial
  · intro w v
    exact ⟨rfl, rfl, rfl, rfl⟩
  · intro pre o ho
    have ha : assigns environ Field.env o := by
      cases o <;> first | exact (fun _ _ => rfl) | exact absurd ho (by simp [OptionCall.isEnv])
    have h := hlast Field.env pre [] o ha (fun _ h => absurd h (List.not_mem_nil _))
    exact h.trans (ha _ _)

/-- C25 on the sequence `Cwd("/tmp")`, `Timeout(5)`, `Cwd("/")`, `Stdin()`:
the directory is the one of the second `Cwd`. -/
theorem C25_last_option_wins_witness :
    Field.same Field.dir
      (appliedOpts []
        (([OptionCall.Cwd "/tmp", OptionCall.Timeout 5] ++
          OptionCall.Cwd "/" :: [OptionCall.Stdin []]).map OptionCall.option))
      ((OptionCall.Cwd "/").option [] runConfig.initial) :=
  (C25_last_option_wins []).2.2.1 Field.dir [OptionCall.Cwd "/tmp", OptionCall.Timeout 5]
    [OptionCall.Stdin []] (OptionCall.Cwd "/") (fun _ _ => rfl)
    (by
      intro o ho
      rw [List.mem_singleton] at ho
      subst ho
      exact fun _ => rfl)


/-! ## Properties of the redirection of stdout to the JSON buffer -/

/-- What a named writer returns does not depend on the heap. -/
theorem WriterRef_Write_indep (w : WriterRef) (h h' : Heap) (p : List Byte) :
    (w.Write h p).2 = (w.Write h' p).2 := by
  cases w <;> simp [WriterRef.Write, limitedBufferWriter.Write_result, bufferWrite]

/-- Writing to the same named writer in two heaps that hold the same in the
writers a caller can name leaves two such heaps. -/
theorem WriterRef_Write_visible (b : Bool) (w : WriterRef) (h h' : Heap) (p : List Byte)
    (hv : Heap.sameVisible b h h') :
    Heap.sameVisible b (w.Write h p).1 (w.Write h' p).1 := by
  obtain ⟨h1, h2, h3, h4⟩ := hv
  cases w
  case osStdout =>
    refine ⟨h1, h2, h3, ?_⟩
    intro hb
    simp only [WriterRef.Write, bufferWrite, h4 hb]
  all_goals
    refine ⟨?_, ?_, ?_, ?_⟩ <;>
      first
        | (intro hb; simp only [WriterRef.Write, bufferWrite, h4 hb])
        | simp only [WriterRef.Write, bufferWrite, h1, h2, h3]

/-- The same for a fan-out, which also returns the same in both heaps. -/
theorem Writer_Write_visible (b : Bool) (ws : Writer) (p : List Byte) :
    ∀ h h' : Heap, Heap.sameVisible b h h' →
      (Writer.Write h ws p).2 = (Writer.Write h' ws p).2 ∧
      Heap.sameVisible b (Writer.Write h ws p).1 (Writer.Write h' ws p).1 := by
  induction ws with
  | nil => intro h h' hv; exact ⟨rfl, hv⟩
  | cons w ws ih =>
    intro h h' hv
    have hi := WriterRef_Write_indep w h h' p
    have hw := WriterRef_Write_visible b w h h' p hv
    simp only [Writer.Write, hi]
    split_ifs
    · exact ⟨rfl, hw⟩
    · exact ⟨rfl, hw⟩
    · exact ih _ _ hw

/-- Writing to the private buffers of a run, and for a verbose executor to the
stdout of the process, never fails and changes no other writer. -/
theorem Writer_Write_private (b : Bool) (ws : Writer) (p : List Byte)
    (hws : ∀ r ∈ ws, r = WriterRef.json ∨ r = WriterRef.combined ∨
      (r = WriterRef.osStdout ∧ b = false)) :
    ∀ h : Heap, (Writer.Write h ws p).2.2 = none ∧
      Heap.sameVisible b (Writer.Write h ws p).1 h := by
  induction ws with
  | nil => intro h; exact ⟨rfl, rfl, rfl, rfl, fun _ => rfl⟩
  | cons w ws ih =>
    intro h
    have ht := ih (fun r hr => hws r (List.mem_cons_of_mem _ hr))
    have hstep : (w.Write h p).2 = ((p.length : Int), none) ∧
        Heap.sameVisible b (w.Write h p).1 h := by
      rcases hws w (List.mem_cons_self _ _) with rfl | rfl | ⟨rfl, hb⟩
      · exact ⟨rfl, rfl, rfl, rfl, fun _ => rfl⟩
      · exact ⟨rfl, rfl, rfl, rfl, fun _ => rfl⟩
      · refine ⟨rfl, rfl, rfl, rfl, ?_⟩
        intro hb'
        rw [hb] at hb'
        exact absurd hb' (by decide)
    simp only [Writer.Write, hstep.1]
    simp only [ne_eq, not_true_eq_false, if_false]
    obtain ⟨t1, t2, t3, t4, t5⟩ := ht (w.Write h p).1
    obtain ⟨s1, s2, s3, s4⟩ := hstep.2
    exact ⟨t1, t2.trans s1, t3.trans s2, t4.trans s3, fun hb => (t5 hb).trans (s4 hb)⟩

/-- A command whose stdout reaches the private buffers alone: the writers a
caller can name end up as they do when the child writes nothing to its
stdout. -/
theorem foldl_deliver_private (b : Bool) (cmd : Cmd) (ws : Writer)
    (hout : cmd.Stdout = some ws)
    (hws : ∀ r ∈ ws, r = WriterRef.json ∨ r = WriterRef.combined ∨
      (r = WriterRef.osStdout ∧ b = false))
    (events : List (Stream × List Byte)) :
    ∀ st st' : Heap × Option Error × Option Error,
      Heap.sameVisible b st.1 st'.1 → st.2.1 = none → st.2.2 = st'.2.2 →
      Heap.sameVisible b (events.foldl (deliver cmd) st).1
        ((events.filter (fun ev => ev.1 ≠ Stream.out)).foldl (deliver cmd) st').1 := by
  induction events with
  | nil => intro st st' hv _ _; exact hv
  | cons ev t ih =>
    intro st st' hv hnone hflag
    obtain ⟨s, p⟩ := ev
    cases s
    · have hp := Writer_Write_private b ws p hws st.1
      have hstep : deliver cmd st (Stream.out, p)
          = ((Writer.Write st.1 ws p).1, (Writer.Write st.1 ws p).2.2, st.2.2) := by
        simp only [deliver, hnone, hout, ne_eq, not_true_eq_false, if_false]
      have hf : ((Stream.out, p) :: t).filter (fun ev => ev.1 ≠ Stream.out)
          = t.filter (fun ev => ev.1 ≠ Stream.out) := by
        simp
      rw [hf, List.foldl_cons, hstep]
      apply ih
      · obtain ⟨a1, a2, a3, a4⟩ := hp.2
        obtain ⟨b1, b2, b3, b4⟩ := hv
        exact ⟨a1.trans b1, a2.trans b2, a3.trans b3, fun hb => (a4 hb).trans (b4 hb)⟩
      · exact hp.1
      · exact hflag
    · have hf : ((Stream.err, p) :: t).filter (fun ev => ev.1 ≠ Stream.out)
          = (Stream.err, p) :: t.filter (fun ev => ev.1 ≠ Stream.out) := by
        simp
      rw [hf, List.foldl_cons, List.foldl_cons]
      by_cases hfl : st.2.2 = none
      · have hfl' : st'.2.2 = none := hflag ▸ hfl
        rcases herr : cmd.Stderr with _ | w
        · have e1 : deliver cmd st (Stream.err, p) = st := by
            simp [deliver, hfl, herr]
          have e2 : deliver cmd st' (Stream.err, p) = st' := by
            simp [deliver, hfl', herr]
          rw [e1, e2]
          exact ih st st' hv hnone hflag
        · have hw := Writer_Write_visible b w p st.1 st'.1 hv
          have e1 : deliver cmd st (Stream.err, p)
              = ((Writer.Write st.1 w p).1, st.2.1, (Writer.Write st.1 w p).2.2) := by
            simp [deliver, hfl, herr]
          have e2 : deliver cmd st' (Stream.err, p)
              = ((Writer.Write st'.1 w p).1, st'.2.1, (Writer.Write st'.1 w p).2.2) := by
            simp [deliver, hfl', herr]
          rw [e1, e2]
          apply ih
          · exact hw.2
          · exact hnone
          · show (Writer.Write st.1 w p).2.2 = (Writer.Write st'.1 w p).2.2
            rw [hw.1]
      · have hfl' : st'.2.2 ≠ none := hflag ▸ hfl
        have e1 : deliver cmd st (Stream.err, p) = st := by
          simp [deliver, hfl]
        have e2 : deliver cmd st' (Stream.err, p) = st' := by
          simp [deliver, hfl']
        rw [e1, e2]
        exact ih st st' hv hnone hflag


/-- The stderr writer that `configureCmd` sets does not depend on the stdout
writer of the configuration. -/
theorem configureCmd_Stderr_stdout (cmd : Cmd) (config : runConfig) (so : Option Writer)
    (jb : Bool) :
    (configureCmd cmd { config with jsonOutputBuffer := jb, stdout := so }).1.Stderr
      = (configureCmd cmd config).1.Stderr := by
  obtain ⟨so', se, si, cb, ctx, env, le, tmo, dir, jb', jo, ca⟩ := config
  cases env <;> cases so <;> cases so' <;> cases se <;> cases cb <;>
    simp only [configureCmd] <;> split_ifs <;> rfl

/-- What the executor does to the writers a caller can name, when the stdout
of the command reaches the private buffers of the run alone: what it does
when the child writes nothing to its stdout (the stdout of the process apart,
for a verbose executor). -/
theorem Executor_Run_private (e : Executor) (h : Heap) (cmd : Cmd) (cb : Bool)
    (hout : cmd.Stdout
      = some (if cb then [WriterRef.json] ++ [WriterRef.combined] else [WriterRef.json])) :
    Heap.sameVisible (!e.verbose) (e.Run h cmd).1 (e.withoutStdout.Run h cmd).1 := by
  have key : ∃ ws : Writer,
      (if e.verbose then verboseCmd cmd else cmd).Stdout = some ws ∧
      ∀ r ∈ ws, r = WriterRef.json ∨ r = WriterRef.combined ∨
        (r = WriterRef.osStdout ∧ (!e.verbose) = false) := by
    cases e.verbose <;> cases cb
    · exact ⟨[WriterRef.json], by simpa using hout, by simp⟩
    · exact ⟨[WriterRef.json, WriterRef.combined], by simpa using hout, by simp⟩
    · exact ⟨[WriterRef.json, WriterRef.osStdout],
        by simp [verboseCmd, hout, multiWriter], by simp⟩
    · exact ⟨[WriterRef.json, WriterRef.combined, WriterRef.osStdout],
        by simp [verboseCmd, hout, multiWriter], by simp⟩
  obtain ⟨ws, hws, hpriv⟩ := key
  exact foldl_deliver_private (!e.verbose) _ ws hws hpriv (e.run cmd).events
    (h, none, none) (h, none, none) ⟨rfl, rfl, rfl, fun _ => rfl⟩ rfl rfl

/-- C26, refuted as stated: a verbose executor of the package runs a command
under the options `JSONOutput(target)` and `Stdout(os.Stdout)`, in either
order; the child prints `{"a":"b"}`, and the stdout of the process, which is
the writer the caller named, receives these bytes. -/
theorem C26_verbose_reaches_stdout :
    (Run [] verboseExecutor Heap.init (NewCommand "brew" [])
      [JSONOutput sampleTarget, Stdout [WriterRef.osStdout]]).1.osStdout = textAB ∧
    (Run [] verboseExecutor Heap.init (NewCommand "brew" [])
      [Stdout [WriterRef.osStdout], JSONOutput sampleTarget]).1.osStdout = textAB := by
  decide

/-- C26, amended: with a `JSONOutput` target among the options, whatever the
position of the option and whatever writers the other options or the command
name, `Run` wires the stdout of the command to the private JSON buffer, next
to the combined buffer when there is one, and to nothing else; the stderr
wiring is the one the options give without the redirection; and when the
executor runs the command, every bounded writer, every buffer of the caller
and the stderr of the process end up as they do when the child writes nothing
to its stdout. So does the stdout of the process unless the executor is
verbose: a verbose executor copies the stdout of the child to the stdout of
the process as well. -/
theorem C26_json_redirect (environ : List String) (e : Executor) (h : Heap) (cmd : Cmd)
    (opts : List ExecOption) (out : JsonTarget)
    (hjs : (appliedOpts environ opts).jsonOutput = some out) :
    (preparedCmd environ cmd opts).Stdout
      = some (if (appliedOpts environ opts).combinedOutputBuffer
          then [WriterRef.json, WriterRef.combined] else [WriterRef.json]) ∧
    (preparedCmd environ cmd opts).Stderr
      = (configureCmd cmd (appliedOpts environ opts)).1.Stderr ∧
    Heap.sameVisible (!e.verbose)
      (e.Run (preparedHeap environ h opts) (preparedCmd environ cmd opts)).1
      (e.withoutStdout.Run (preparedHeap environ h opts) (preparedCmd environ cmd opts)).1 := by
  have hcfg : configOf environ opts
      = { appliedOpts environ opts with
          jsonOutputBuffer := true, stdout := some [WriterRef.json] } := by
    unfold configOf
    rw [if_pos (by rw [hjs]; rfl)]
  have hf := preparedCmd_fields environ cmd opts
  have hso : (configOf environ opts).stdout = some [WriterRef.json] := by rw [hcfg]
  have hcb : (configOf environ opts).combinedOutputBuffer
      = (appliedOpts environ opts).combinedOutputBuffer := by rw [hcfg]
  have hstdout : (preparedCmd environ cmd opts).Stdout
      = some (if (appliedOpts environ opts).combinedOutputBuffer
          then [WriterRef.json] ++ [WriterRef.combined] else [WriterRef.json]) := by
    rw [hf.2.2.1, configureCmd_Stdout cmd (configOf environ opts) [WriterRef.json] hso, hcb]
  refine ⟨hstdout, ?_, ?_⟩
  · rw [hf.2.2.2.1, hcfg]
    exact configureCmd_Stderr_stdout cmd (appliedOpts environ opts) _ _
  · exact Executor_Run_private e _ _ _ hstdout

/-- C26, amended, for an executor that is not verbose, under the options
`Output(buffer 0)` and `JSONOutput(target)`: the buffer of the caller receives
nothing of what the child prints. -/
theorem C26_json_redirect_witness :
    (preparedCmd [] (NewCommand "brew" [])
      [Output [WriterRef.buffer 0], JSONOutput sampleTarget]).Stdout
      = some (if (appliedOpts []
          [Output [WriterRef.buffer 0], JSONOutput sampleTarget]).combinedOutputBuffer
          then [WriterRef.json, WriterRef.combined] else [WriterRef.json]) ∧
    (preparedCmd [] (NewCommand "brew" [])
      [Output [WriterRef.buffer 0], JSONOutput sampleTarget]).Stderr
      = (configureCmd (NewCommand "brew" []) (appliedOpts []
          [Output [WriterRef.buffer 0], JSONOutput sampleTarget])).1.Stderr ∧
    Heap.sameVisible (!(executorWith textAB none).verbose)
      ((executorWith textAB none).Run
        (preparedHeap [] Heap.init [Output [WriterRef.buffer 0], JSONOutput sampleTarget])
        (preparedCmd [] (NewCommand "brew" [])
          [Output [WriterRef.buffer 0], JSONOutput sampleTarget])).1
      ((executorWith textAB none).withoutStdout.Run
        (preparedHeap [] Heap.init [Output [WriterRef.buffer 0], JSONOutput sampleTarget])
        (preparedCmd [] (NewCommand "brew" [])
          [Output [WriterRef.buffer 0], JSONOutput sampleTarget])).1 :=
  C26_json_redirect [] (executorWith textAB none) Heap.init (NewCommand "brew" [])
    [Output [WriterRef.buffer 0], JSONOutput sampleTarget] sampleTarget rfl


/-! ## The rows of the decision table with a minimum, outside the conditions of C15 -/

/-- The rows of C15 with a minimum need the two conditions that its amended
form states. The comparison reads the output of a second subprocess: when that
output has no installed-version record, `Check` returns the pass code whatever
the versions are. And when the installed version or the minimum does not
parse, `Check` returns the pass code with the parse error. (Reversal flag off,
brew present, first subprocess succeeding with a well-formed output that has
an installed-version record.) -/
theorem Check_minimum_rows_otherwise (lib : Libs) (c : CarafeConfig) (environ : List String)
    (stat : String → StatResult) (item minVersion : String) (skipNotInstalled : Bool)
    (output : List Byte) (f : HomebrewFormula) (rest : List HomebrewFormula)
    (i : Installed) (is : List Installed)
    (hstat : stat c.GetBrewPath ≠ StatResult.notExist)
    (hrun : c.RunBrew environ 0 ["info", "--json", item] = (output, none))
    (hjson : lib.jsonUnmarshal output = .ok (f :: rest))
    (hI : f.Installed = i :: is) (hm : minVersion ≠ "") :
    (∀ (output₂ : List Byte) (f₂ : HomebrewFormula) (rest₂ : List HomebrewFormula),
      c.RunBrew environ 1 ["info", "--json", item] = (output₂, none) →
      lib.jsonUnmarshal output₂ = .ok (f₂ :: rest₂) → f₂.Installed = [] →
      (Check lib c environ stat item minVersion false skipNotInstalled).1 = (0, none)) ∧
    (c.RunBrew environ 1 ["info", "--json", item] = (output, none) → i.Version ≠ "" →
      ∀ err, lib.NewVersion i.Version = some err →
      (Check lib c environ stat item minVersion false skipNotInstalled).1 = (0, some err)) ∧
    (c.RunBrew environ 1 ["info", "--json", item] = (output, none) → i.Version ≠ "" →
      lib.NewVersion i.Version = none →
      ∀ err, lib.NewVersion minVersion = some err →
      (Check lib c environ stat item minVersion false skipNotInstalled).1 = (0, some err)) := by
  refine ⟨?_, ?_, ?_⟩
  · intro output₂ f₂ rest₂ hrun₂ hjson₂ hI₂
    simp [Check, hm, hstat, infoOutput, launches, hrun, hrun₂, installed, getVersion, hjson,
      hjson₂, hI, hI₂, VersionMeetsOrExceedsMinimum, printResultJSON]
  · intro hrun₂ hne err hv
    simp [Check, hm, hstat, infoOutput, launches, hrun, hrun₂, installed, getVersion, hjson,
      hI, hne, hv, VersionMeetsOrExceedsMinimum, printResultJSON]
  · intro hrun₂ hne hv err hvm
    simp [Check, hm, hstat, infoOutput, launches, hrun, hrun₂, installed, getVersion, hjson,
      hI, hne, hv, hvm, VersionMeetsOrExceedsMinimum, printResultJSON]

/-- Two inputs outside the conditions of C15, amended: `htop` 3.3.0 is removed
between the two calls of `brew`, and the check against the minimum 4.0.0
returns the pass code; the installed version is `3.3.0_1`, which does not
parse, and the check against the minimum 2.0.0 returns the pass code with the
parse error. -/
theorem Check_minimum_rows_otherwise_witness :
    (Check (sampleLibs (sampleTable "3.3.0")) driftConfig [] (fun _ => StatResult.ok)
      "htop" "4.0.0" false false).1 = (0, none) ∧
    (Check (sampleLibs (sampleTable "3.3.0_1")) (brewConfig (infoInstalled "3.3.0_1")) []
      (fun _ => StatResult.ok) "htop" "2.0.0" false false).1
      = (0, some (Error.malformedVersion "3.3.0_1")) :=
  ⟨(Check_minimum_rows_otherwise (sampleLibs (sampleTable "3.3.0")) driftConfig []
      (fun _ => StatResult.ok) "htop" "4.0.0" false (infoInstalled "3.3.0")
      { Name := "htop", Installed := [{ Version := "3.3.0" }] } [] { Version := "3.3.0" } []
      (by decide) (by decide) rfl rfl (by decide)).1
      infoNotInstalled { Name := "htop", Installed := [] } [] (by decide) rfl rfl,
    (Check_minimum_rows_otherwise (sampleLibs (sampleTable "3.3.0_1"))
      (brewConfig (infoInstalled "3.3.0_1")) [] (fun _ => StatResult.ok) "htop" "2.0.0" false
      (infoInstalled "3.3.0_1") { Name := "htop", Installed := [{ Version := "3.3.0_1" }] } []
      { Version := "3.3.0_1" } [] (by decide) (by decide) rfl rfl (by decide)).2.1
      (by decide) (by decide) (Error.malformedVersion "3.3.0_1") (by decide)⟩

end Carafe
